import Mathlib

/-!
# Media Sorter XXL: the per-file pipeline of `media_sorter.cpp`

A shallow embedding of the sorting core of `src/media_sorter.cpp`:
metadata extraction (`GetFileMetadata`, `GetGPSCoordinate`, `ReverseGeocode`),
the destination naming and collision probe of `ProcessFile`, the statistics
counters, the work queue `SafeQueue`, the directory walks of `ProcessDirectory`
and `ScanningThread`, the archive handling of `ProcessZip`, and the worker-pool
size computed by `ScanningThread`.

Modelling conventions.

* `std::wstring` / `fs::path` values are `String`; byte buffers that the code
  scans position by position (the EXIF date tag, the HTTP response) are
  `List Char`.
* `double` is Lean's `Float` (IEEE-754 binary64, the same type as the C++
  `double` of the target platform); where the text of a `double` is computed, the
  `double` is given by its sign bit, mantissa and exponent (`Binary64`).
* `WORD` fields of `SYSTEMTIME` are `Nat`; a value converted from `int` is
  reduced modulo `2 ^ 16` where the code performs that conversion.
* The statistics counters (`std::atomic<int>`) are `Nat`; a run never comes near
  `2 ^ 31` files, so wrap-around is outside the model.
* The functions are the sequential code of one thread. The geocoding cache is
  modelled in addition by the two critical sections of `ReverseGeocode` as steps
  that the calls of several workers interleave (`runWorkers`).
* The file system is the list of its regular files; two paths name the same file
  when their texts are equal.
* A directory tree is the list of its entries in the order in which the iterator
  visits them; a subdirectory records whether it can be opened.
* What the program does not decide itself (the network, failing file-system
  calls, the random numbers, `tar.exe`) is a field of `Env`.
-/

namespace MediaSorter

/-! ## Decimal text of integers (stream insertion, `std::to_wstring`) -/

/-- Stream insertion `ss << std::setw(2) << std::setfill(L'0') << n` of an unsigned
integer: the decimal text of `n`, padded on the left with `'0'` up to width 2 (a
longer text is not truncated). -/
def setw2 (n : Nat) : String :=
  String.mk (List.replicate (2 - (toString n).length) '0') ++ toString n

/-! ## `SYSTEMTIME` and `FileMetadata` (lines 450-454) -/

/-- The Win32 `SYSTEMTIME` record: eight `WORD` fields. -/
structure SYSTEMTIME where
  wYear : Nat
  wMonth : Nat
  wDayOfWeek : Nat
  wDay : Nat
  wHour : Nat
  wMinute : Nat
  wSecond : Nat
  wMilliseconds : Nat
deriving DecidableEq, Repr

/-- The record after `memset(&meta.date, 0, sizeof(SYSTEMTIME))` (line 458). -/
def SYSTEMTIME.zero : SYSTEMTIME :=
  { wYear := 0, wMonth := 0, wDayOfWeek := 0, wDay := 0,
    wHour := 0, wMinute := 0, wSecond := 0, wMilliseconds := 0 }

/-- The `struct FileMetadata` of lines 450-454. -/
structure FileMetadata where
  date : SYSTEMTIME
  hasDate : Bool
  location : String
deriving DecidableEq, Repr

/-! ## Paths: `fs::path::operator/` and `fs::path::extension` on Windows -/

/-- The directory separators of a Windows path. -/
def isSlash (c : Char) : Bool :=
  c == '\\' || c == '/'

/-- The number of characters of the root name of a path text (drive `X:`, the
device prefixes `\\?\`, `\\.\`, `\??\`, or a UNC server `\\server`), following the
root-name scan of the Windows implementation of `std::filesystem::path`. -/
def rootNameLength (p : List Char) : Nat :=
  match p with
  | [] => 0
  | [_] => 0
  | c0 :: c1 :: rest =>
    if c0.isAlpha && c1 == ':' then 2
    else if !isSlash c0 then 0
    else
      match rest with
      | [] => 0
      | [c2] => if isSlash c1 && !isSlash c2 then 3 else 0
      | c2 :: c3 :: rest4 =>
        if isSlash c3 && (rest4.head?.all fun c => !isSlash c)
            && ((isSlash c1 && (c2 == '?' || c2 == '.')) || (c1 == '?' && c2 == '?')) then 3
        else if isSlash c1 && !isSlash c2 then
          3 + ((c3 :: rest4).takeWhile fun c => !isSlash c).length
        else 0

/-- The test `path::is_absolute()`: a drive needs a root directory after it, any
other root name makes the path absolute. -/
def isAbsolute (p : List Char) : Bool :=
  match p with
  | c0 :: c1 :: rest =>
    if c0.isAlpha && c1 == ':' then rest.head?.any isSlash
    else rootNameLength p != 0
  | _ => false

/-- The path `lhs / rhs` of `std::filesystem` on Windows, on the path texts.
An absolute `rhs`, or one with a different root name, replaces `lhs`; a `rhs` with
a root directory keeps only the root name of `lhs`; otherwise the text of `rhs`
(after its root name) is appended, after a separator when `lhs` has no separator at
its end. -/
def pathAppend (lhs rhs : String) : String :=
  let my := lhs.data
  let other := rhs.data
  let myRoot := rootNameLength my
  let otherRoot := rootNameLength other
  if isAbsolute other then rhs
  else if otherRoot != 0 && other.take otherRoot != my.take myRoot then rhs
  else if (other.drop otherRoot).head?.any isSlash then
    String.mk (my.take myRoot ++ other.drop otherRoot)
  else if myRoot = my.length then
    String.mk (my ++ (if 3 ≤ myRoot then ['\\'] else []) ++ other.drop otherRoot)
  else
    String.mk (my ++ (if my.getLast?.any isSlash then [] else ['\\']) ++ other.drop otherRoot)

/-- The file-name part of a path text: what follows the last separator. -/
def filenameChars (p : List Char) : List Char :=
  (p.reverse.takeWhile fun c => !isSlash c).reverse

/-- The `path::extension()` of a file name: the text from its last `.` on, empty
when there is no `.`, when the only `.` is the first character, or for `..`. -/
def extensionOfName (name : List Char) : List Char :=
  let tail := (name.reverse.takeWhile fun c => c != '.').reverse
  if tail.length = name.length then []
  else if tail.length + 1 = name.length then []
  else if name = ['.', '.'] then []
  else '.' :: tail

/-- The call `filePath.extension().wstring()` (line 572). -/
def extension (filePath : String) : String :=
  String.mk (extensionOfName (filenameChars filePath.data))

/-! ## GDI+ property items and the per-file facts the pipeline reads -/

/-- The GDI+ constant `PropertyTagTypeRational` (from `gdiplusimaging.h`). -/
def PropertyTagTypeRational : Nat := 5

/-- A GDI+ `PropertyItem` as the code reads it: its `type`, and its `value` buffer
seen as an array of `long` (`longs`) and as a NUL-terminated `char` string (`text`,
`none` for a null `value` pointer). Reading past the end of the buffer yields 0. -/
structure PropertyItem where
  type : Nat
  longs : List Int
  text : Option (List Char)

/-- What `Gdiplus::Image` exposes of a decodable image: the EXIF items that
`GetPropertyItem` returns with status `Ok` (`none` when the item is absent). -/
structure ImageProps where
  dateTimeOriginal : Option PropertyItem
  gpsLatitude : Option PropertyItem
  gpsLatitudeRef : Option PropertyItem
  gpsLongitude : Option PropertyItem
  gpsLongitudeRef : Option PropertyItem

/-- A regular file: its byte size, its last-write time as `FileTimeToSystemTime`
delivers it (`none` when the handle or the time cannot be obtained) and, when GDI+
decodes it as an image, its property items. -/
structure FileInfo where
  size : Nat
  lastWrite : Option SYSTEMTIME
  image : Option ImageProps

/-- An entry of a directory as `fs::recursive_directory_iterator` meets it: a regular
file with its facts, or a subdirectory with its entries in enumeration order and the
flag whether the iterator can open it. -/
inductive DirEntry where
  | file (name : String) (info : FileInfo)
  | dir (name : String) (canOpen : Bool) (entries : List DirEntry)

/-! ## `RationalToDouble` and `GetGPSCoordinate` (lines 337-362) -/

/-- The function `RationalToDouble` of lines 337-344. -/
def RationalToDouble (item : PropertyItem) (index : Nat) : Float :=
  if item.type ≠ PropertyTagTypeRational then 0.0
  else
    let num := item.longs.getD (index * 2) 0
    let den := item.longs.getD (index * 2 + 1) 0
    if den = 0 then 0.0
    else Float.ofInt num / Float.ofInt den

/-- The function `GetGPSCoordinate` of lines 347-362; `itemRef = none` is the null
pointer. -/
def GetGPSCoordinate (itemInfo : PropertyItem) (itemRef : Option PropertyItem) : Float :=
  let deg := RationalToDouble itemInfo 0
  let min := RationalToDouble itemInfo 1
  let sec := RationalToDouble itemInfo 2
  let result := deg + min / 60.0 + sec / 3600.0
  match itemRef.bind fun r => r.text with
  | some value =>
    let ref := value.headD (Char.ofNat 0)
    if ref = 'S' ∨ ref = 'W' then result * -1.0 else result
  | none => result

/-- The value of a rational of the specification: numerator over denominator, and
`0.0` when the denominator is 0. -/
def rationalValue (num den : Int) : Float :=
  if den = 0 then 0.0 else Float.ofInt num / Float.ofInt den

/-- The decimal degrees of the specification: `deg + min/60 + sec/3600`. -/
def dmsDecimal (deg min sec : Float) : Float :=
  deg + min / 60.0 + sec / 3600.0

/-- The sign rule of the specification: south and west negate (a multiplication by
`-1.0`), every other reference letter leaves the value as it is. -/
def applyReference (letter : Char) (value : Float) : Float :=
  if letter = 'S' ∨ letter = 'W' then value * -1.0 else value

/-! ## `ReverseGeocode` (lines 364-448) -/

/-- The call `std::string::find(pattern, pos)` continued from a suffix `s` of the
text that starts at index `i`. -/
def findFrom (pattern : List Char) : List Char → Nat → Option Nat
  | [], i => if pattern.isEmpty then some i else none
  | c :: s, i => if pattern.isPrefixOf (c :: s) then some i else findFrom pattern s (i + 1)

/-- The call `text.find(pattern, pos)` of `std::string`: the least index `≥ pos`
at which `pattern` occurs, `none` for `npos`. -/
def find (text pattern : List Char) (pos : Nat) : Option Nat :=
  if text.length < pos then none else findFrom pattern (text.drop pos) pos

/-- The lambda `extract` of lines 408-424 applied to `response`. The conversion
`MultiByteToWideChar(CP_UTF8, ...)` is the identity on the decoded text and, with
the terminator counted, never reports a length of 0. -/
def extract (response : List Char) (key : String) : String :=
  let search := "\"" ++ key ++ "\":\""
  match find response search.data 0 with
  | some pos =>
    match find response "\"".data (pos + search.length) with
    | some e =>
      String.mk ((response.drop (pos + search.length)).take (e - (pos + search.length)))
    | none => ""
  | none => ""

/-- Lines 426-429: the place name scanned out of a received response. -/
def placeName (response : List Char) : String :=
  let result := extract response "city"
  let result := if result = "" then extract response "town" else result
  let result := if result = "" then extract response "village" else result
  if result = "" then extract response "municipality" else result

/-- The four fields in the order lines 426-429 try them. -/
def placeFields : List String :=
  ["city", "town", "village", "municipality"]

/-- The scan finds the string field `key` in the response: the text `"key":"` occurs. -/
def fieldPresent (response : List Char) (key : String) : Bool :=
  (find response ("\"" ++ key ++ "\":\"").data 0).isSome

/-- The place name as the specification words it: the value of the first of the four
fields that is present, and the empty text when none is present. -/
def firstPresentValue (response : List Char) : String :=
  match placeFields.find? (fieldPresent response) with
  | some key => extract response key
  | none => ""

/-- The geocoding state: `g_LocationCache` as an association list (the first entry
of a key is its current value) and a count of the passes through the network block
of lines 380-441. -/
structure GeoState where
  cache : List (String × String)
  netCalls : Nat

/-- The function `ReverseGeocode` of lines 364-448. `fixed3` is the stream formatting
`std::fixed << std::setprecision(3)` of a `double`; `http lat lon` is the outcome of
the WinHTTP exchange for these coordinates: the response body, or `none` when a
WinHTTP call of the chain fails. The type `α` is the type of the coordinates:
`Float` in the pipeline, `Binary64` where the text of the key is computed. -/
def ReverseGeocode {α : Type} (fixed3 : α → String) (http : α → α → Option (List Char))
    (lat lon : α) (g : GeoState) : String × GeoState :=
  let key := fixed3 lat ++ "_" ++ fixed3 lon
  match g.cache.lookup key with
  | some cached => (cached, g)
  | none =>
    let result :=
      match http lat lon with
      | some response => placeName response
      | none => ""
    (result, { cache := (key, result) :: g.cache, netCalls := g.netCalls + 1 })

/-- A sequence of `ReverseGeocode` calls made one after the other, each with its own
network outcome and coordinates. -/
def geocodeAll {α : Type} (fixed3 : α → String) :
    List ((α → α → Option (List Char)) × α × α) → GeoState → GeoState
  | [], g => g
  | call :: calls, g =>
    geocodeAll fixed3 calls (ReverseGeocode fixed3 call.1 call.2.1 call.2.2 g).2

/-! ## The text of the cache key (line 367) -/

/-- A finite `double` by its sign bit and its exact magnitude
`mantissa * 2 ^ exponent`. -/
structure Binary64 where
  negative : Bool
  mantissa : Nat
  exponent : Int
deriving DecidableEq, Repr

/-- The magnitude of a `double` in thousandths, rounded to the nearest whole number,
a tie going to the even one: the digits that a stream prints for it with
`std::fixed << std::setprecision(3)`. -/
def Binary64.thousandths (x : Binary64) : Nat :=
  match x.exponent with
  | Int.ofNat e => x.mantissa * 2 ^ e * 1000
  | Int.negSucc e =>
    let scaled := x.mantissa * 1000
    let unit := 2 ^ (e + 1)
    if unit < 2 * (scaled % unit) ∨ (2 * (scaled % unit) = unit ∧ scaled / unit % 2 = 1) then
      scaled / unit + 1
    else scaled / unit

/-- Stream insertion `keyInfo << std::fixed << std::setprecision(3) << x` of a finite
`double` (line 367): a minus sign when the sign bit is set, also in front of a text
of zeros, then the integer part, a point and three decimals. -/
def streamFixed3 (x : Binary64) : String :=
  (if x.negative then "-" else "") ++ toString (x.thousandths / 1000) ++ "."
    ++ String.mk [Nat.digitChar (x.thousandths / 100 % 10),
        Nat.digitChar (x.thousandths / 10 % 10), Nat.digitChar (x.thousandths % 10)]

/-- The specification's rounding of a coordinate to 3 decimals, as a number of
thousandths: minus zero and zero are the same number. -/
def roundedTo3 (x : Binary64) : Int :=
  if x.negative then -(x.thousandths : Int) else (x.thousandths : Int)

/-! ## `ReverseGeocode` as its two critical sections -/

/-- Lines 366-375 of `ReverseGeocode`: the key is built and looked up under
`g_LocationCacheMutex`; the cached text when the key is found (the call returns it),
`none` on a miss. -/
def cacheLookup {α : Type} (fixed3 : α → String) (lat lon : α) (g : GeoState) :
    Option String :=
  g.cache.lookup (fixed3 lat ++ "_" ++ fixed3 lon)

/-- Lines 377-447 of `ReverseGeocode`, which a call runs after a miss: the network
block and then, under `g_LocationCacheMutex` again, the assignment
`g_LocationCache[key] = result` of line 445, whether or not the key is in the cache
by now. The network block does not read the cache, so it is taken together with the
assignment. -/
def fetchAndStore {α : Type} (fixed3 : α → String) (http : α → α → Option (List Char))
    (lat lon : α) (g : GeoState) : String × GeoState :=
  let key := fixed3 lat ++ "_" ++ fixed3 lon
  let result :=
    match http lat lon with
    | some response => placeName response
    | none => ""
  (result, { cache := (key, result) :: g.cache, netCalls := g.netCalls + 1 })

/-- A call of `ReverseGeocode` that has left the first critical section with a miss
and has not yet reached the second one. -/
structure PendingCall (α : Type) where
  http : α → α → Option (List Char)
  lat : α
  lon : α

/-- The key of a pending call. -/
def PendingCall.key {α : Type} (fixed3 : α → String) (c : PendingCall α) : String :=
  fixed3 c.lat ++ "_" ++ fixed3 c.lon

/-- A step of the workers on the cache: a worker enters `ReverseGeocode` and runs
lines 366-375, or the pending call number `i` runs lines 377-447. -/
inductive GeoStep (α : Type) where
  | enter (http : α → α → Option (List Char)) (lat lon : α)
  | finish (i : Nat)

/-- The geocoding state and the pending calls after a sequence of steps of the
workers, in the order in which the steps take the cache mutex. A call that finds its
key returns at once; a call that misses becomes pending. -/
def runWorkers {α : Type} (fixed3 : α → String) :
    List (GeoStep α) → GeoState × List (PendingCall α) → GeoState × List (PendingCall α)
  | [], state => state
  | GeoStep.enter http lat lon :: steps, state =>
    match cacheLookup fixed3 lat lon state.1 with
    | some _ => runWorkers fixed3 steps state
    | none =>
      runWorkers fixed3 steps (state.1, state.2 ++ [{ http := http, lat := lat, lon := lon }])
  | GeoStep.finish i :: steps, state =>
    match state.2.get? i with
    | none => runWorkers fixed3 steps state
    | some c =>
      runWorkers fixed3 steps
        ((fetchAndStore fixed3 c.http c.lat c.lon state.1).2, state.2.eraseIdx i)

/-- The steps of calls made one after the other: each call runs its first critical
section and, if it missed, its second one before the next call enters. -/
def sequentialSteps {α : Type} (calls : List ((α → α → Option (List Char)) × α × α)) :
    List (GeoStep α) :=
  calls.flatMap fun call => [GeoStep.enter call.1 call.2.1 call.2.2, GeoStep.finish 0]

/-! ## The world the pipeline runs in -/

/-- The counters `g_TotalFiles`, `g_ProcessedCount`, `g_SuccessCount`,
`g_SkippedCount` (lines 133-136). -/
structure Stats where
  totalFiles : Nat
  processed : Nat
  succeeded : Nat
  skipped : Nat
deriving DecidableEq, Repr

/-- The counters after the reset of lines 759-762. -/
def Stats.reset : Stats :=
  { totalFiles := 0, processed := 0, succeeded := 0, skipped := 0 }

/-- The state read and written by the pipeline: the flag `g_StopRequested`, the
root `g_TargetPath`, the counters, the regular files of the file system (path and
facts, the first entry of a path counts), the geocoding state, and the scratch
directories of `ProcessZip` that exist. The field `observed` is a ghost record of
every value the counters have taken, newest first: each counter update pushes the
new counter values onto it. -/
structure World where
  stopRequested : Bool
  targetPath : String
  stats : Stats
  observed : List Stats
  files : List (String × FileInfo)
  geo : GeoState
  scratch : List String

/-- What the environment decides: the number formatting of the C++ stream, the
outcome of the HTTP exchange, which file-system calls fail, the numbers that the
random generator of `GenerateTempSubfolderName` draws while an archive is handled
(`random zipPath i` is draw number `i`), and what `tar.exe` does for an archive and
a scratch directory: whether its exit code is 0 and the entries it leaves in the
scratch directory. -/
structure Env where
  fixed3 : Float → String
  http : Float → Float → Option (List Char)
  createDirectoriesFails : String → Bool
  existsFails : String → Bool
  copyFileFails : String → String → Bool
  random : String → Nat → Nat
  tar : String → String → Bool × List DirEntry
  removeAllFails : String → Bool

/-- The update `g_ProcessedCount++` (line 580). -/
def World.incProcessed (w : World) : World :=
  let s := { w.stats with processed := w.stats.processed + 1 }
  { w with stats := s, observed := s :: w.observed }

/-- The update `g_SkippedCount++` (lines 618, 631, 637). -/
def World.incSkipped (w : World) : World :=
  let s := { w.stats with skipped := w.stats.skipped + 1 }
  { w with stats := s, observed := s :: w.observed }

/-- The update `g_SuccessCount++` (line 628). -/
def World.incSuccess (w : World) : World :=
  let s := { w.stats with succeeded := w.stats.succeeded + 1 }
  { w with stats := s, observed := s :: w.observed }

/-- The call `fs::exists(p)` when it does not throw. -/
def fileExists (w : World) (p : String) : Bool :=
  (w.files.lookup p).isSome

/-- The call `fs::file_size(p, ec)`: the size of the regular file, and
`static_cast<uintmax_t>(-1)` on error. -/
def file_size (w : World) (p : String) : Nat :=
  match w.files.lookup p with
  | some info => info.size
  | none => 2 ^ 64 - 1

/-! ## `GetFileMetadata` (lines 456-534) -/

/-- The test `isspace` of the C locale, as used by `std::stoi`. -/
def isSpaceC (c : Char) : Bool :=
  c == ' ' || (9 ≤ c.toNat && c.toNat ≤ 13)

/-- The decimal value of a run of digit characters. -/
def digitsValue (ds : List Char) : Nat :=
  ds.foldl (fun acc c => 10 * acc + (c.toNat - 48)) 0

/-- The optional sign in front of a number: whether it is `-`, and the text after it. -/
def splitSign : List Char → Bool × List Char
  | '-' :: t => (true, t)
  | '+' :: t => (false, t)
  | s => (false, s)

/-- The call `std::stoi(s)`: leading white space is skipped, an optional sign is
read, then the longest run of decimal digits; `none` stands for the exceptions
`std::invalid_argument` (no digit) and `std::out_of_range` (not an `int`). -/
def stoi (s : List Char) : Option Int :=
  let signed := splitSign (s.dropWhile isSpaceC)
  let digits := signed.2.takeWhile Char.isDigit
  if digits.isEmpty then none
  else
    let v : Int := if signed.1 then -(digitsValue digits : Int) else (digitsValue digits : Int)
    if v < -2 ^ 31 ∨ 2 ^ 31 - 1 < v then none else some v

/-- The conversion of an `int` to a `WORD` on assignment. -/
def toWORD (v : Int) : Nat :=
  (v % 65536).toNat

/-- Lines 481-491: the six assignments from the tag text, each made as soon as its
`std::stoi` returns; the first `std::stoi` that throws ends the block through
`catch (...)`, with `hasDate` still false. -/
def parseDateTag (dateStr : List Char) (md : FileMetadata) : FileMetadata :=
  if dateStr.length < 19 then md
  else
    match stoi (dateStr.take 4) with
    | none => md
    | some year =>
      let md := { md with date := { md.date with wYear := toWORD year } }
      match stoi ((dateStr.drop 5).take 2) with
      | none => md
      | some month =>
        let md := { md with date := { md.date with wMonth := toWORD month } }
        match stoi ((dateStr.drop 8).take 2) with
        | none => md
        | some day =>
          let md := { md with date := { md.date with wDay := toWORD day } }
          match stoi ((dateStr.drop 11).take 2) with
          | none => md
          | some hour =>
            let md := { md with date := { md.date with wHour := toWORD hour } }
            match stoi ((dateStr.drop 14).take 2) with
            | none => md
            | some minute =>
              let md := { md with date := { md.date with wMinute := toWORD minute } }
              match stoi ((dateStr.drop 17).take 2) with
              | none => md
              | some second =>
                { md with date := { md.date with wSecond := toWORD second }, hasDate := true }

/-- Lines 462-469: the date seeded from the last-write time; it stays all zero when
the file cannot be opened or its time cannot be read. -/
def seedDate (file : Option FileInfo) : SYSTEMTIME :=
  match file.bind fun f => f.lastWrite with
  | some t => t
  | none => SYSTEMTIME.zero

/-- The function `GetFileMetadata` of lines 456-534. -/
def GetFileMetadata (env : Env) (path : String) (w : World) : FileMetadata × World :=
  let file := w.files.lookup path
  let md : FileMetadata := { date := seedDate file, hasDate := false, location := "" }
  match file.bind fun f => f.image with
  | none => (md, w)
  | some image =>
    let md :=
      match image.dateTimeOriginal.bind fun item => item.text with
      | some dateStr => parseDateTag dateStr md
      | none => md
    match image.gpsLatitude, image.gpsLatitudeRef, image.gpsLongitude, image.gpsLongitudeRef with
    | some latItem, some latRefItem, some lonItem, some lonRefItem =>
      let lat := GetGPSCoordinate latItem (some latRefItem)
      let lon := GetGPSCoordinate lonItem (some lonRefItem)
      let r := ReverseGeocode env.fixed3 env.http lat lon w.geo
      ({ md with location := r.1 }, { w with geo := r.2 })
    | _, _, _, _ => (md, w)

/-- The text of the capture-date item (EXIF 0x9003) that `GetFileMetadata` reads for
a path: `none` when the path is no file, the file is no decodable image, the item is
absent or its value pointer is null. -/
def captureDateTag (w : World) (path : String) : Option (List Char) :=
  ((w.files.lookup path).bind fun f => f.image).bind fun image =>
    image.dateTimeOriginal.bind fun item => item.text

/-- A tag text of at least 19 characters of the shape `YYYY:MM:DD HH:MM:SS`: decimal
digits in the six fields, `:` and the blank as separators. -/
def isDateShaped : List Char → Bool
  | y1 :: y2 :: y3 :: y4 :: p1 :: m1 :: m2 :: p2 :: d1 :: d2 :: p3 :: h1 :: h2 :: p4 ::
      n1 :: n2 :: p5 :: s1 :: s2 :: _ =>
    y1.isDigit && y2.isDigit && y3.isDigit && y4.isDigit && p1 == ':'
      && m1.isDigit && m2.isDigit && p2 == ':' && d1.isDigit && d2.isDigit && p3 == ' '
      && h1.isDigit && h2.isDigit && p4 == ':' && n1.isDigit && n2.isDigit && p5 == ':'
      && s1.isDigit && s2.isDigit
  | _ => false

/-! ## `ProcessFile` (lines 567-640) -/

/-- Lines 588-590 and 607: the text of `targetDir`. -/
def targetDirOf (targetPath : String) (date : SYSTEMTIME) : String :=
  targetPath ++ "\\" ++ toString date.wYear ++ "\\"
    ++ toString date.wYear ++ "-" ++ setw2 date.wMonth ++ "\\"

/-- Lines 593-605: the text of `baseName`. -/
def baseNameOf (md : FileMetadata) : String :=
  let name := toString md.date.wYear ++ "-" ++ setw2 md.date.wMonth ++ "-"
    ++ setw2 md.date.wDay ++ " " ++ setw2 md.date.wHour ++ "-"
    ++ setw2 md.date.wMinute ++ "-" ++ setw2 md.date.wSecond
  if md.location = "" then name else name ++ " " ++ md.location

/-- How the loop of lines 615-624 is left. -/
inductive ProbeResult where
  | copyTo (targetFile : String)
  | duplicate (targetFile : String)
  | threw
  | unfinished
deriving DecidableEq, Repr

/-- The loop of lines 615-624 from the state `(dup, targetFile)`, for at most `fuel`
evaluations of its condition: `copyTo` when `fs::exists(targetFile)` is false,
`duplicate` when the sizes agree (line 617), `threw` when `fs::exists` throws, and
`unfinished` when the fuel is used up. -/
def probe (env : Env) (w : World) (filePath targetDir baseName ext : String) :
    Nat → Nat → String → ProbeResult
  | 0, _, _ => ProbeResult.unfinished
  | fuel + 1, dup, targetFile =>
    if env.existsFails targetFile then ProbeResult.threw
    else if !fileExists w targetFile then ProbeResult.copyTo targetFile
    else if file_size w targetFile = file_size w filePath then ProbeResult.duplicate targetFile
    else
      probe env w filePath targetDir baseName ext fuel (dup + 1)
        (pathAppend targetDir (baseName ++ "_" ++ toString (dup + 1) ++ ext))

/-- The call `fs::copy_file(from, to)` of line 627 (no overwrite option): `none`
when it throws, which it does when `from` is no regular file, when `to` exists, or
when the environment fails the copy; otherwise the file system with the copy. -/
def copy_file (env : Env) (w : World) (src dst : String) : Option World :=
  match w.files.lookup src with
  | none => none
  | some info =>
    if fileExists w dst || env.copyFileFails src dst then none
    else some { w with files := w.files ++ [(dst, info)] }

/-- The function `ProcessFile` of lines 567-640. The archive branch is the given
`ProcessZip`. The loop runs with more fuel than there are files, which it never
uses up. Every exception of lines 609-627 ends in the handler of lines 630-635. -/
def ProcessFile (env : Env) (ProcessZip : String → World → World) (filePath : String)
    (w : World) : World :=
  if w.stopRequested then w
  else
    let ext := extension filePath
    if ext = ".zip" ∨ ext = ".ZIP" then ProcessZip filePath w
    else
      let w := w.incProcessed
      let r := GetFileMetadata env filePath w
      let md := r.1
      let w := r.2
      let targetDir := targetDirOf w.targetPath md.date
      let baseName := baseNameOf md
      if env.createDirectoriesFails targetDir then w.incSkipped
      else
        match probe env w filePath targetDir baseName ext (w.files.length + 1) 0
            (pathAppend targetDir (baseName ++ ext)) with
        | ProbeResult.duplicate _ => w.incSkipped
        | ProbeResult.threw => w.incSkipped
        | ProbeResult.unfinished => w
        | ProbeResult.copyTo targetFile =>
          match copy_file env w filePath targetFile with
          | some w => w.incSuccess
          | none => w.incSkipped

/-- The world of `ProcessFile` after lines 580-584, when it decides the outcome of a
regular file: the file is counted as processed and the geocoding state is the one
`GetFileMetadata` leaves. -/
def counted (env : Env) (filePath : String) (w : World) : World :=
  { w.incProcessed with geo := (GetFileMetadata env filePath w).2.geo }

/-- The name the loop of lines 611-624 holds in `targetFile` when `dup = k`: line 611
for `k = 0`, line 623 for the later ones. -/
def candidate (targetDir baseName ext : String) (k : Nat) : String :=
  if k = 0 then pathAppend targetDir (baseName ++ ext)
  else pathAppend targetDir (baseName ++ "_" ++ toString k ++ ext)

/-! ## The layout the specification documents -/

/-- A number written with exactly two decimal digits (`MM`, `DD`, `HH`, `mm`, `ss`). -/
def twoDigits (n : Nat) : String :=
  String.mk [Nat.digitChar (n / 10), Nat.digitChar (n % 10)]

/-- A number written with exactly four decimal digits (`YYYY`). -/
def fourDigits (n : Nat) : String :=
  String.mk [Nat.digitChar (n / 1000), Nat.digitChar (n / 100 % 10),
    Nat.digitChar (n / 10 % 10), Nat.digitChar (n % 10)]

/-- The documented directory `<targetRoot>\YYYY\YYYY-MM\`. -/
def layoutDirectory (targetRoot : String) (date : SYSTEMTIME) : String :=
  targetRoot ++ "\\" ++ fourDigits date.wYear ++ "\\"
    ++ fourDigits date.wYear ++ "-" ++ twoDigits date.wMonth ++ "\\"

/-- The documented file name `YYYY-MM-DD HH-mm-ss[ Location].ext`. -/
def layoutFileName (date : SYSTEMTIME) (location ext : String) : String :=
  fourDigits date.wYear ++ "-" ++ twoDigits date.wMonth ++ "-" ++ twoDigits date.wDay
    ++ " " ++ twoDigits date.wHour ++ "-" ++ twoDigits date.wMinute ++ "-"
    ++ twoDigits date.wSecond ++ (if location = "" then "" else " " ++ location) ++ ext

/-- The documented name on a collision: the suffix `_1`, `_2`, ... is inserted before
the extension; `k = 0` is the name without suffix. -/
def suffixedName (directory baseName ext : String) (k : Nat) : String :=
  directory ++ baseName ++ (if k = 0 then "" else "_" ++ toString k) ++ ext

/-- The files of the world in the directory `dir` and below: the entries whose path
starts with the text of `dir`, which ends in a separator. -/
def filesBelow (w : World) (dir : String) : List (String × FileInfo) :=
  w.files.filter fun f => dir.data.isPrefixOf f.1.data

/-- The specification's notion of a direct child: the path `p` is the text of the
directory `dir` (which ends in a separator) followed by the file name of `p`, which
is not empty. -/
def isDirectChild (dir p : String) : Bool :=
  filenameChars p.data != [] && p.data == dir.data ++ filenameChars p.data

/-! ## `WorkerThread` (lines 741-747) and the counter bookkeeping -/

/-- The function `WorkerThread` of lines 741-747, for the jobs this worker pops from
the queue, in pop order, until `pop` reports the end of the work. -/
def WorkerThread (env : Env) (ProcessZip : String → World → World) :
    List String → World → World
  | [], w => w
  | filePath :: queue, w =>
    if w.stopRequested then w
    else WorkerThread env ProcessZip queue (ProcessFile env ProcessZip filePath w)

/-- The counters are settled: `processed` equals `succeeded + skipped` now, and every
value the counters have taken so far had `processed` equal to `succeeded + skipped` or
one above it (a file counted as processed whose outcome is not yet counted). -/
def World.settled (w : World) : Prop :=
  w.stats.processed = w.stats.succeeded + w.stats.skipped ∧
    ∀ s ∈ w.observed,
      s.processed = s.succeeded + s.skipped ∨ s.processed = s.succeeded + s.skipped + 1

/-! ## `SafeQueue` (lines 26-64) -/

/-- The state of a `SafeQueue<T>`: the items of `m_queue`, front first, and the flag
`m_finished`. Each member function runs under `m_mutex`, so it is one step on this
state. -/
structure SafeQueue (T : Type) where
  m_queue : List T
  m_finished : Bool

/-- A freshly constructed queue (line 792). -/
def SafeQueue.empty (T : Type) : SafeQueue T :=
  { m_queue := [], m_finished := false }

/-- The member `push` (lines 35-41). -/
def SafeQueue.push {T : Type} (q : SafeQueue T) (item : T) : SafeQueue T :=
  { q with m_queue := q.m_queue ++ [item] }

/-- What a call of `pop` does: it returns `ok` with the output variable `item` and the
queue it leaves, or it stays in `m_cond.wait` because the queue is empty and not
finished. -/
inductive PopResult (T : Type) where
  | returned (ok : Bool) (item : T) (queue : SafeQueue T)
  | waiting

/-- The member `pop` (lines 43-50) for the output variable holding `item`. -/
def SafeQueue.pop {T : Type} (q : SafeQueue T) (item : T) : PopResult T :=
  if q.m_queue.isEmpty && !q.m_finished then PopResult.waiting
  else
    match q.m_queue with
    | [] => PopResult.returned false item q
    | front :: rest => PopResult.returned true front { q with m_queue := rest }

/-- The member `set_finished` (lines 52-58). -/
def SafeQueue.set_finished {T : Type} (q : SafeQueue T) : SafeQueue T :=
  { q with m_finished := true }

/-- The member `size` (lines 60-63). -/
def SafeQueue.size {T : Type} (q : SafeQueue T) : Nat :=
  q.m_queue.length

/-- An operation on the queue by some thread; `pop item` is a call of `pop` whose
output variable holds `item` before the call. -/
inductive QueueOp (T : Type) where
  | push (item : T)
  | pop (item : T)
  | set_finished

/-- The queue after a sequence of operations, together with the items that the
successful `pop` calls returned, in the order of the calls. A `pop` that returns
false or that waits delivers no item and leaves the queue as it is. -/
def runQueue {T : Type} : List (QueueOp T) → SafeQueue T × List T → SafeQueue T × List T
  | [], state => state
  | QueueOp.push item :: ops, state => runQueue ops (state.1.push item, state.2)
  | QueueOp.set_finished :: ops, state => runQueue ops (state.1.set_finished, state.2)
  | QueueOp.pop item :: ops, state =>
    match state.1.pop item with
    | PopResult.returned true front q => runQueue ops (q, state.2 ++ [front])
    | _ => runQueue ops state

/-- The items pushed by a sequence of operations, in push order. -/
def pushedItems {T : Type} : List (QueueOp T) → List T
  | [] => []
  | QueueOp.push item :: ops => item :: pushedItems ops
  | _ :: ops => pushedItems ops

/-- How far a worker has come. -/
inductive WorkerStatus where
  | exited
  | waiting
  | running
deriving DecidableEq, Repr

/-- The function `WorkerThread` of lines 741-747 on the queue itself, with the
`ProcessFile` it calls as a parameter, for a worker that has the queue to itself,
for at most `fuel` calls of `pop`: the worker has `exited` the loop, is `waiting`
inside `pop`, or is still `running` when the fuel is used up. -/
def WorkerThreadOn (ProcessFile : String → World → World) :
    Nat → SafeQueue String → String → World → WorkerStatus × SafeQueue String × World
  | 0, q, _, w => (WorkerStatus.running, q, w)
  | fuel + 1, q, filePath, w =>
    match q.pop filePath with
    | PopResult.waiting => (WorkerStatus.waiting, q, w)
    | PopResult.returned false _ q2 => (WorkerStatus.exited, q2, w)
    | PopResult.returned true item q2 =>
      if w.stopRequested then (WorkerStatus.exited, q2, w)
      else WorkerThreadOn ProcessFile fuel q2 item (ProcessFile item w)

/-! ## Directory walks: `fs::recursive_directory_iterator` -/

mutual
/-- The regular files that the iterator yields for one entry of the directory `dir`
before it ends or throws, and whether it ends without throwing. It throws when it
is to descend into a subdirectory that cannot be opened (the code passes no
`skip_permission_denied` option). -/
def walkEntry (dir : String) : DirEntry → List String × Bool
  | DirEntry.file name _ => ([pathAppend dir name], true)
  | DirEntry.dir name canOpen entries =>
    if canOpen then walkList (pathAppend dir name) entries else ([], false)
termination_by structural e => e
/-- The regular files that the iterator yields for the entries of `dir`, in order,
before it ends or throws, and whether it ends without throwing. -/
def walkList (dir : String) : List DirEntry → List String × Bool
  | [] => ([], true)
  | e :: rest =>
    if (walkEntry dir e).2 then
      ((walkEntry dir e).1 ++ (walkList dir rest).1, (walkList dir rest).2)
    else walkEntry dir e
termination_by structural l => l
end

mutual
/-- The regular files under one entry that lie in directories which can be opened. -/
def readableEntry (dir : String) : DirEntry → List String
  | DirEntry.file name _ => [pathAppend dir name]
  | DirEntry.dir name canOpen entries =>
    if canOpen then readableList (pathAppend dir name) entries else []
termination_by structural e => e
/-- The regular files under the entries of `dir` that lie in directories which can
be opened: a subdirectory that cannot be opened is passed over. -/
def readableList (dir : String) : List DirEntry → List String
  | [] => []
  | e :: rest => readableEntry dir e ++ readableList dir rest
termination_by structural l => l
end

mutual
/-- Whether every directory under one entry can be opened. -/
def allOpenEntry : DirEntry → Bool
  | DirEntry.file _ _ => true
  | DirEntry.dir _ canOpen entries => canOpen && allOpenList entries
termination_by structural e => e
/-- Whether every directory under the entries can be opened. -/
def allOpenList : List DirEntry → Bool
  | [] => true
  | e :: rest => allOpenEntry e && allOpenList rest
termination_by structural l => l
end

mutual
/-- The regular files under one entry, with their paths and facts. -/
def filesOfEntry (dir : String) : DirEntry → List (String × FileInfo)
  | DirEntry.file name info => [(pathAppend dir name, info)]
  | DirEntry.dir name _ entries => filesOfList (pathAppend dir name) entries
termination_by structural e => e
/-- The regular files under the entries of `dir`, with their paths and facts. -/
def filesOfList (dir : String) : List DirEntry → List (String × FileInfo)
  | [] => []
  | e :: rest => filesOfEntry dir e ++ filesOfList dir rest
termination_by structural l => l
end

/-! ## `ProcessDirectory`, `ProcessZip` and the nesting of archives (lines 539-565, 642-653) -/

/-- The loop body of lines 645-648 for the regular files that an iterator yields, in
order: a requested stop leaves the loop, otherwise the file goes to `ProcessFile`. -/
def processEach (ProcessFile : String → World → World) : List String → World → World
  | [], w => w
  | path :: rest, w =>
    if w.stopRequested then w
    else processEach ProcessFile rest (ProcessFile path w)

/-- The function `ProcessDirectory` of lines 642-653 for the directory `dir` with the
given entries, which the process can open, with the `ProcessFile` it calls as a
parameter. The loop handles the regular files that the iterator yields before it
ends or throws; an exception of the iterator ends the walk in the empty handler of
lines 650-652. -/
def ProcessDirectory (ProcessFile : String → World → World) (dir : String)
    (entries : List DirEntry) (w : World) : World :=
  processEach ProcessFile (walkList dir entries).1 w

/-- Whether a path lies under the directory `dir`: its text is the text of `dir`, a
separator, and more. -/
def isUnder (dir path : String) : Bool :=
  dir.data.isPrefixOf path.data &&
    match path.data.drop dir.data.length with
    | c :: _ => isSlash c
    | [] => false

/-- The call `fs::remove_all(tempDir, ec)` of line 560: the directory and everything
under it is removed; when the call fails, the error code is dropped and the world
stays as it is. -/
def remove_all (env : Env) (w : World) (dir : String) : World :=
  if env.removeAllFails dir then w
  else
    { w with
      files := w.files.filter fun f => !isUnder dir f.1
      scratch := w.scratch.filter fun d => d != dir }

/-- The characters of `alphanum` (line 272), without the terminating zero. -/
def alphanum : List Char :=
  "0123456789ABCDEFGHIJKLMNOPQRSTUVWXYZ".data

/-- The function `GenerateTempSubfolderName` of lines 271-281: `_temp_` followed by
8 characters of `alphanum`; `draws i` is the number the generator delivers for
character `i`, which the distribution brings into the range `0 .. 35`. -/
def GenerateTempSubfolderName (draws : Nat → Nat) : String :=
  "_temp_" ++ String.mk ((List.range 8).map fun i => alphanum.getD (draws i % 36) '0')

/-- Lines 541-542: the scratch directory `tempDir` of an archive. -/
def scratchDir (env : Env) (zipPath : String) (w : World) : String :=
  pathAppend w.targetPath (GenerateTempSubfolderName (env.random zipPath))

/-- The function `ProcessZip` of lines 539-565, with the `ProcessFile` it reaches
through `ProcessDirectory` as a parameter. A failing `create_directories` ends in the
handler of lines 562-564. The scratch directory, which the process has just made,
can be opened. -/
def ProcessZip (env : Env) (ProcessFile : String → World → World) (zipPath : String)
    (w : World) : World :=
  let tempDir := scratchDir env zipPath w
  if env.createDirectoriesFails tempDir then w
  else
    let w := { w with scratch := tempDir :: w.scratch }
    let extraction := env.tar zipPath tempDir
    let w := { w with files := w.files ++ filesOfList tempDir extraction.2 }
    let w :=
      if extraction.1 then ProcessDirectory ProcessFile tempDir extraction.2 w
      else w
    remove_all env w tempDir

/-- The function `ProcessFile` with its archive branch, for archives nested at most
`depth` deep: an archive nested deeper is left unopened. -/
def ProcessFileDepth (env : Env) : Nat → String → World → World
  | 0 => ProcessFile env fun _ w => w
  | depth + 1 => ProcessFile env (ProcessZip env (ProcessFileDepth env depth))

/-! ## What a run reaches through archives -/

/-- The test of line 575 on a path. -/
def isArchive (filePath : String) : Bool :=
  decide (extension filePath = ".zip" ∨ extension filePath = ".ZIP")

/-- The regular files that the walk of `ProcessDirectory` yields for the scratch
directory of an archive (lines 541-553), in order: none when the scratch directory
cannot be made or `tar.exe` reports a failure. -/
def membersOf (env : Env) (targetPath zipPath : String) : List String :=
  let tempDir := pathAppend targetPath (GenerateTempSubfolderName (env.random zipPath))
  if env.createDirectoriesFails tempDir then []
  else if (env.tar zipPath tempDir).1 then (walkList tempDir (env.tar zipPath tempDir).2).1
  else []

/-- The number of non-archive files that `ProcessFileDepth env depth` reaches from a
path while no stop is requested: the path itself when it is no archive, otherwise the
files reached from the members of the archive. -/
def filesReached (env : Env) (targetPath : String) : Nat → String → Nat
  | 0, p => if isArchive p then 0 else 1
  | depth + 1, p =>
    if isArchive p then
      ((membersOf env targetPath p).map (filesReached env targetPath depth)).sum
    else 1

/-- Whether the archives reached from a path nest at most `depth` deep, so that
`ProcessFileDepth env depth` opens every archive it comes to. -/
def nestsWithin (env : Env) (targetPath : String) : Nat → String → Bool
  | 0, p => !isArchive p
  | depth + 1, p =>
    if isArchive p then (membersOf env targetPath p).all (nestsWithin env targetPath depth)
    else true

/-- The parts of the world that no call changes: the stop flag, the target root and
`totalFiles`. -/
def sameFrame (a b : World) : Prop :=
  a.stopRequested = b.stopRequested ∧ a.targetPath = b.targetPath ∧
    a.stats.totalFiles = b.stats.totalFiles

/-! ## `ScanningThread` (lines 749-822) -/

/-- The root scan of lines 766-778: `none` when the iterator throws (the handler of
lines 774-778 ends the run), otherwise `rootFiles`. A requested stop leaves the loop
at its first entry. -/
def rootScan (w : World) (sourcePath : String) (canOpen : Bool) (entries : List DirEntry) :
    Option (List String) :=
  if !canOpen then none
  else if w.stopRequested then some []
  else if (walkList sourcePath entries).2 then some (walkList sourcePath entries).1
  else none

/-- The function `ScanningThread` of lines 749-822 for the source folder
`sourcePath` with the given entries, with the workers of the pool run as one worker
that takes the jobs in queue order. The reset of the counters starts a new record
of counter values. -/
def ScanningThread (env : Env) (depth : Nat) (sourcePath : String) (canOpen : Bool)
    (entries : List DirEntry) (w : World) : World :=
  if sourcePath = "" ∨ w.targetPath = "" then w
  else
    let w := { w with stats := Stats.reset, observed := [] }
    match rootScan w sourcePath canOpen entries with
    | none => w
    | some rootFiles =>
      if rootFiles = [] then w
      else
        let w := { w with stats := { w.stats with totalFiles := rootFiles.length } }
        let w := WorkerThread env (ProcessZip env (ProcessFileDepth env depth)) rootFiles w
        { w with stopRequested := false }

/-! ## The worker-pool size of `ScanningThread` (lines 793-800) -/

/-- The conversion of the `unsigned int` returned by
`std::thread::hardware_concurrency()` to `int`. -/
def toInt32 (n : Nat) : Int :=
  if n % 2 ^ 32 < 2 ^ 31 then (n % 2 ^ 32 : Nat) else (n % 2 ^ 32 : Nat) - 2 ^ 32

/-- Lines 793-795: the value of `numThreads` when the workers are started. -/
def numThreads (hardware_concurrency : Nat) : Int :=
  let numThreads := toInt32 hardware_concurrency
  let numThreads := if numThreads < 1 then 2 else numThreads
  if numThreads > 8 then 8 else numThreads

/-- Lines 797-800: the number of `WorkerThread`s the loop
`for (int i = 0; i < numThreads; ++i)` starts. -/
def workersStarted (hardware_concurrency : Nat) : Nat :=
  (numThreads hardware_concurrency).toNat

/-! ## A worked scene: the concrete scenario of the specification -/

/-- The last-write time `2022-01-01 00:00:00` (a Saturday). -/
def newYear2022 : SYSTEMTIME :=
  { wYear := 2022, wMonth := 1, wDayOfWeek := 6, wDay := 1,
    wHour := 0, wMinute := 0, wSecond := 0, wMilliseconds := 0 }

/-- The facts of `photo.jpg`: EXIF date `2023:10:15 14:30:05` and a GPS position. -/
def photoInfo : FileInfo :=
  { size := 100,
    lastWrite := some newYear2022,
    image := some {
      dateTimeOriginal := some { type := 2, longs := [], text := some "2023:10:15 14:30:05".data },
      gpsLatitude := some { type := 5, longs := [48, 1, 51, 1, 30, 1], text := none },
      gpsLatitudeRef := some { type := 2, longs := [], text := some ['N'] },
      gpsLongitude := some { type := 5, longs := [2, 1, 21, 1, 3, 1], text := none },
      gpsLongitudeRef := some { type := 2, longs := [], text := some ['E'] } } }

/-- The facts of `note.txt`: no image, last written at `2022-01-01 00:00:00`. -/
def noteInfo : FileInfo :=
  { size := 5, lastWrite := some newYear2022, image := none }

/-- An environment in which no file-system call fails, the geocoder answers `Paris`
for the position of the photo, and `tar.exe` cannot be run. -/
def calmEnv : Env :=
  { fixed3 := fun _ => "48.858",
    http := fun _ _ => some "\x7b\"address\":\x7b\"city\":\"Paris\",\"country\":\"France\"\x7d\x7d".data,
    createDirectoriesFails := fun _ => false,
    existsFails := fun _ => false,
    copyFileFails := fun _ _ => false,
    random := fun _ i => [0, 10, 1, 11, 2, 12, 3, 13].getD i 0,
    tar := fun _ _ => (false, []),
    removeAllFails := fun _ => false }

/-- A source folder with `photo.jpg` and `note.txt`, an empty target, nothing cached. -/
def sceneWorld : World :=
  { stopRequested := false,
    targetPath := "target",
    stats := Stats.reset,
    observed := [],
    files := [("src\\photo.jpg", photoInfo), ("src\\note.txt", noteInfo)],
    geo := { cache := [], netCalls := 0 },
    scratch := [] }

/-- The scene after two earlier files of other sizes took the name of `note.txt` and
its first suffixed name. -/
def crowdedWorld : World :=
  { sceneWorld with
    files := sceneWorld.files ++
      [("target\\2022\\2022-01\\2022-01-01 00-00-00.txt", { noteInfo with size := 7 }),
       ("target\\2022\\2022-01\\2022-01-01 00-00-00_1.txt", { noteInfo with size := 9 })] }

/-- The scene after an earlier run copied `photo.jpg` into the target. -/
def sortedWorld : World :=
  { sceneWorld with
    files := sceneWorld.files ++
      [("target\\2023\\2023-10\\2023-10-15 14-30-05 Paris.jpg", photoInfo)] }

/-- A photo whose capture-date item uses `-` and `T` as separators. -/
def isoTaggedInfo : FileInfo :=
  { size := 100,
    lastWrite := some newYear2022,
    image := some {
      dateTimeOriginal := some { type := 2, longs := [], text := some "2023-10-15T14:30:05".data },
      gpsLatitude := none, gpsLatitudeRef := none, gpsLongitude := none,
      gpsLongitudeRef := none } }

/-- A source folder with the photo `iso.jpg`. -/
def isoWorld : World :=
  { sceneWorld with files := [("src\\iso.jpg", isoTaggedInfo)] }

/-- A photo whose capture-date item is the short text `2023:10:15`. -/
def shortTaggedInfo : FileInfo :=
  { size := 100,
    lastWrite := some newYear2022,
    image := some {
      dateTimeOriginal := some { type := 2, longs := [], text := some "2023:10:15".data },
      gpsLatitude := none, gpsLatitudeRef := none, gpsLongitude := none,
      gpsLongitudeRef := none } }

/-- A source folder with the photo `short.jpg`. -/
def shortWorld : World :=
  { sceneWorld with files := [("src\\short.jpg", shortTaggedInfo)] }

/-- A photo whose capture-date item has the hour field `1x`. -/
def sloppyTaggedInfo : FileInfo :=
  { size := 100,
    lastWrite := some newYear2022,
    image := some {
      dateTimeOriginal := some { type := 2, longs := [], text := some "2023:10:15 1x:30:05".data },
      gpsLatitude := none, gpsLatitudeRef := none, gpsLongitude := none,
      gpsLongitudeRef := none } }

/-- A source folder with the photo `sloppy.jpg`. -/
def sloppyWorld : World :=
  { sceneWorld with files := [("src\\sloppy.jpg", sloppyTaggedInfo)] }

/-- The calm environment, except that every `fs::copy_file` throws. -/
def fullDiskEnv : Env :=
  { calmEnv with copyFileFails := fun _ _ => true }

/-- The entries of the source folder `src` of the scene. -/
def sceneEntries : List DirEntry :=
  [DirEntry.file "photo.jpg" photoInfo, DirEntry.file "note.txt" noteInfo]

/-- The source folder `src` of the scene with one more entry: the subdirectory
`locked`, which cannot be opened. The entries are in the order of the iterator. -/
def lockedEntries : List DirEntry :=
  [DirEntry.dir "locked" false [], DirEntry.file "note.txt" noteInfo,
    DirEntry.file "photo.jpg" photoInfo]

/-- The calm environment, except that the geocoder answers `Biel/Bienne`. -/
def bielEnv : Env :=
  { calmEnv with
    http := fun _ _ =>
      some "\x7b\"address\":\x7b\"city\":\"Biel/Bienne\",\"country\":\"Schweiz\"\x7d\x7d".data }

/-- The calm environment, except that `tar.exe` succeeds and unpacks `inner.txt`. -/
def archiveEnv : Env :=
  { calmEnv with tar := fun _ _ => (true, [DirEntry.file "inner.txt" noteInfo]) }

/-- The calm environment, except that `tar.exe` unpacks `inner.txt` and then fails. -/
def brokenArchiveEnv : Env :=
  { calmEnv with tar := fun _ _ => (false, [DirEntry.file "inner.txt" noteInfo]) }

/-- The calm environment, except that `tar.exe` succeeds and unpacks `a.txt` and
`b.jpg`. -/
def twinArchiveEnv : Env :=
  { calmEnv with
    tar := fun _ _ => (true, [DirEntry.file "a.txt" noteInfo, DirEntry.file "b.jpg" photoInfo]) }

/-- A source folder that holds the archive `album.zip` and nothing else. -/
def albumEntries : List DirEntry :=
  [DirEntry.file "album.zip" { size := 900, lastWrite := some newYear2022, image := none }]

/-- The response of the geocoder for a position in Paris. -/
def parisResponse : List Char :=
  "\x7b\"address\":\x7b\"city\":\"Paris\",\"country\":\"France\"\x7d\x7d".data

/-- The `double` nearest to `0.0001`. -/
def tenThousandth : Binary64 :=
  { negative := false, mantissa := 7378697629483821, exponent := -66 }

/-- The `double` nearest to `-0.0001`. -/
def minusTenThousandth : Binary64 :=
  { negative := true, mantissa := 7378697629483821, exponent := -66 }

/-- The `double` nearest to `48.85837`. -/
def towerLat : Binary64 :=
  { negative := false, mantissa := 6876204278935307, exponent := -47 }

/-- The `double` nearest to `2.29448`. -/
def towerLon : Binary64 :=
  { negative := false, mantissa := 322919352281533, exponent := -47 }

/-- The `double` nearest to `48.85812`. -/
def lawnLat : Binary64 :=
  { negative := false, mantissa := 3438084547281609, exponent := -46 }

/-- The `double` nearest to `2.29449`. -/
def lawnLon : Binary64 :=
  { negative := false, mantissa := 5166732154502665, exponent := -51 }

/-- An archive handler that leaves the world as it is. -/
def skipZip : String → World → World :=
  fun _ w => w

/-! ## Facts about decimal text -/

theorem toDigitsCore_acc (b : Nat) : ∀ (f n : Nat) (ds : List Char),
    Nat.toDigitsCore b f n ds = Nat.toDigitsCore b f n [] ++ ds := by
  intro f
  induction f with
  | zero => intro n ds; simp [Nat.toDigitsCore]
  | succ f ih =>
    intro n ds
    simp only [Nat.toDigitsCore]
    split
    · simp
    · rw [ih (n / b) (Nat.digitChar (n % b) :: ds), ih (n / b) [Nat.digitChar (n % b)]]
      simp

theorem toDigitsCore_fuel (b : Nat) (hb : 2 ≤ b) : ∀ (f1 f2 n : Nat) (ds : List Char),
    n < f1 → n < f2 → Nat.toDigitsCore b f1 n ds = Nat.toDigitsCore b f2 n ds := by
  intro f1
  induction f1 with
  | zero => intro f2 n ds h; omega
  | succ f1 ih =>
    intro f2 n ds h1 h2
    cases f2 with
    | zero => omega
    | succ f2 =>
      simp only [Nat.toDigitsCore]
      split
      · rfl
      · rename_i hne
        have hlt : n / b < n := by
          have hn : 0 < n := by
            rcases Nat.eq_zero_or_pos n with h0 | h0
            · subst h0; simp at hne
            · exact h0
          exact Nat.div_lt_self hn hb
        exact ih f2 (n / b) _ (by omega) (by omega)

theorem toDigits_lt_ten (n : Nat) (h : n < 10) : Nat.toDigits 10 n = [Nat.digitChar n] := by
  have h0 : n / 10 = 0 := Nat.div_eq_of_lt h
  have h1 : n % 10 = n := Nat.mod_eq_of_lt h
  simp [Nat.toDigits, Nat.toDigitsCore, h0, h1]

theorem toDigits_step (n : Nat) (h : 10 ≤ n) :
    Nat.toDigits 10 n = Nat.toDigits 10 (n / 10) ++ [Nat.digitChar (n % 10)] := by
  have h0 : n / 10 ≠ 0 := by omega
  have hlt : n / 10 < n := by omega
  unfold Nat.toDigits
  rw [Nat.toDigitsCore]
  simp only [h0, if_false]
  rw [toDigitsCore_acc]
  rw [toDigitsCore_fuel 10 (by decide) n (n / 10 + 1) (n / 10) [] hlt (by omega)]

theorem toString_data (n : Nat) : (toString n).data = Nat.toDigits 10 n := rfl

theorem digitChar_isDigit (k : Nat) (h : k < 10) : (Nat.digitChar k).isDigit = true := by
  interval_cases k <;> decide

theorem digitChar_toNat (k : Nat) (h : k < 10) : (Nat.digitChar k).toNat - 48 = k := by
  interval_cases k <;> decide

theorem toDigits_isDigit (n : Nat) : ∀ c ∈ Nat.toDigits 10 n, c.isDigit = true := by
  induction n using Nat.strong_induction_on with
  | _ n ih =>
    rcases Nat.lt_or_ge n 10 with h | h
    · rw [toDigits_lt_ten n h]
      intro c hc
      simp at hc
      subst hc
      exact digitChar_isDigit n h
    · rw [toDigits_step n h]
      intro c hc
      rcases List.mem_append.mp hc with hc | hc
      · exact ih (n / 10) (by omega) c hc
      · simp at hc
        subst hc
        exact digitChar_isDigit _ (Nat.mod_lt _ (by decide))

theorem toDigits_ne_nil (n : Nat) : Nat.toDigits 10 n ≠ [] := by
  rcases Nat.lt_or_ge n 10 with h | h
  · rw [toDigits_lt_ten n h]; simp
  · rw [toDigits_step n h]; simp

theorem digitsValue_append (ds : List Char) (c : Char) :
    digitsValue (ds ++ [c]) = 10 * digitsValue ds + (c.toNat - 48) := by
  simp [digitsValue, List.foldl_append]

theorem digitsValue_toDigits (n : Nat) : digitsValue (Nat.toDigits 10 n) = n := by
  induction n using Nat.strong_induction_on with
  | _ n ih =>
    rcases Nat.lt_or_ge n 10 with h | h
    · rw [toDigits_lt_ten n h]
      simp [digitsValue, digitChar_toNat n h]
    · rw [toDigits_step n h, digitsValue_append, ih (n / 10) (by omega),
        digitChar_toNat _ (Nat.mod_lt _ (by decide))]
      omega

theorem toString_nat_injective (a b : Nat) (h : toString a = toString b) : a = b := by
  have h1 : Nat.toDigits 10 a = Nat.toDigits 10 b := by
    rw [← toString_data, ← toString_data, h]
  rw [← digitsValue_toDigits a, ← digitsValue_toDigits b, h1]

/-! ## Facts about paths -/

theorem isDigit_not_isAlpha (c : Char) (h : c.isDigit = true) : c.isAlpha = false := by
  simp only [Char.isDigit, Char.isAlpha, Char.isUpper, Char.isLower, Bool.and_eq_true,
    decide_eq_true_eq, Bool.or_eq_false_iff, Bool.and_eq_false_iff, decide_eq_false_iff_not,
    UInt32.le_def, BitVec.le_def, ge_iff_le] at *
  have e1 : (UInt32.toBitVec 48).toNat = 48 := rfl
  have e2 : (UInt32.toBitVec 57).toNat = 57 := rfl
  have e3 : (UInt32.toBitVec 65).toNat = 65 := rfl
  have e4 : (UInt32.toBitVec 90).toNat = 90 := rfl
  have e5 : (UInt32.toBitVec 97).toNat = 97 := rfl
  have e6 : (UInt32.toBitVec 122).toNat = 122 := rfl
  rw [e1, e2] at h
  rw [e3, e4, e5, e6]
  omega

theorem isDigit_not_isSlash (c : Char) (h : c.isDigit = true) : isSlash c = false := by
  cases hs : isSlash c with
  | false => rfl
  | true =>
    simp only [isSlash, Bool.or_eq_true, beq_iff_eq] at hs
    rcases hs with rfl | rfl <;> revert h <;> decide

theorem rootNameLength_digit (c : Char) (t : List Char) (h : c.isDigit = true) :
    rootNameLength (c :: t) = 0 := by
  cases t with
  | nil => rfl
  | cons c1 rest =>
    simp [rootNameLength, isDigit_not_isAlpha c h, isDigit_not_isSlash c h]

theorem isAbsolute_digit (c : Char) (t : List Char) (h : c.isDigit = true) :
    isAbsolute (c :: t) = false := by
  cases t with
  | nil => rfl
  | cons c1 rest =>
    simp [isAbsolute, isDigit_not_isAlpha c h, rootNameLength_digit c (c1 :: rest) h]

theorem takeWhile_length_lt (q : Char → Bool) (l : List Char) (x : Char) (hx : x ∈ l)
    (hq : q x = false) : (l.takeWhile q).length < l.length := by
  induction l with
  | nil => simp at hx
  | cons a l ih =>
    simp only [List.takeWhile]
    cases ha : q a with
    | false => simp
    | true =>
      simp only [List.length_cons]
      rcases List.mem_cons.mp hx with rfl | hx
      · rw [hq] at ha; cases ha
      · have := ih hx
        omega

theorem isSlash_ne_colon (s : Char) (hs : isSlash s = true) : (s == ':') = false := by
  simp only [isSlash, Bool.or_eq_true, beq_iff_eq] at hs
  rcases hs with rfl | rfl <;> decide

theorem rootNameLength_lt (p : List Char) (s : Char) (hs : isSlash s = true) :
    rootNameLength (p ++ [s]) < (p ++ [s]).length := by
  match p with
  | [] => simp [rootNameLength]
  | [c0] =>
    simp only [List.singleton_append, rootNameLength, isSlash_ne_colon s hs, Bool.and_false]
    by_cases h0 : isSlash c0 = true <;> simp [h0]
  | [c0, c1] =>
    simp only [List.cons_append, List.nil_append, rootNameLength]
    split
    · simp
    · split
      · simp
      · simp [hs]
  | [c0, c1, c2] =>
    simp only [List.cons_append, List.nil_append, rootNameLength]
    split
    · simp
    · split
      · simp
      · split
        · simp
        · split
          · simp [List.takeWhile]
            by_cases h3 : isSlash c2 = true <;> simp [h3, hs]
          · simp
  | c0 :: c1 :: c2 :: c3 :: rest =>
    simp only [List.cons_append, rootNameLength]
    split
    · simp
    · split
      · simp
      · split
        · simp
        · split
          · have hmem : s ∈ c3 :: (rest ++ [s]) := by simp
            have hq : (fun c => !isSlash c) s = false := by simp [hs]
            have := takeWhile_length_lt (fun c => !isSlash c) (c3 :: (rest ++ [s])) s hmem hq
            simp only [List.length_cons] at this ⊢
            omega
          · simp

theorem pathAppend_dir (pre t : List Char) (s c : Char) (hs : isSlash s = true)
    (hc : c.isDigit = true) :
    pathAppend (String.mk (pre ++ [s])) (String.mk (c :: t)) = String.mk (pre ++ [s] ++ c :: t) := by
  have hlt := rootNameLength_lt pre s hs
  have hne : ¬ rootNameLength (pre ++ [s]) = (pre ++ [s]).length := by omega
  simp only [pathAppend, isAbsolute_digit c t hc, rootNameLength_digit c t hc, List.drop_zero,
    List.head?_cons, Option.any_some, isDigit_not_isSlash c hc, hne, if_false,
    List.getLast?_append, List.getLast?_singleton, hs, if_true]
  simp [hs]

/-! ## Facts about the derived names -/

theorem toDigits_cons (n : Nat) :
    ∃ c t, Nat.toDigits 10 n = c :: t ∧ c.isDigit = true := by
  cases h : Nat.toDigits 10 n with
  | nil => exact absurd h (toDigits_ne_nil n)
  | cons c t =>
    refine ⟨c, t, rfl, ?_⟩
    apply toDigits_isDigit n
    rw [h]
    simp

theorem targetDirOf_data (targetPath : String) (date : SYSTEMTIME) :
    (targetDirOf targetPath date).data =
      (targetPath.data ++ '\\' :: (Nat.toDigits 10 date.wYear ++ '\\' ::
        (Nat.toDigits 10 date.wYear ++ '-' :: (setw2 date.wMonth).data))) ++ ['\\'] := by
  simp [targetDirOf, toString_data]

theorem baseNameOf_year (md : FileMetadata) :
    ∃ r : String, baseNameOf md = toString md.date.wYear ++ r := by
  unfold baseNameOf
  by_cases hl : md.location = ""
  · simp only [hl, if_true]
    exact ⟨"-" ++ setw2 md.date.wMonth ++ "-" ++ setw2 md.date.wDay ++ " "
      ++ setw2 md.date.wHour ++ "-" ++ setw2 md.date.wMinute ++ "-" ++ setw2 md.date.wSecond,
      by apply String.ext; simp⟩
  · simp only [hl]
    exact ⟨"-" ++ setw2 md.date.wMonth ++ "-" ++ setw2 md.date.wDay ++ " "
      ++ setw2 md.date.wHour ++ "-" ++ setw2 md.date.wMinute ++ "-" ++ setw2 md.date.wSecond
      ++ " " ++ md.location,
      by apply String.ext; simp⟩

theorem baseNameOf_cons (md : FileMetadata) :
    ∃ c t, (baseNameOf md).data = c :: t ∧ c.isDigit = true := by
  obtain ⟨c, t, ht, hc⟩ := toDigits_cons md.date.wYear
  obtain ⟨r, hr⟩ := baseNameOf_year md
  refine ⟨c, t ++ r.data, ?_, hc⟩
  rw [hr, String.data_append, toString_data, ht]
  rfl

/-- For the directory and base name that `ProcessFile` builds, `targetDir / name`
is the plain concatenation of the two texts, whatever follows the base name. -/
theorem pathAppend_names (targetPath : String) (date : SYSTEMTIME) (md : FileMetadata)
    (rest : String) :
    pathAppend (targetDirOf targetPath date) (baseNameOf md ++ rest)
      = targetDirOf targetPath date ++ (baseNameOf md ++ rest) := by
  obtain ⟨c, t, ht, hc⟩ := baseNameOf_cons md
  have h1 : targetDirOf targetPath date = String.mk ((targetPath.data ++ '\\' ::
      (Nat.toDigits 10 date.wYear ++ '\\' ::
        (Nat.toDigits 10 date.wYear ++ '-' :: (setw2 date.wMonth).data))) ++ ['\\']) := by
    rw [← targetDirOf_data]
  have h2 : baseNameOf md ++ rest = String.mk (c :: (t ++ rest.data)) := by
    apply String.ext
    simp [ht]
  rw [h2]
  conv_lhs => rw [h1]
  rw [pathAppend_dir _ _ _ _ (by decide) hc]
  apply String.ext
  simp [targetDirOf_data]

theorem toString_twoDigits (n : Nat) (h1 : 10 ≤ n) (h2 : n < 100) :
    toString n = twoDigits n := by
  apply String.ext
  rw [toString_data, toDigits_step n h1, toDigits_lt_ten (n / 10) (by omega)]
  rfl

theorem setw2_eq_twoDigits (n : Nat) (h : n < 100) : setw2 n = twoDigits n := by
  rcases Nat.lt_or_ge n 10 with h1 | h1
  · have hs : toString n = String.mk [Nat.digitChar n] := by
      apply String.ext
      rw [toString_data, toDigits_lt_ten n h1]
    have h0 : n / 10 = 0 := Nat.div_eq_of_lt h1
    have hm : n % 10 = n := Nat.mod_eq_of_lt h1
    unfold setw2 twoDigits
    rw [hs, h0, hm]
    rfl
  · have hs := toString_twoDigits n h1 h
    unfold setw2
    rw [hs]
    rfl

theorem toString_fourDigits (n : Nat) (h1 : 1000 ≤ n) (h2 : n ≤ 9999) :
    toString n = fourDigits n := by
  apply String.ext
  rw [toString_data, toDigits_step n (by omega), toDigits_step (n / 10) (by omega),
    toDigits_step (n / 10 / 10) (by omega), toDigits_lt_ten (n / 10 / 10 / 10) (by omega)]
  have e1 : n / 10 / 10 / 10 = n / 1000 := by omega
  have e2 : n / 10 / 10 % 10 = n / 100 % 10 := by omega
  rw [e1, e2]
  rfl

/-! ## Facts about `GetFileMetadata` and the probe -/

/-- `GetFileMetadata` reads only the files and the geocoding state, and writes only
the geocoding state. -/
theorem GetFileMetadata_frame (env : Env) (path : String) (w : World) :
    (GetFileMetadata env path w).2
      = { w with geo := (GetFileMetadata env path w).2.geo } := by
  unfold GetFileMetadata
  simp only
  split
  · rfl
  · split <;> rfl

theorem GetFileMetadata_congr (env : Env) (path : String) (w1 w2 : World)
    (hf : w1.files = w2.files) (hg : w1.geo = w2.geo) :
    (GetFileMetadata env path w1).1 = (GetFileMetadata env path w2).1 ∧
      (GetFileMetadata env path w1).2.geo = (GetFileMetadata env path w2).2.geo := by
  unfold GetFileMetadata
  simp only [hf, hg]
  split
  · exact ⟨rfl, hg⟩
  · split
    · exact ⟨rfl, rfl⟩
    · exact ⟨rfl, hg⟩

theorem GetFileMetadata_incProcessed (env : Env) (path : String) (w : World) :
    GetFileMetadata env path w.incProcessed
      = ((GetFileMetadata env path w).1,
         { w.incProcessed with geo := (GetFileMetadata env path w).2.geo }) := by
  have h := GetFileMetadata_congr env path w.incProcessed w rfl rfl
  have hfr := GetFileMetadata_frame env path w.incProcessed
  apply Prod.ext
  · exact h.1
  · rw [hfr, h.2]

theorem probe_free (env : Env) (w : World) (filePath targetDir baseName ext : String)
    (fuel dup : Nat) (targetFile : String) (h1 : env.existsFails targetFile = false)
    (h2 : fileExists w targetFile = false) :
    probe env w filePath targetDir baseName ext (fuel + 1) dup targetFile
      = ProbeResult.copyTo targetFile := by
  simp [probe, h1, h2]

theorem probe_same_size (env : Env) (w : World) (filePath targetDir baseName ext : String)
    (fuel dup : Nat) (targetFile : String) (h1 : env.existsFails targetFile = false)
    (h2 : fileExists w targetFile = true)
    (h3 : file_size w targetFile = file_size w filePath) :
    probe env w filePath targetDir baseName ext (fuel + 1) dup targetFile
      = ProbeResult.duplicate targetFile := by
  simp [probe, h1, h2, h3]

theorem layoutDirectory_eq (targetPath : String) (date : SYSTEMTIME)
    (hy : 1000 ≤ date.wYear ∧ date.wYear ≤ 9999) (hm : date.wMonth < 100) :
    targetDirOf targetPath date = layoutDirectory targetPath date := by
  unfold targetDirOf layoutDirectory
  rw [toString_fourDigits _ hy.1 hy.2, setw2_eq_twoDigits _ hm]

theorem layoutFileName_eq (md : FileMetadata) (ext : String)
    (hy : 1000 ≤ md.date.wYear ∧ md.date.wYear ≤ 9999) (hm : md.date.wMonth < 100)
    (hd : md.date.wDay < 100) (hh : md.date.wHour < 100) (hmi : md.date.wMinute < 100)
    (hs : md.date.wSecond < 100) :
    baseNameOf md ++ ext = layoutFileName md.date md.location ext := by
  unfold baseNameOf layoutFileName
  rw [toString_fourDigits _ hy.1 hy.2, setw2_eq_twoDigits _ hm, setw2_eq_twoDigits _ hd,
    setw2_eq_twoDigits _ hh, setw2_eq_twoDigits _ hmi, setw2_eq_twoDigits _ hs]
  by_cases hl : md.location = ""
  · simp [hl]
  · simp only [hl, if_false]
    apply String.ext
    simp

/-! ## Facts about the candidate names and the probe -/

/-- The text the loop puts between base name and extension for `dup = k`. -/
theorem candidate_eq (targetPath : String) (date : SYSTEMTIME) (md : FileMetadata)
    (ext : String) (k : Nat) :
    candidate (targetDirOf targetPath date) (baseNameOf md) ext k
      = targetDirOf targetPath date ++ baseNameOf md
          ++ (if k = 0 then "" else "_" ++ toString k) ++ ext := by
  unfold candidate
  by_cases hk : k = 0
  · simp only [hk, if_true]
    rw [pathAppend_names]
    apply String.ext
    simp
  · simp only [hk, if_false]
    have e : baseNameOf md ++ "_" ++ toString k ++ ext
        = baseNameOf md ++ ("_" ++ toString k ++ ext) := by
      apply String.ext
      simp
    rw [e, pathAppend_names]
    apply String.ext
    simp

theorem candidate_injective (targetPath : String) (date : SYSTEMTIME) (md : FileMetadata)
    (ext : String) (j k : Nat)
    (h : candidate (targetDirOf targetPath date) (baseNameOf md) ext j
      = candidate (targetDirOf targetPath date) (baseNameOf md) ext k) : j = k := by
  rw [candidate_eq, candidate_eq] at h
  have hd := congrArg String.data h
  simp only [String.data_append, List.append_assoc, List.append_cancel_left_eq] at hd
  by_cases hj : j = 0 <;> by_cases hk : k = 0
  · rw [hj, hk]
  · exfalso
    simp only [hj, hk, if_true, if_false, String.data_append, toString_data] at hd
    have hl := congrArg List.length hd
    simp at hl
    omega
  · exfalso
    simp only [hj, hk, if_true, if_false, String.data_append, toString_data] at hd
    have hl := congrArg List.length hd
    simp at hl
    omega
  · simp only [hj, hk, if_false, String.data_append, toString_data, List.append_assoc,
      List.append_cancel_left_eq] at hd
    have h2 : Nat.toDigits 10 j = Nat.toDigits 10 k := List.append_cancel_right hd
    exact toString_nat_injective j k (String.ext h2)

theorem fileExists_mem (w : World) (p : String) (h : fileExists w p = true) :
    p ∈ w.files.map Prod.fst := by
  unfold fileExists at h
  generalize w.files = l at h
  induction l with
  | nil => simp [List.lookup] at h
  | cons a l ih =>
    obtain ⟨q, i⟩ := a
    by_cases hq : p = q
    · simp [hq]
    · have hb : (p == q) = false := by simpa using hq
      simp only [List.lookup, hb] at h
      simp only [List.map_cons, List.mem_cons]
      exact Or.inr (ih h)

/-- The loop from `dup`, started at the candidate of `dup`: either it runs out of
fuel, and then every candidate it looked at exists with a size other than the
source's, or it stops at the first candidate that is free or has the source's size. -/
theorem probe_scan (env : Env) (w : World) (filePath targetDir baseName ext : String)
    (hex : ∀ p, env.existsFails p = false) : ∀ (fuel dup : Nat),
    (probe env w filePath targetDir baseName ext fuel dup (candidate targetDir baseName ext dup)
        = ProbeResult.unfinished ∧
      ∀ j, dup ≤ j → j < dup + fuel →
        fileExists w (candidate targetDir baseName ext j) = true ∧
        file_size w (candidate targetDir baseName ext j) ≠ file_size w filePath) ∨
    ∃ k, dup ≤ k ∧ k < dup + fuel ∧
      (∀ j, dup ≤ j → j < k →
        fileExists w (candidate targetDir baseName ext j) = true ∧
        file_size w (candidate targetDir baseName ext j) ≠ file_size w filePath) ∧
      ((fileExists w (candidate targetDir baseName ext k) = false ∧
          probe env w filePath targetDir baseName ext fuel dup
              (candidate targetDir baseName ext dup)
            = ProbeResult.copyTo (candidate targetDir baseName ext k)) ∨
       (fileExists w (candidate targetDir baseName ext k) = true ∧
          file_size w (candidate targetDir baseName ext k) = file_size w filePath ∧
          probe env w filePath targetDir baseName ext fuel dup
              (candidate targetDir baseName ext dup)
            = ProbeResult.duplicate (candidate targetDir baseName ext k))) := by
  intro fuel
  induction fuel with
  | zero =>
    intro dup
    left
    refine ⟨rfl, ?_⟩
    intro j h1 h2
    omega
  | succ fuel ih =>
    intro dup
    have hnext : pathAppend targetDir (baseName ++ "_" ++ toString (dup + 1) ++ ext)
        = candidate targetDir baseName ext (dup + 1) := by
      simp [candidate]
    cases hx : fileExists w (candidate targetDir baseName ext dup) with
    | false =>
      right
      refine ⟨dup, le_refl _, by omega, ?_, Or.inl ⟨hx, ?_⟩⟩
      · intro j h1 h2; omega
      · exact probe_free _ _ _ _ _ _ _ _ _ (hex _) hx
    | true =>
      by_cases hs : file_size w (candidate targetDir baseName ext dup) = file_size w filePath
      · right
        refine ⟨dup, le_refl _, by omega, ?_, Or.inr ⟨hx, hs, ?_⟩⟩
        · intro j h1 h2; omega
        · exact probe_same_size _ _ _ _ _ _ _ _ _ (hex _) hx hs
      · have hstep : probe env w filePath targetDir baseName ext (fuel + 1) dup
            (candidate targetDir baseName ext dup)
            = probe env w filePath targetDir baseName ext fuel (dup + 1)
                (candidate targetDir baseName ext (dup + 1)) := by
          rw [probe]
          simp only [hex, hx, hs, if_false, Bool.false_eq_true, Bool.not_true, hnext]
        have hhere : ∀ j, dup ≤ j → j < dup + 1 →
            fileExists w (candidate targetDir baseName ext j) = true ∧
            file_size w (candidate targetDir baseName ext j) ≠ file_size w filePath := by
          intro j h1 h2
          have : j = dup := by omega
          subst this
          exact ⟨hx, hs⟩
        rcases ih (dup + 1) with ⟨hr, hall⟩ | ⟨k, hk1, hk2, hall, hres⟩
        · left
          refine ⟨by rw [hstep, hr], ?_⟩
          intro j h1 h2
          rcases Nat.lt_or_ge j (dup + 1) with hj | hj
          · exact hhere j h1 hj
          · exact hall j hj (by omega)
        · right
          refine ⟨k, by omega, by omega, ?_, ?_⟩
          · intro j h1 h2
            rcases Nat.lt_or_ge j (dup + 1) with hj | hj
            · exact hhere j h1 hj
            · exact hall j hj h2
          · rw [hstep]
            exact hres

theorem probe_unfinished (env : Env) (w : World) (filePath targetDir baseName ext : String) :
    ∀ (fuel dup : Nat),
    probe env w filePath targetDir baseName ext fuel dup (candidate targetDir baseName ext dup)
        = ProbeResult.unfinished →
      ∀ j, dup ≤ j → j < dup + fuel →
        fileExists w (candidate targetDir baseName ext j) = true := by
  intro fuel
  induction fuel with
  | zero => intro dup _ j h1 h2; omega
  | succ fuel ih =>
    intro dup hun j h1 h2
    have hnext : pathAppend targetDir (baseName ++ "_" ++ toString (dup + 1) ++ ext)
        = candidate targetDir baseName ext (dup + 1) := by
      simp [candidate]
    rw [probe] at hun
    split at hun
    · cases hun
    · split at hun
      · cases hun
      · rename_i hx
        split at hun
        · cases hun
        · rw [hnext] at hun
          rcases Nat.lt_or_ge j (dup + 1) with hj | hj
          · have : j = dup := by omega
            subst this
            simpa using hx
          · exact ih (dup + 1) hun j hj (by omega)

/-- With more fuel than there are files the loop of `ProcessFile` is never cut off:
the candidate names are pairwise distinct and each one it passes exists. -/
theorem probe_finishes (env : Env) (w : World) (filePath : String) (md : FileMetadata)
    (ext : String) :
    probe env w filePath (targetDirOf w.targetPath md.date) (baseNameOf md) ext
        (w.files.length + 1) 0
        (pathAppend (targetDirOf w.targetPath md.date) (baseNameOf md ++ ext))
      ≠ ProbeResult.unfinished := by
  intro hun
  have h0 : pathAppend (targetDirOf w.targetPath md.date) (baseNameOf md ++ ext)
      = candidate (targetDirOf w.targetPath md.date) (baseNameOf md) ext 0 := by
    simp [candidate]
  rw [h0] at hun
  have hall := probe_unfinished env w filePath _ _ _ _ _ hun
  have hsub : (List.range (w.files.length + 1)).map
      (candidate (targetDirOf w.targetPath md.date) (baseNameOf md) ext)
      ⊆ w.files.map Prod.fst := by
    intro p hp
    obtain ⟨j, hj, rfl⟩ := List.mem_map.mp hp
    have hj2 : j < w.files.length + 1 := List.mem_range.mp hj
    exact fileExists_mem w _ (hall j (Nat.zero_le _) (by omega))
  have hnd : ((List.range (w.files.length + 1)).map
      (candidate (targetDirOf w.targetPath md.date) (baseNameOf md) ext)).Nodup := by
    apply List.Nodup.map _ (List.nodup_range _)
    intro a b hab
    exact candidate_injective _ _ _ _ _ _ hab
  have hle := (List.Nodup.subperm hnd hsub).length_le
  simp at hle

/-! ## `ProcessFile` on a regular (non-archive) file -/

theorem probe_of_files (env : Env) (w1 w2 : World) (filePath targetDir baseName ext : String)
    (h : w1.files = w2.files) : ∀ (fuel dup : Nat) (targetFile : String),
    probe env w1 filePath targetDir baseName ext fuel dup targetFile
      = probe env w2 filePath targetDir baseName ext fuel dup targetFile := by
  intro fuel
  induction fuel with
  | zero => intro dup targetFile; rfl
  | succ fuel ih =>
    intro dup targetFile
    simp only [probe, fileExists, file_size, h, ih]

/-- The world in which `ProcessFile` runs its naming step: the file is counted as
processed and the geocoding state is the one `GetFileMetadata` leaves. -/
theorem ProcessFile_regular (env : Env) (ProcessZip : String → World → World)
    (filePath : String) (w : World)
    (hstop : w.stopRequested = false)
    (hzip : extension filePath ≠ ".zip" ∧ extension filePath ≠ ".ZIP") :
    ProcessFile env ProcessZip filePath w =
      if env.createDirectoriesFails
          (targetDirOf w.targetPath (GetFileMetadata env filePath w).1.date) then
        World.incSkipped { w.incProcessed with geo := (GetFileMetadata env filePath w).2.geo }
      else
        match probe env w filePath
            (targetDirOf w.targetPath (GetFileMetadata env filePath w).1.date)
            (baseNameOf (GetFileMetadata env filePath w).1) (extension filePath)
            (w.files.length + 1) 0
            (pathAppend (targetDirOf w.targetPath (GetFileMetadata env filePath w).1.date)
              (baseNameOf (GetFileMetadata env filePath w).1 ++ extension filePath)) with
        | ProbeResult.duplicate _ =>
          World.incSkipped
            { w.incProcessed with geo := (GetFileMetadata env filePath w).2.geo }
        | ProbeResult.threw =>
          World.incSkipped
            { w.incProcessed with geo := (GetFileMetadata env filePath w).2.geo }
        | ProbeResult.unfinished =>
          { w.incProcessed with geo := (GetFileMetadata env filePath w).2.geo }
        | ProbeResult.copyTo targetFile =>
          match copy_file env
              { w.incProcessed with geo := (GetFileMetadata env filePath w).2.geo }
              filePath targetFile with
          | some w2 => w2.incSuccess
          | none =>
            World.incSkipped
              { w.incProcessed with geo := (GetFileMetadata env filePath w).2.geo } := by
  have hp := probe_of_files env
    { w.incProcessed with geo := (GetFileMetadata env filePath w).2.geo } w filePath
    (targetDirOf w.targetPath (GetFileMetadata env filePath w).1.date)
    (baseNameOf (GetFileMetadata env filePath w).1) (extension filePath) rfl
    (w.files.length + 1) 0
    (pathAppend (targetDirOf w.targetPath (GetFileMetadata env filePath w).1.date)
      (baseNameOf (GetFileMetadata env filePath w).1 ++ extension filePath))
  rw [← hp]
  unfold ProcessFile
  simp only [hstop, hzip.1, hzip.2, or_self, if_false, Bool.false_eq_true]
  rw [GetFileMetadata_incProcessed]
  rfl

/-! ## Facts about `std::stoi` and the date tag -/

theorem isDigit_toNat (c : Char) (h : c.isDigit = true) : 48 ≤ c.toNat ∧ c.toNat ≤ 57 := by
  simp only [Char.isDigit, Bool.and_eq_true, decide_eq_true_eq, UInt32.le_def, BitVec.le_def,
    ge_iff_le] at h
  have e1 : (UInt32.toBitVec 48).toNat = 48 := rfl
  have e2 : (UInt32.toBitVec 57).toNat = 57 := rfl
  rw [e1, e2] at h
  exact h

theorem isDigit_not_space (c : Char) (h : c.isDigit = true) : isSpaceC c = false := by
  have hn := isDigit_toNat c h
  have hne : c ≠ ' ' := by
    intro e
    subst e
    revert h
    decide
  simp only [isSpaceC, Bool.or_eq_false_iff, beq_eq_false_iff_ne, ne_eq, hne, not_false_eq_true,
    Bool.and_eq_false_iff, decide_eq_false_iff_not, true_and]
  omega

theorem splitSign_digit (c : Char) (t : List Char) (h : c.isDigit = true) :
    splitSign (c :: t) = (false, c :: t) := by
  have hm : c ≠ '-' := by
    intro e; subst e; revert h; decide
  have hp : c ≠ '+' := by
    intro e; subst e; revert h; decide
  unfold splitSign
  split
  · rename_i heq
    injection heq with h1 h2
    exact absurd h1 hm
  · rename_i heq
    injection heq with h1 h2
    exact absurd h1 hp
  · rfl

theorem stoi_of_digit_head (c : Char) (t : List Char) (h : c.isDigit = true) :
    stoi (c :: t) =
      if 2 ^ 31 - 1 < (digitsValue (c :: t.takeWhile Char.isDigit) : Int) then none
      else some (digitsValue (c :: t.takeWhile Char.isDigit) : Int) := by
  have hs := isDigit_not_space c h
  unfold stoi
  simp only [List.dropWhile, hs, splitSign_digit c t h, List.takeWhile, h, List.isEmpty_cons,
    Bool.false_eq_true, if_false]
  have hnn : ¬ ((digitsValue (c :: t.takeWhile Char.isDigit) : Int) < -2 ^ 31) := by
    have : (0 : Int) ≤ (digitsValue (c :: t.takeWhile Char.isDigit) : Int) :=
      Int.ofNat_nonneg _
    omega
  simp only [hnn, false_or]

theorem takeWhile_all (q : Char → Bool) (l : List Char) (h : ∀ c ∈ l, q c = true) :
    l.takeWhile q = l := by
  induction l with
  | nil => rfl
  | cons a l ih =>
    have ha : q a = true := h a (by simp)
    simp only [List.takeWhile, ha]
    rw [ih (fun c hc => h c (by simp [hc]))]

/-- A field of two decimal digits: `std::stoi` returns its value, which fits a `WORD`. -/
theorem stoi_two (a b : Char) (ha : a.isDigit = true) (hb : b.isDigit = true) :
    stoi [a, b] = some (digitsValue [a, b] : Int) ∧ digitsValue [a, b] < 100 := by
  have na := isDigit_toNat a ha
  have nb := isDigit_toNat b hb
  have hv : digitsValue [a, b] = 10 * (a.toNat - 48) + (b.toNat - 48) := by
    simp [digitsValue]
  have hlt : digitsValue [a, b] < 100 := by omega
  refine ⟨?_, hlt⟩
  rw [stoi_of_digit_head a [b] ha, takeWhile_all Char.isDigit [b] (by simpa using hb)]
  have : ¬ (2 ^ 31 - 1 < (digitsValue [a, b] : Int)) := by omega
  simp only [this, if_false]

/-- A field of four decimal digits: `std::stoi` returns its value, which fits a `WORD`. -/
theorem stoi_four (a b c d : Char) (ha : a.isDigit = true) (hb : b.isDigit = true)
    (hc : c.isDigit = true) (hd : d.isDigit = true) :
    stoi [a, b, c, d] = some (digitsValue [a, b, c, d] : Int) ∧
      digitsValue [a, b, c, d] < 10000 := by
  have na := isDigit_toNat a ha
  have nb := isDigit_toNat b hb
  have nc := isDigit_toNat c hc
  have nd := isDigit_toNat d hd
  have hv : digitsValue [a, b, c, d]
      = 10 * (10 * (10 * (a.toNat - 48) + (b.toNat - 48)) + (c.toNat - 48)) + (d.toNat - 48) := by
    simp [digitsValue]
  have hlt : digitsValue [a, b, c, d] < 10000 := by omega
  refine ⟨?_, hlt⟩
  rw [stoi_of_digit_head a [b, c, d] ha,
    takeWhile_all Char.isDigit [b, c, d] (by
      intro x hx
      simp only [List.mem_cons, List.mem_singleton, List.not_mem_nil, or_false] at hx
      rcases hx with rfl | rfl | rfl <;> assumption)]
  have : ¬ (2 ^ 31 - 1 < (digitsValue [a, b, c, d] : Int)) := by omega
  simp only [this, if_false]

theorem toWORD_natCast (n : Nat) (h : n < 65536) : toWORD (n : Int) = n := by
  unfold toWORD
  omega

theorem digitChar_of_digit (c : Char) (h : c.isDigit = true) :
    Nat.digitChar (c.toNat - 48) = c := by
  have hn := isDigit_toNat c h
  obtain ⟨k, hk, hk1, hk2⟩ : ∃ k, c = Char.ofNat k ∧ 48 ≤ k ∧ k ≤ 57 :=
    ⟨c.toNat, (Char.ofNat_toNat c).symm, hn.1, hn.2⟩
  subst hk
  interval_cases k <;> rfl

theorem setw2_of_digits (a b : Char) (ha : a.isDigit = true) (hb : b.isDigit = true) :
    setw2 (digitsValue [a, b]) = String.mk [a, b] := by
  have na := isDigit_toNat a ha
  have nb := isDigit_toNat b hb
  have hv : digitsValue [a, b] = 10 * (a.toNat - 48) + (b.toNat - 48) := by
    simp [digitsValue]
  rw [setw2_eq_twoDigits _ (stoi_two a b ha hb).2, hv]
  unfold twoDigits
  have e1 : (10 * (a.toNat - 48) + (b.toNat - 48)) / 10 = a.toNat - 48 := by omega
  have e2 : (10 * (a.toNat - 48) + (b.toNat - 48)) % 10 = b.toNat - 48 := by omega
  rw [e1, e2, digitChar_of_digit a ha, digitChar_of_digit b hb]

theorem toString_of_digits (a b c d : Char) (ha : a.isDigit = true) (hb : b.isDigit = true)
    (hc : c.isDigit = true) (hd : d.isDigit = true) (h0 : a ≠ '0') :
    toString (digitsValue [a, b, c, d]) = String.mk [a, b, c, d] := by
  have na := isDigit_toNat a ha
  have nb := isDigit_toNat b hb
  have nc := isDigit_toNat c hc
  have nd := isDigit_toNat d hd
  have ha1 : 49 ≤ a.toNat := by
    rcases Nat.lt_or_ge a.toNat 49 with h | h
    · exfalso
      apply h0
      have : a.toNat = 48 := by omega
      rw [← Char.ofNat_toNat a, this]
    · exact h
  have hv : digitsValue [a, b, c, d]
      = 10 * (10 * (10 * (a.toNat - 48) + (b.toNat - 48)) + (c.toNat - 48)) + (d.toNat - 48) := by
    simp [digitsValue]
  rw [toString_fourDigits _ (by omega) (by omega), hv]
  unfold fourDigits
  have e1 : (10 * (10 * (10 * (a.toNat - 48) + (b.toNat - 48)) + (c.toNat - 48))
      + (d.toNat - 48)) / 1000 = a.toNat - 48 := by omega
  have e2 : (10 * (10 * (10 * (a.toNat - 48) + (b.toNat - 48)) + (c.toNat - 48))
      + (d.toNat - 48)) / 100 % 10 = b.toNat - 48 := by omega
  have e3 : (10 * (10 * (10 * (a.toNat - 48) + (b.toNat - 48)) + (c.toNat - 48))
      + (d.toNat - 48)) / 10 % 10 = c.toNat - 48 := by omega
  have e4 : (10 * (10 * (10 * (a.toNat - 48) + (b.toNat - 48)) + (c.toNat - 48))
      + (d.toNat - 48)) % 10 = d.toNat - 48 := by omega
  rw [e1, e2, e3, e4, digitChar_of_digit a ha, digitChar_of_digit b hb,
    digitChar_of_digit c hc, digitChar_of_digit d hd]

/-- The date and the flag that `GetFileMetadata` returns come from the seed and, when
the file has a capture-date text, from `parseDateTag` on it. -/
theorem GetFileMetadata_date (env : Env) (path : String) (w : World) :
    (GetFileMetadata env path w).1.date
        = (match captureDateTag w path with
          | some tag => parseDateTag tag
              { date := seedDate (w.files.lookup path), hasDate := false, location := "" }
          | none => { date := seedDate (w.files.lookup path), hasDate := false,
                      location := "" }).date ∧
    (GetFileMetadata env path w).1.hasDate
        = (match captureDateTag w path with
          | some tag => parseDateTag tag
              { date := seedDate (w.files.lookup path), hasDate := false, location := "" }
          | none => { date := seedDate (w.files.lookup path), hasDate := false,
                      location := "" }).hasDate := by
  unfold GetFileMetadata captureDateTag
  cases hf : w.files.lookup path with
  | none => exact ⟨rfl, rfl⟩
  | some info =>
    cases hi : info.image with
    | none => simp [hi]
    | some image =>
      simp only [Option.bind, hi]
      split <;> split <;> simp_all

/-! ## The outcomes of `ProcessFile` on a regular file -/

/-- A candidate that the loop hands to the copy does not exist, and the existence
check on it did not throw. -/
theorem probe_copyTo_free (env : Env) (w : World) (filePath targetDir baseName ext : String)
    (dst : String) : ∀ (fuel dup : Nat) (targetFile : String),
    probe env w filePath targetDir baseName ext fuel dup targetFile = ProbeResult.copyTo dst →
      fileExists w dst = false ∧ env.existsFails dst = false := by
  intro fuel
  induction fuel with
  | zero =>
    intro dup targetFile h
    simp [probe] at h
  | succ fuel ih =>
    intro dup targetFile h
    rw [probe] at h
    split at h
    · cases h
    · rename_i hex
      split at h
      · rename_i hfree
        injection h with h
        subst h
        exact ⟨by simpa using hfree, by simpa using hex⟩
      · split at h
        · cases h
        · exact ih _ _ h

/-- A call of `ProcessFile` for a regular file while no stop is requested ends in one
of two ways: the file is counted as skipped and no file is written, or the source is
copied to a path that did not exist and the file is counted as succeeded. -/
theorem ProcessFile_outcome (env : Env) (ProcessZip : String → World → World)
    (filePath : String) (w : World) (hstop : w.stopRequested = false)
    (hzip : extension filePath ≠ ".zip" ∧ extension filePath ≠ ".ZIP") :
    ProcessFile env ProcessZip filePath w = (counted env filePath w).incSkipped ∨
    ∃ dst info, fileExists w dst = false ∧ w.files.lookup filePath = some info ∧
      ProcessFile env ProcessZip filePath w
        = World.incSuccess
            { counted env filePath w with files := w.files ++ [(dst, info)] } := by
  rw [ProcessFile_regular env ProcessZip filePath w hstop hzip]
  have hfin := probe_finishes env w filePath (GetFileMetadata env filePath w).1
    (extension filePath)
  split
  · exact Or.inl rfl
  · split
    · exact Or.inl rfl
    · exact Or.inl rfl
    · rename_i hun
      exact absurd hun hfin
    · rename_i dst hp
      have hfree := (probe_copyTo_free env w filePath _ _ _ dst _ _ _ hp).1
      unfold copy_file
      simp only [World.incProcessed]
      cases hl : w.files.lookup filePath with
      | none => exact Or.inl rfl
      | some info =>
        simp only
        have hfree2 : fileExists { w with
            stats := { w.stats with processed := w.stats.processed + 1 },
            observed := { w.stats with processed := w.stats.processed + 1 } :: w.observed,
            geo := (GetFileMetadata env filePath w).2.geo } dst = false := hfree
        by_cases hc : env.copyFileFails filePath dst = true
        · simp only [hfree2, hc, Bool.or_true, if_true]
          exact Or.inl rfl
        · have hc2 : env.copyFileFails filePath dst = false := by simpa using hc
          simp only [hfree2, hc2, Bool.or_false, Bool.false_eq_true, if_false]
          exact Or.inr ⟨dst, info, hfree, rfl, rfl⟩

/-- The counters after a call of `ProcessFile` for a regular file while no stop is
requested: `processed` is one up, and so is exactly one of `succeeded` and
`skipped`; `totalFiles`, the stop flag and the target root are as before. -/
theorem ProcessFile_counts (env : Env) (ProcessZip : String → World → World)
    (filePath : String) (w : World) (hstop : w.stopRequested = false)
    (hzip : extension filePath ≠ ".zip" ∧ extension filePath ≠ ".ZIP") :
    (ProcessFile env ProcessZip filePath w).stats.processed = w.stats.processed + 1 ∧
    (ProcessFile env ProcessZip filePath w).stats.totalFiles = w.stats.totalFiles ∧
    (ProcessFile env ProcessZip filePath w).stopRequested = false ∧
    (ProcessFile env ProcessZip filePath w).targetPath = w.targetPath ∧
    (((ProcessFile env ProcessZip filePath w).stats.succeeded = w.stats.succeeded + 1 ∧
        (ProcessFile env ProcessZip filePath w).stats.skipped = w.stats.skipped) ∨
      ((ProcessFile env ProcessZip filePath w).stats.succeeded = w.stats.succeeded ∧
        (ProcessFile env ProcessZip filePath w).stats.skipped = w.stats.skipped + 1)) := by
  rcases ProcessFile_outcome env ProcessZip filePath w hstop hzip with h | ⟨dst, info, _, _, h⟩
  · rw [h]
    exact ⟨rfl, rfl, hstop, rfl, Or.inr ⟨rfl, rfl⟩⟩
  · rw [h]
    exact ⟨rfl, rfl, hstop, rfl, Or.inl ⟨rfl, rfl⟩⟩

/-- A worker that handles regular files only, with no stop requested, counts each of
its jobs once as processed and once as succeeded or skipped. -/
theorem WorkerThread_counts (env : Env) (ProcessZip : String → World → World) :
    ∀ (jobs : List String) (w : World), w.stopRequested = false →
      (∀ p ∈ jobs, extension p ≠ ".zip" ∧ extension p ≠ ".ZIP") →
      (WorkerThread env ProcessZip jobs w).stats.processed
          = w.stats.processed + jobs.length ∧
        (WorkerThread env ProcessZip jobs w).stats.succeeded
            + (WorkerThread env ProcessZip jobs w).stats.skipped
          = w.stats.succeeded + w.stats.skipped + jobs.length ∧
        (WorkerThread env ProcessZip jobs w).stats.totalFiles = w.stats.totalFiles := by
  intro jobs
  induction jobs with
  | nil =>
    intro w _ _
    exact ⟨rfl, rfl, rfl⟩
  | cons p rest ih =>
    intro w hstop hzip
    have hp := ProcessFile_counts env ProcessZip p w hstop (hzip p (List.mem_cons_self _ _))
    have hrest := ih (ProcessFile env ProcessZip p w) hp.2.2.1
      (fun q hq => hzip q (List.mem_cons_of_mem _ hq))
    unfold WorkerThread
    simp only [hstop, Bool.false_eq_true, if_false, List.length_cons]
    refine ⟨by omega, ?_, by omega⟩
    rcases hp.2.2.2.2 with h | h <;> omega

/-! ## The geocoding cache, call after call -/

/-- After a call the cache holds the returned text under the key of the call. -/
theorem ReverseGeocode_cached {α : Type} (fixed3 : α → String)
    (http : α → α → Option (List Char)) (lat lon : α) (g : GeoState) :
    (ReverseGeocode fixed3 http lat lon g).2.cache.lookup (fixed3 lat ++ "_" ++ fixed3 lon)
      = some (ReverseGeocode fixed3 http lat lon g).1 := by
  unfold ReverseGeocode
  simp only
  split
  · rename_i cached hc
    exact hc
  · simp [List.lookup]

/-- A call leaves every entry that the cache already holds as it is. -/
theorem ReverseGeocode_keeps {α : Type} (fixed3 : α → String)
    (http : α → α → Option (List Char)) (lat lon : α) (g : GeoState)
    (key value : String) (h : g.cache.lookup key = some value) :
    (ReverseGeocode fixed3 http lat lon g).2.cache.lookup key = some value := by
  unfold ReverseGeocode
  simp only
  split
  · exact h
  · rename_i hmiss
    have hne : key ≠ fixed3 lat ++ "_" ++ fixed3 lon := by
      intro e
      rw [e, hmiss] at h
      cases h
    have hb : (key == fixed3 lat ++ "_" ++ fixed3 lon) = false := by simpa using hne
    simp only [List.lookup, hb]
    exact h

theorem geocodeAll_keeps {α : Type} (fixed3 : α → String)
    (calls : List ((α → α → Option (List Char)) × α × α)) (g : GeoState)
    (key value : String) (h : g.cache.lookup key = some value) :
    (geocodeAll fixed3 calls g).cache.lookup key = some value := by
  induction calls generalizing g with
  | nil => exact h
  | cons call calls ih =>
    unfold geocodeAll
    exact ih _ (ReverseGeocode_keeps fixed3 call.1 call.2.1 call.2.2 g key value h)

/-- A call whose key is in the cache returns the cached text and changes nothing. -/
theorem ReverseGeocode_hit {α : Type} (fixed3 : α → String)
    (http : α → α → Option (List Char)) (lat lon : α) (g : GeoState)
    (value : String) (h : g.cache.lookup (fixed3 lat ++ "_" ++ fixed3 lon) = some value) :
    ReverseGeocode fixed3 http lat lon g = (value, g) := by
  unfold ReverseGeocode
  simp only [h]

/-- Take two coordinate pairs for which line 367 builds the same key text. Whatever
the network answers to the first call (a response or a failure), and whatever other
calls are made in between, a later call for the second pair returns the result of
the first call and leaves the geocoding state, with its count of network passes,
untouched. -/
theorem ReverseGeocode_same_key {α : Type} (fixed3 : α → String)
    (http1 http2 : α → α → Option (List Char)) (lat1 lon1 lat2 lon2 : α)
    (between : List ((α → α → Option (List Char)) × α × α)) (g : GeoState)
    (hlat : fixed3 lat1 = fixed3 lat2) (hlon : fixed3 lon1 = fixed3 lon2) :
    (ReverseGeocode fixed3 http2 lat2 lon2
        (geocodeAll fixed3 between (ReverseGeocode fixed3 http1 lat1 lon1 g).2)).1
      = (ReverseGeocode fixed3 http1 lat1 lon1 g).1 ∧
    (ReverseGeocode fixed3 http2 lat2 lon2
        (geocodeAll fixed3 between (ReverseGeocode fixed3 http1 lat1 lon1 g).2)).2.netCalls
      = (geocodeAll fixed3 between (ReverseGeocode fixed3 http1 lat1 lon1 g).2).netCalls ∧
    (ReverseGeocode fixed3 http2 lat2 lon2
        (geocodeAll fixed3 between (ReverseGeocode fixed3 http1 lat1 lon1 g).2)).2
      = geocodeAll fixed3 between (ReverseGeocode fixed3 http1 lat1 lon1 g).2 := by
  have h1 := ReverseGeocode_cached fixed3 http1 lat1 lon1 g
  have h2 := geocodeAll_keeps fixed3 between _ _ _ h1
  rw [hlat, hlon] at h2
  rw [ReverseGeocode_hit fixed3 http2 lat2 lon2 _ _ h2]
  exact ⟨rfl, rfl, rfl⟩

/-! ## The geocoding cache grows -/

/-- A call adds at most one entry to the cache, in front, under a key that the cache
did not hold. -/
theorem ReverseGeocode_grows {α : Type} (fixed3 : α → String)
    (http : α → α → Option (List Char)) (lat lon : α) (g : GeoState) :
    ∃ added, (ReverseGeocode fixed3 http lat lon g).2.cache = added ++ g.cache ∧
      ∀ e ∈ added, g.cache.lookup e.1 = none := by
  unfold ReverseGeocode
  simp only
  split
  · exact ⟨[], rfl, fun _ he => nomatch he⟩
  · rename_i hmiss
    refine ⟨[(fixed3 lat ++ "_" ++ fixed3 lon, _)], rfl, ?_⟩
    intro e he
    simp only [List.mem_singleton] at he
    subst he
    exact hmiss

theorem geocodeAll_append {α : Type} (fixed3 : α → String)
    (earlier later : List ((α → α → Option (List Char)) × α × α)) :
    ∀ g, geocodeAll fixed3 (earlier ++ later) g
      = geocodeAll fixed3 later (geocodeAll fixed3 earlier g) := by
  induction earlier with
  | nil => intro g; rfl
  | cons call calls ih =>
    intro g
    simp only [List.cons_append, geocodeAll]
    exact ih _

theorem geocodeAll_grows {α : Type} (fixed3 : α → String)
    (calls : List ((α → α → Option (List Char)) × α × α)) :
    ∀ g, ∃ added, (geocodeAll fixed3 calls g).cache = added ++ g.cache ∧
      ∀ e ∈ added, g.cache.lookup e.1 = none := by
  induction calls with
  | nil =>
    intro g
    exact ⟨[], rfl, fun _ he => nomatch he⟩
  | cons call calls ih =>
    intro g
    obtain ⟨a1, h1, hn1⟩ := ReverseGeocode_grows fixed3 call.1 call.2.1 call.2.2 g
    obtain ⟨a2, h2, hn2⟩ := ih (ReverseGeocode fixed3 call.1 call.2.1 call.2.2 g).2
    refine ⟨a2 ++ a1, ?_, ?_⟩
    · simp only [geocodeAll]
      rw [h2, h1, List.append_assoc]
    · intro e he
      rcases List.mem_append.mp he with he | he
      · cases hl : g.cache.lookup e.1 with
        | none => rfl
        | some v =>
          have hk := ReverseGeocode_keeps fixed3 call.1 call.2.1 call.2.2 g e.1 v hl
          rw [hn2 e he] at hk
          cases hk
      · exact hn1 e he

/-! ## The geocoding cache, step by step -/

/-- A call is its first critical section and, after a miss, its second one. -/
theorem ReverseGeocode_steps {α : Type} (fixed3 : α → String)
    (http : α → α → Option (List Char)) (lat lon : α) (g : GeoState) :
    ReverseGeocode fixed3 http lat lon g =
      match cacheLookup fixed3 lat lon g with
      | some cached => (cached, g)
      | none => fetchAndStore fixed3 http lat lon g := by
  unfold ReverseGeocode cacheLookup fetchAndStore
  rfl

theorem runWorkers_append {α : Type} (fixed3 : α → String) (first second : List (GeoStep α)) :
    ∀ state, runWorkers fixed3 (first ++ second) state
      = runWorkers fixed3 second (runWorkers fixed3 first state) := by
  induction first with
  | nil => intro state; rfl
  | cons step steps ih =>
    intro state
    cases step with
    | enter http lat lon =>
      simp only [List.cons_append, runWorkers]
      split <;> exact ih _
    | finish i =>
      simp only [List.cons_append, runWorkers]
      split <;> exact ih _

/-- A call that no other step interrupts is the call of the sequential code. -/
theorem runWorkers_call {α : Type} (fixed3 : α → String)
    (http : α → α → Option (List Char)) (lat lon : α) (g : GeoState) :
    runWorkers fixed3 [GeoStep.enter http lat lon, GeoStep.finish 0] (g, [])
      = ((ReverseGeocode fixed3 http lat lon g).2, []) := by
  rw [ReverseGeocode_steps]
  cases h : cacheLookup fixed3 lat lon g with
  | some cached => simp [runWorkers, h]
  | none => simp [runWorkers, h]

/-- Calls made one after the other are the steps of `sequentialSteps`. -/
theorem runWorkers_sequential {α : Type} (fixed3 : α → String)
    (calls : List ((α → α → Option (List Char)) × α × α)) :
    ∀ g, runWorkers fixed3 (sequentialSteps calls) (g, []) = (geocodeAll fixed3 calls g, []) := by
  induction calls with
  | nil => intro g; rfl
  | cons call calls ih =>
    intro g
    have e : sequentialSteps (call :: calls)
        = [GeoStep.enter call.1 call.2.1 call.2.2, GeoStep.finish 0] ++ sequentialSteps calls := by
      simp [sequentialSteps]
    rw [e, runWorkers_append, runWorkers_call, ih]
    rfl

/-- The second critical section leaves the entries of other keys as they are. -/
theorem fetchAndStore_other {α : Type} (fixed3 : α → String)
    (http : α → α → Option (List Char)) (lat lon : α) (g : GeoState) (key : String)
    (hne : fixed3 lat ++ "_" ++ fixed3 lon ≠ key) :
    (fetchAndStore fixed3 http lat lon g).2.cache.lookup key = g.cache.lookup key := by
  unfold fetchAndStore
  have hb : (key == fixed3 lat ++ "_" ++ fixed3 lon) = false := by
    simpa using fun e => hne e.symm
  simp only [List.lookup, hb]

/-- The second critical section removes no key. -/
theorem fetchAndStore_present {α : Type} (fixed3 : α → String)
    (http : α → α → Option (List Char)) (lat lon : α) (g : GeoState) (key : String)
    (h : (g.cache.lookup key).isSome = true) :
    ((fetchAndStore fixed3 http lat lon g).2.cache.lookup key).isSome = true := by
  unfold fetchAndStore
  simp only [List.lookup]
  cases hb : key == fixed3 lat ++ "_" ++ fixed3 lon with
  | true => rfl
  | false => exact h

/-- No step of the workers removes a key from the cache. -/
theorem runWorkers_present {α : Type} (fixed3 : α → String) (key : String) :
    ∀ (steps : List (GeoStep α)) (g : GeoState) (pending : List (PendingCall α)),
      (g.cache.lookup key).isSome = true →
      ((runWorkers fixed3 steps (g, pending)).1.cache.lookup key).isSome = true := by
  intro steps
  induction steps with
  | nil => intro g pending h; exact h
  | cons step steps ih =>
    intro g pending h
    cases step with
    | enter http lat lon =>
      simp only [runWorkers]
      split
      · exact ih g pending h
      · exact ih g _ h
    | finish i =>
      simp only [runWorkers]
      split
      · exact ih g pending h
      · exact ih _ _ (fetchAndStore_present fixed3 _ _ _ g key h)

/-- While no pending call has missed a key, the steps of the workers leave the entry
of the key as it is: a call that enters finds the key, and the calls that finish
write other keys. -/
theorem runWorkers_keeps {α : Type} (fixed3 : α → String) (key value : String) :
    ∀ (steps : List (GeoStep α)) (g : GeoState) (pending : List (PendingCall α)),
      g.cache.lookup key = some value → (∀ c ∈ pending, c.key fixed3 ≠ key) →
      (runWorkers fixed3 steps (g, pending)).1.cache.lookup key = some value ∧
      ∀ c ∈ (runWorkers fixed3 steps (g, pending)).2, c.key fixed3 ≠ key := by
  intro steps
  induction steps with
  | nil => intro g pending h hp; exact ⟨h, hp⟩
  | cons step steps ih =>
    intro g pending h hp
    cases step with
    | enter http lat lon =>
      simp only [runWorkers]
      split
      · exact ih g pending h hp
      · rename_i hmiss
        apply ih g _ h
        intro c hc
        rcases List.mem_append.mp hc with hc | hc
        · exact hp c hc
        · simp only [List.mem_singleton] at hc
          subst hc
          intro e
          simp only [PendingCall.key] at e
          simp only [cacheLookup] at hmiss
          rw [e, h] at hmiss
          cases hmiss
    | finish i =>
      simp only [runWorkers]
      split
      · exact ih g pending h hp
      · rename_i c hget
        have hc : c ∈ pending := List.get?_mem hget
        apply ih
        · rw [fetchAndStore_other fixed3 c.http c.lat c.lon g key (hp c hc)]
          exact h
        · intro c2 hc2
          exact hp c2 ((List.eraseIdx_sublist pending i).subset hc2)

/-! ## C1: the destination path -/

/-- C1: for every target root, every timestamp with a four-digit year, month 1..12,
day 1..31, hour 0..23, minute 0..59 and second 0..59, every location text and every
extension, the name that line 611 derives is `<targetRoot>\YYYY\YYYY-MM\` followed
by `YYYY-MM-DD HH-mm-ss`, a space and the location exactly when the location is not
empty, and the unchanged extension. When `ProcessFile` reaches the naming step for a
file with this metadata (no stop requested, not an archive, the directory can be
created) and nothing exists at that name, it leaves the loop to copy to that name,
and when the copy does not fail the file system gains the source file under that
name and the file counts as processed and succeeded. -/
theorem ProcessFile_destination (targetRoot : String) (md : FileMetadata) (ext : String)
    (hyear : 1000 ≤ md.date.wYear ∧ md.date.wYear ≤ 9999)
    (hmonth : 1 ≤ md.date.wMonth ∧ md.date.wMonth ≤ 12)
    (hday : 1 ≤ md.date.wDay ∧ md.date.wDay ≤ 31)
    (hhour : md.date.wHour ≤ 23) (hminute : md.date.wMinute ≤ 59)
    (hsecond : md.date.wSecond ≤ 59) :
    targetDirOf targetRoot md.date = layoutDirectory targetRoot md.date ∧
    pathAppend (targetDirOf targetRoot md.date) (baseNameOf md ++ ext)
      = layoutDirectory targetRoot md.date ++ layoutFileName md.date md.location ext ∧
    ∀ (env : Env) (ProcessZip : String → World → World) (filePath : String) (w : World)
      (info : FileInfo),
      w.targetPath = targetRoot → w.stopRequested = false →
      extension filePath = ext → ext ≠ ".zip" → ext ≠ ".ZIP" →
      (GetFileMetadata env filePath w).1 = md →
      w.files.lookup filePath = some info →
      env.createDirectoriesFails (layoutDirectory targetRoot md.date) = false →
      env.existsFails
        (layoutDirectory targetRoot md.date ++ layoutFileName md.date md.location ext)
        = false →
      fileExists w
        (layoutDirectory targetRoot md.date ++ layoutFileName md.date md.location ext)
        = false →
      probe env w filePath (targetDirOf targetRoot md.date) (baseNameOf md) ext
          (w.files.length + 1) 0
          (pathAppend (targetDirOf targetRoot md.date) (baseNameOf md ++ ext))
        = ProbeResult.copyTo
            (layoutDirectory targetRoot md.date ++ layoutFileName md.date md.location ext) ∧
      (env.copyFileFails filePath
          (layoutDirectory targetRoot md.date ++ layoutFileName md.date md.location ext)
          = false →
        (ProcessFile env ProcessZip filePath w).files
          = w.files ++ [(layoutDirectory targetRoot md.date
              ++ layoutFileName md.date md.location ext, info)] ∧
        (ProcessFile env ProcessZip filePath w).stats
          = { w.stats with processed := w.stats.processed + 1,
                           succeeded := w.stats.succeeded + 1 }) := by
  have hdir : targetDirOf targetRoot md.date = layoutDirectory targetRoot md.date :=
    layoutDirectory_eq _ _ hyear (by omega)
  have hname : baseNameOf md ++ ext = layoutFileName md.date md.location ext :=
    layoutFileName_eq _ _ hyear (by omega) (by omega) (by omega) (by omega) (by omega)
  have hcand : pathAppend (targetDirOf targetRoot md.date) (baseNameOf md ++ ext)
      = layoutDirectory targetRoot md.date ++ layoutFileName md.date md.location ext := by
    rw [pathAppend_names, hdir, hname]
  refine ⟨hdir, hcand, ?_⟩
  intro env ProcessZip filePath w info htarget hstop hext hz1 hz2 hmd hsrc hmkdir hexists hfree
  subst htarget hext hmd
  have hprobe : probe env w filePath
      (targetDirOf w.targetPath (GetFileMetadata env filePath w).1.date)
      (baseNameOf (GetFileMetadata env filePath w).1) (extension filePath)
      (w.files.length + 1) 0
      (layoutDirectory w.targetPath (GetFileMetadata env filePath w).1.date
        ++ layoutFileName (GetFileMetadata env filePath w).1.date
            (GetFileMetadata env filePath w).1.location (extension filePath))
      = ProbeResult.copyTo
          (layoutDirectory w.targetPath (GetFileMetadata env filePath w).1.date
            ++ layoutFileName (GetFileMetadata env filePath w).1.date
                (GetFileMetadata env filePath w).1.location (extension filePath)) :=
    probe_free _ _ _ _ _ _ _ _ _ hexists hfree
  refine ⟨by rw [hcand]; exact hprobe, ?_⟩
  intro hcopy
  rw [ProcessFile_regular env ProcessZip filePath w hstop ⟨hz1, hz2⟩]
  rw [← hdir] at hmkdir
  simp only [hmkdir, if_false, Bool.false_eq_true, hcand, hprobe]
  have hfree2 : fileExists
      { w.incProcessed with geo := (GetFileMetadata env filePath w).2.geo }
      (layoutDirectory w.targetPath (GetFileMetadata env filePath w).1.date
        ++ layoutFileName (GetFileMetadata env filePath w).1.date
            (GetFileMetadata env filePath w).1.location (extension filePath)) = false := hfree
  have hsrc2 : List.lookup filePath
      ({ w.incProcessed with geo := (GetFileMetadata env filePath w).2.geo } : World).files
        = some info := hsrc
  simp only [copy_file, hsrc2, hfree2, hcopy, Bool.or_self, if_false, Bool.false_eq_true]
  exact ⟨rfl, rfl⟩

/-- C1, at the scenario of the specification: `photo.jpg` with EXIF date
`2023:10:15 14:30:05` at a position that resolves to `Paris` is copied to
`target\2023\2023-10\2023-10-15 14-30-05 Paris.jpg`. -/
theorem ProcessFile_destination_witness :
    (GetFileMetadata calmEnv "src\\photo.jpg" sceneWorld).1
        = { date := { wYear := 2023, wMonth := 10, wDayOfWeek := 6, wDay := 15,
                      wHour := 14, wMinute := 30, wSecond := 5, wMilliseconds := 0 },
            hasDate := true, location := "Paris" } ∧
      (ProcessFile calmEnv skipZip "src\\photo.jpg" sceneWorld).files.map Prod.fst
        = ["src\\photo.jpg", "src\\note.txt",
           "target\\2023\\2023-10\\2023-10-15 14-30-05 Paris.jpg"] := by
  have h := (ProcessFile_destination "target"
    { date := { wYear := 2023, wMonth := 10, wDayOfWeek := 6, wDay := 15,
                wHour := 14, wMinute := 30, wSecond := 5, wMilliseconds := 0 },
      hasDate := true, location := "Paris" } ".jpg"
    (by decide) (by decide) (by decide) (by decide) (by decide) (by decide)).2.2
    calmEnv skipZip "src\\photo.jpg" sceneWorld photoInfo
    rfl rfl (by decide) (by decide) (by decide) (by decide) rfl rfl rfl (by decide)
  refine ⟨by decide, ?_⟩
  rw [(h.2 rfl).1]
  rfl

/-! ## C2: the collision probe -/

/-- C2: when `fs::exists` does not fail, the loop of `ProcessFile` goes through the
names `baseName.ext`, `baseName_1.ext`, `baseName_2.ext`, ... of the target directory
(suffix before the extension) in this order and stops at the first one, `k`, that
either does not exist (it leaves the loop to copy to that name) or exists with the
byte size of the source (duplicate); every name before `k` exists with another size.
In particular the name is `_1` after one collision with a file of another size and
`_2` after two. -/
theorem probe_first_fit (env : Env) (w : World) (filePath : String) (md : FileMetadata)
    (ext : String) (hex : ∀ p, env.existsFails p = false) :
    (∃ k, k ≤ w.files.length ∧
      (∀ j, j < k →
        fileExists w (suffixedName (targetDirOf w.targetPath md.date) (baseNameOf md) ext j)
          = true ∧
        file_size w (suffixedName (targetDirOf w.targetPath md.date) (baseNameOf md) ext j)
          ≠ file_size w filePath) ∧
      ((fileExists w (suffixedName (targetDirOf w.targetPath md.date) (baseNameOf md) ext k)
          = false ∧
        probe env w filePath (targetDirOf w.targetPath md.date) (baseNameOf md) ext
            (w.files.length + 1) 0
            (pathAppend (targetDirOf w.targetPath md.date) (baseNameOf md ++ ext))
          = ProbeResult.copyTo
              (suffixedName (targetDirOf w.targetPath md.date) (baseNameOf md) ext k)) ∨
       (fileExists w (suffixedName (targetDirOf w.targetPath md.date) (baseNameOf md) ext k)
          = true ∧
        file_size w (suffixedName (targetDirOf w.targetPath md.date) (baseNameOf md) ext k)
          = file_size w filePath ∧
        probe env w filePath (targetDirOf w.targetPath md.date) (baseNameOf md) ext
            (w.files.length + 1) 0
            (pathAppend (targetDirOf w.targetPath md.date) (baseNameOf md ++ ext))
          = ProbeResult.duplicate
              (suffixedName (targetDirOf w.targetPath md.date) (baseNameOf md) ext k)))) ∧
    (fileExists w (suffixedName (targetDirOf w.targetPath md.date) (baseNameOf md) ext 0) = true →
      file_size w (suffixedName (targetDirOf w.targetPath md.date) (baseNameOf md) ext 0)
        ≠ file_size w filePath →
      fileExists w (targetDirOf w.targetPath md.date ++ baseNameOf md ++ "_1" ++ ext) = false →
      probe env w filePath (targetDirOf w.targetPath md.date) (baseNameOf md) ext
          (w.files.length + 1) 0
          (pathAppend (targetDirOf w.targetPath md.date) (baseNameOf md ++ ext))
        = ProbeResult.copyTo (targetDirOf w.targetPath md.date ++ baseNameOf md ++ "_1" ++ ext)) ∧
    (fileExists w (suffixedName (targetDirOf w.targetPath md.date) (baseNameOf md) ext 0) = true →
      file_size w (suffixedName (targetDirOf w.targetPath md.date) (baseNameOf md) ext 0)
        ≠ file_size w filePath →
      fileExists w (targetDirOf w.targetPath md.date ++ baseNameOf md ++ "_1" ++ ext) = true →
      file_size w (targetDirOf w.targetPath md.date ++ baseNameOf md ++ "_1" ++ ext)
        ≠ file_size w filePath →
      fileExists w (targetDirOf w.targetPath md.date ++ baseNameOf md ++ "_2" ++ ext) = false →
      probe env w filePath (targetDirOf w.targetPath md.date) (baseNameOf md) ext
          (w.files.length + 1) 0
          (pathAppend (targetDirOf w.targetPath md.date) (baseNameOf md ++ ext))
        = ProbeResult.copyTo
            (targetDirOf w.targetPath md.date ++ baseNameOf md ++ "_2" ++ ext)) := by
  have hname : ∀ k, candidate (targetDirOf w.targetPath md.date) (baseNameOf md) ext k
      = suffixedName (targetDirOf w.targetPath md.date) (baseNameOf md) ext k := by
    intro k
    rw [candidate_eq]
    rfl
  have h0 : pathAppend (targetDirOf w.targetPath md.date) (baseNameOf md ++ ext)
      = candidate (targetDirOf w.targetPath md.date) (baseNameOf md) ext 0 := by
    simp [candidate]
  have hfin := probe_finishes env w filePath md ext
  have hmain : ∃ k, k ≤ w.files.length ∧
      (∀ j, j < k →
        fileExists w (suffixedName (targetDirOf w.targetPath md.date) (baseNameOf md) ext j)
          = true ∧
        file_size w (suffixedName (targetDirOf w.targetPath md.date) (baseNameOf md) ext j)
          ≠ file_size w filePath) ∧
      ((fileExists w (suffixedName (targetDirOf w.targetPath md.date) (baseNameOf md) ext k)
          = false ∧
        probe env w filePath (targetDirOf w.targetPath md.date) (baseNameOf md) ext
            (w.files.length + 1) 0
            (pathAppend (targetDirOf w.targetPath md.date) (baseNameOf md ++ ext))
          = ProbeResult.copyTo
              (suffixedName (targetDirOf w.targetPath md.date) (baseNameOf md) ext k)) ∨
       (fileExists w (suffixedName (targetDirOf w.targetPath md.date) (baseNameOf md) ext k)
          = true ∧
        file_size w (suffixedName (targetDirOf w.targetPath md.date) (baseNameOf md) ext k)
          = file_size w filePath ∧
        probe env w filePath (targetDirOf w.targetPath md.date) (baseNameOf md) ext
            (w.files.length + 1) 0
            (pathAppend (targetDirOf w.targetPath md.date) (baseNameOf md ++ ext))
          = ProbeResult.duplicate
              (suffixedName (targetDirOf w.targetPath md.date) (baseNameOf md) ext k))) := by
    rw [h0] at hfin ⊢
    rcases probe_scan env w filePath (targetDirOf w.targetPath md.date) (baseNameOf md) ext hex
        (w.files.length + 1) 0 with ⟨hun, _⟩ | ⟨k, _, hk, hall, hres⟩
    · exact absurd hun hfin
    · refine ⟨k, by omega, ?_, ?_⟩
      · intro j hj
        rw [← hname j]
        exact hall j (Nat.zero_le _) hj
      · rw [← hname k]
        exact hres
  have e1 : targetDirOf w.targetPath md.date ++ baseNameOf md ++ "_1" ++ ext
      = suffixedName (targetDirOf w.targetPath md.date) (baseNameOf md) ext 1 := rfl
  have e2 : targetDirOf w.targetPath md.date ++ baseNameOf md ++ "_2" ++ ext
      = suffixedName (targetDirOf w.targetPath md.date) (baseNameOf md) ext 2 := rfl
  refine ⟨hmain, ?_, ?_⟩
  · intro a0 b0 a1
    rw [e1] at a1 ⊢
    obtain ⟨k, _, hall, hres⟩ := hmain
    have hk : k = 1 := by
      rcases Nat.lt_trichotomy k 1 with h | h | h
      · have : k = 0 := by omega
        subst this
        rcases hres with ⟨hf, _⟩ | ⟨_, hs, _⟩
        · rw [a0] at hf; cases hf
        · exact absurd hs b0
      · exact h
      · have := (hall 1 h).1
        rw [a1] at this; cases this
    subst hk
    rcases hres with ⟨_, hr⟩ | ⟨hf, _, _⟩
    · exact hr
    · rw [a1] at hf; cases hf
  · intro a0 b0 a1 b1 a2
    rw [e1] at a1 b1
    rw [e2] at a2 ⊢
    obtain ⟨k, _, hall, hres⟩ := hmain
    have hk : k = 2 := by
      rcases Nat.lt_trichotomy k 2 with h | h | h
      · rcases Nat.lt_or_ge k 1 with h1 | h1
        · have : k = 0 := by omega
          subst this
          rcases hres with ⟨hf, _⟩ | ⟨_, hs, _⟩
          · rw [a0] at hf; cases hf
          · exact absurd hs b0
        · have : k = 1 := by omega
          subst this
          rcases hres with ⟨hf, _⟩ | ⟨_, hs, _⟩
          · rw [a1] at hf; cases hf
          · exact absurd hs b1
      · exact h
      · have := (hall 2 h).1
        rw [a2] at this; cases this
    subst hk
    rcases hres with ⟨_, hr⟩ | ⟨hf, _, _⟩
    · exact hr
    · rw [a2] at hf; cases hf

/-- C2, at a target that already holds two files of other sizes under the name of
`note.txt` and under its `_1` name: the probe leaves the loop at the `_2` name. -/
theorem probe_first_fit_witness :
    probe calmEnv crowdedWorld "src\\note.txt" (targetDirOf "target" newYear2022)
        (baseNameOf { date := newYear2022, hasDate := false, location := "" }) ".txt"
        (crowdedWorld.files.length + 1) 0
        (pathAppend (targetDirOf "target" newYear2022)
          (baseNameOf { date := newYear2022, hasDate := false, location := "" } ++ ".txt"))
      = ProbeResult.copyTo "target\\2022\\2022-01\\2022-01-01 00-00-00_2.txt" :=
  (probe_first_fit calmEnv crowdedWorld "src\\note.txt"
    { date := newYear2022, hasDate := false, location := "" } ".txt" (fun _ => rfl)).2.2
    (by decide) (by decide) (by decide) (by decide) (by decide)

/-! ## C3: exact duplicates -/

/-- C3: when the name derived for a source file (not an archive, no stop requested)
already exists in the target with the byte size of the source, and neither the
directory creation nor `fs::exists` fails, the loop of `ProcessFile` classifies the
file as a duplicate; nothing is copied, `skipped` grows by exactly one and
`succeeded` keeps its value (`processed` grows by one). -/
theorem ProcessFile_duplicate (env : Env) (ProcessZip : String → World → World)
    (filePath : String) (w : World) (info existing : FileInfo) (md : FileMetadata)
    (name : String)
    (hstop : w.stopRequested = false)
    (hzip : extension filePath ≠ ".zip" ∧ extension filePath ≠ ".ZIP")
    (hmd : (GetFileMetadata env filePath w).1 = md)
    (hname : name = targetDirOf w.targetPath md.date ++ baseNameOf md ++ extension filePath)
    (hsrc : w.files.lookup filePath = some info)
    (htarget : w.files.lookup name = some existing)
    (hsize : existing.size = info.size)
    (hmkdir : env.createDirectoriesFails (targetDirOf w.targetPath md.date) = false)
    (hexists : env.existsFails name = false) :
    probe env w filePath (targetDirOf w.targetPath md.date) (baseNameOf md) (extension filePath)
        (w.files.length + 1) 0
        (pathAppend (targetDirOf w.targetPath md.date) (baseNameOf md ++ extension filePath))
      = ProbeResult.duplicate name ∧
    (ProcessFile env ProcessZip filePath w).files = w.files ∧
    (ProcessFile env ProcessZip filePath w).stats.skipped = w.stats.skipped + 1 ∧
    (ProcessFile env ProcessZip filePath w).stats.succeeded = w.stats.succeeded ∧
    (ProcessFile env ProcessZip filePath w).stats.processed = w.stats.processed + 1 := by
  subst hmd
  have hcand : pathAppend (targetDirOf w.targetPath (GetFileMetadata env filePath w).1.date)
      (baseNameOf (GetFileMetadata env filePath w).1 ++ extension filePath) = name := by
    rw [pathAppend_names, hname]
    apply String.ext
    simp
  have hex1 : fileExists w name = true := by simp [fileExists, htarget]
  have hsz : file_size w name = file_size w filePath := by
    simp [file_size, htarget, hsrc, hsize]
  have hprobe : probe env w filePath
      (targetDirOf w.targetPath (GetFileMetadata env filePath w).1.date)
      (baseNameOf (GetFileMetadata env filePath w).1) (extension filePath)
      (w.files.length + 1) 0 name = ProbeResult.duplicate name :=
    probe_same_size _ _ _ _ _ _ _ _ _ hexists hex1 hsz
  refine ⟨by rw [hcand]; exact hprobe, ?_⟩
  rw [ProcessFile_regular env ProcessZip filePath w hstop hzip]
  simp only [hmkdir, if_false, Bool.false_eq_true, hcand, hprobe]
  simp [World.incSkipped, World.incProcessed]

/-- C3, at the scene in which an earlier run already sorted `photo.jpg`: sorting the
same photo again copies nothing and counts it as skipped. -/
theorem ProcessFile_duplicate_witness :
    (ProcessFile calmEnv skipZip "src\\photo.jpg" sortedWorld).files.map Prod.fst
        = sortedWorld.files.map Prod.fst ∧
      (ProcessFile calmEnv skipZip "src\\photo.jpg" sortedWorld).stats
        = { totalFiles := 0, processed := 1, succeeded := 0, skipped := 1 } := by
  have h := ProcessFile_duplicate calmEnv skipZip "src\\photo.jpg" sortedWorld photoInfo
    photoInfo (GetFileMetadata calmEnv "src\\photo.jpg" sortedWorld).1
    "target\\2023\\2023-10\\2023-10-15 14-30-05 Paris.jpg"
    rfl (by decide) rfl (by decide) rfl rfl rfl rfl rfl
  refine ⟨by rw [h.2.1], ?_⟩
  decide

/-! ## C4: the counters -/

theorem settled_incSkipped (w : World) (g : GeoState) (h : w.settled) :
    (World.incSkipped { w.incProcessed with geo := g }).settled := by
  obtain ⟨h1, h2⟩ := h
  constructor
  · simp only [World.incSkipped, World.incProcessed]
    omega
  · intro s hs
    simp only [World.incSkipped, World.incProcessed, List.mem_cons] at hs
    rcases hs with rfl | rfl | hs
    · left; simp only; omega
    · right; simp only; omega
    · exact h2 s hs

theorem settled_incSuccess (env : Env) (w w2 : World) (g : GeoState) (src dst : String)
    (h : w.settled)
    (hc : copy_file env { w.incProcessed with geo := g } src dst = some w2) :
    w2.incSuccess.settled := by
  obtain ⟨h1, h2⟩ := h
  unfold copy_file at hc
  split at hc
  · cases hc
  · split at hc
    · cases hc
    · injection hc with hc
      subst hc
      constructor
      · simp only [World.incSuccess, World.incProcessed]
        omega
      · intro s hs
        simp only [World.incSuccess, World.incProcessed, List.mem_cons] at hs
        rcases hs with rfl | rfl | hs
        · left; simp only; omega
        · right; simp only; omega
        · exact h2 s hs

theorem ProcessFile_settled (env : Env) (ProcessZip : String → World → World)
    (hzip : ∀ p w, w.settled → (ProcessZip p w).settled) (filePath : String) (w : World)
    (h : w.settled) : (ProcessFile env ProcessZip filePath w).settled := by
  by_cases hstop : w.stopRequested = true
  · simp only [ProcessFile, hstop, if_true]
    exact h
  · by_cases hext : extension filePath = ".zip" ∨ extension filePath = ".ZIP"
    · simp only [ProcessFile, hstop, hext, if_true, if_false]
      exact hzip filePath w h
    · have hstop2 : w.stopRequested = false := by simpa using hstop
      have hext2 : extension filePath ≠ ".zip" ∧ extension filePath ≠ ".ZIP" := by
        constructor
        · intro e; exact hext (Or.inl e)
        · intro e; exact hext (Or.inr e)
      rw [ProcessFile_regular env ProcessZip filePath w hstop2 hext2]
      split
      · exact settled_incSkipped w _ h
      · have hfin := probe_finishes env w filePath (GetFileMetadata env filePath w).1
          (extension filePath)
        split
        · exact settled_incSkipped w _ h
        · exact settled_incSkipped w _ h
        · rename_i hun
          exact absurd hun hfin
        · split
          · rename_i hc
            exact settled_incSuccess env w _ _ _ _ h hc
          · exact settled_incSkipped w _ h

/-- C4 (counterexample): right after the reset, while `ProcessFile` works on
`note.txt`, the counters pass through `processed = 1`, `succeeded = 0`,
`skipped = 0`, where `processed` is not `succeeded + skipped`. -/
theorem counters_unbalanced_inside_call :
    sceneWorld.stats = Stats.reset ∧
      ∃ s ∈ (ProcessFile calmEnv skipZip "src\\note.txt" sceneWorld).observed,
        s = { totalFiles := 0, processed := 1, succeeded := 0, skipped := 0 } ∧
        s.processed ≠ s.succeeded + s.skipped := by
  refine ⟨rfl, { totalFiles := 0, processed := 1, succeeded := 0, skipped := 0 }, ?_, rfl, ?_⟩
  · decide
  · decide

/-- C4 (amended): when a worker processes any sequence of files one after the other,
starting with settled counters (as after the reset), `processed` equals
`succeeded + skipped` whenever the worker is between two files and at its end, and
every value that the counters take on the way has `processed` equal to
`succeeded + skipped` or exactly one above it. The archive branch is any handler
that keeps the counters settled. -/
theorem WorkerThread_settled (env : Env) (ProcessZip : String → World → World)
    (hzip : ∀ p w, w.settled → (ProcessZip p w).settled) (jobs : List String) (w : World)
    (h : w.settled) : (WorkerThread env ProcessZip jobs w).settled := by
  induction jobs generalizing w with
  | nil => exact h
  | cons filePath queue ih =>
    unfold WorkerThread
    split
    · exact h
    · exact ih _ (ProcessFile_settled env ProcessZip hzip filePath w h)

/-- C4 (amended), at the scene of the specification: after the reset the worker
sorts `photo.jpg` and `note.txt`; the counters end at 2 processed, 2 succeeded and
0 skipped, and were never more than one file ahead. -/
theorem WorkerThread_settled_witness :
    (WorkerThread calmEnv skipZip ["src\\photo.jpg", "src\\note.txt"] sceneWorld).settled ∧
      (WorkerThread calmEnv skipZip ["src\\photo.jpg", "src\\note.txt"] sceneWorld).stats
        = { totalFiles := 0, processed := 2, succeeded := 2, skipped := 0 } :=
  ⟨WorkerThread_settled calmEnv skipZip (fun _ _ hw => hw)
      ["src\\photo.jpg", "src\\note.txt"] sceneWorld
      ⟨rfl, fun _ hs => nomatch hs⟩,
    by decide⟩

/-! ## C5: coordinates that are equal after rounding -/

/-- The text of line 367 is made from the sign bit and the rounded thousandths. -/
theorem streamFixed3_congr (x y : Binary64) (hs : x.negative = y.negative)
    (ht : x.thousandths = y.thousandths) : streamFixed3 x = streamFixed3 y := by
  unfold streamFixed3
  rw [hs, ht]

/-- Two coordinates that are equal after rounding to 3 decimals have the same
thousandths, and the same sign bit unless both round to zero. -/
theorem roundedTo3_eq (x y : Binary64) (h : roundedTo3 x = roundedTo3 y) :
    x.thousandths = y.thousandths ∧ (x.thousandths ≠ 0 → x.negative = y.negative) := by
  unfold roundedTo3 at h
  cases hx : x.negative <;> cases hy : y.negative <;>
    simp only [hx, hy, if_true, if_false, Bool.false_eq_true] at h
  · exact ⟨by omega, fun _ => rfl⟩
  · exact ⟨by omega, fun hne => absurd (by omega : x.thousandths = 0) hne⟩
  · exact ⟨by omega, fun hne => absurd (by omega : x.thousandths = 0) hne⟩
  · exact ⟨by omega, fun _ => rfl⟩

/-- C5 (counterexample): the doubles nearest to `-0.0001` and `0.0001` are equal
after rounding to 3 decimals (both give zero), but line 367 prints them as `-0.000`
and `0.000`. After a call for latitude `0.0001` that got `Paris` from the network, a
call for latitude `-0.0001` at the same longitude misses the cache: it goes to the
network a second time and, the network failing, returns the empty text. -/
theorem ReverseGeocode_minus_zero_misses :
    roundedTo3 minusTenThousandth = roundedTo3 tenThousandth ∧
      streamFixed3 minusTenThousandth = "-0.000" ∧ streamFixed3 tenThousandth = "0.000" ∧
      (ReverseGeocode streamFixed3 (fun _ _ => some parisResponse) tenThousandth tenThousandth
        { cache := [], netCalls := 0 }).1 = "Paris" ∧
      (ReverseGeocode streamFixed3 (fun _ _ => none) minusTenThousandth tenThousandth
        (ReverseGeocode streamFixed3 (fun _ _ => some parisResponse) tenThousandth
          tenThousandth { cache := [], netCalls := 0 }).2).1 = "" ∧
      (ReverseGeocode streamFixed3 (fun _ _ => some parisResponse) tenThousandth tenThousandth
        { cache := [], netCalls := 0 }).2.netCalls = 1 ∧
      (ReverseGeocode streamFixed3 (fun _ _ => none) minusTenThousandth tenThousandth
        (ReverseGeocode streamFixed3 (fun _ _ => some parisResponse) tenThousandth
          tenThousandth { cache := [], netCalls := 0 }).2).2.netCalls = 2 := by
  refine ⟨by decide, by decide, by decide, by decide, by decide, by decide, by decide⟩

/-- C5 (amended): take two coordinate pairs whose latitudes and whose longitudes are
equal after rounding to 3 decimals and, where they round to zero, have the same sign
bit. Then line 367 builds the same key for both pairs. Let the call for the first
pair run while no other call that missed this key is in progress. Whatever the
network answers to it (a response or a failure), and whatever steps the calls of
other workers take afterwards, a later call for the second pair returns the result
of the first call and leaves the geocoding state, with its count of network passes,
untouched. Calls made one after the other are a case of this. -/
theorem ReverseGeocode_idempotent_same_sign
    (http1 http2 : Binary64 → Binary64 → Option (List Char))
    (lat1 lon1 lat2 lon2 : Binary64) (between : List (GeoStep Binary64))
    (g : GeoState) (pending : List (PendingCall Binary64))
    (hlat : roundedTo3 lat1 = roundedTo3 lat2) (hlon : roundedTo3 lon1 = roundedTo3 lon2)
    (hlatZero : lat1.thousandths = 0 → lat1.negative = lat2.negative)
    (hlonZero : lon1.thousandths = 0 → lon1.negative = lon2.negative)
    (hpending : ∀ c ∈ pending,
      c.key streamFixed3 ≠ streamFixed3 lat1 ++ "_" ++ streamFixed3 lon1) :
    streamFixed3 lat1 ++ "_" ++ streamFixed3 lon1
      = streamFixed3 lat2 ++ "_" ++ streamFixed3 lon2 ∧
    ReverseGeocode streamFixed3 http2 lat2 lon2
        (runWorkers streamFixed3 between
          ((ReverseGeocode streamFixed3 http1 lat1 lon1 g).2, pending)).1
      = ((ReverseGeocode streamFixed3 http1 lat1 lon1 g).1,
          (runWorkers streamFixed3 between
            ((ReverseGeocode streamFixed3 http1 lat1 lon1 g).2, pending)).1) ∧
    (∀ calls : List ((Binary64 → Binary64 → Option (List Char)) × Binary64 × Binary64),
      ReverseGeocode streamFixed3 http2 lat2 lon2
          (geocodeAll streamFixed3 calls (ReverseGeocode streamFixed3 http1 lat1 lon1 g).2)
        = ((ReverseGeocode streamFixed3 http1 lat1 lon1 g).1,
            geocodeAll streamFixed3 calls
              (ReverseGeocode streamFixed3 http1 lat1 lon1 g).2)) := by
  have text : ∀ x y : Binary64, roundedTo3 x = roundedTo3 y →
      (x.thousandths = 0 → x.negative = y.negative) → streamFixed3 x = streamFixed3 y := by
    intro x y h hz
    have hr := roundedTo3_eq x y h
    by_cases h0 : x.thousandths = 0
    · exact streamFixed3_congr x y (hz h0) hr.1
    · exact streamFixed3_congr x y (hr.2 h0) hr.1
  have e1 := text lat1 lat2 hlat hlatZero
  have e2 := text lon1 lon2 hlon hlonZero
  have h1 := ReverseGeocode_cached streamFixed3 http1 lat1 lon1 g
  refine ⟨by rw [e1, e2], ?_, ?_⟩
  · have h2 := (runWorkers_keeps streamFixed3 _ _ between _ pending h1 hpending).1
    rw [e1, e2] at h2
    exact ReverseGeocode_hit streamFixed3 http2 lat2 lon2 _ _ h2
  · intro calls
    have h2 := geocodeAll_keeps streamFixed3 calls _ _ _ h1
    rw [e1, e2] at h2
    exact ReverseGeocode_hit streamFixed3 http2 lat2 lon2 _ _ h2

/-- C5 (amended), at two positions some metres apart near the Eiffel tower, whose
latitudes print as `48.858` and whose longitudes print as `2.294`: the first call
goes to the network once and gets `Paris`; the second call, for which the network
would fail, returns `Paris` without a network pass. -/
theorem ReverseGeocode_idempotent_same_sign_witness :
    streamFixed3 towerLat ++ "_" ++ streamFixed3 towerLon = "48.858_2.294" ∧
    streamFixed3 lawnLat ++ "_" ++ streamFixed3 lawnLon = "48.858_2.294" ∧
    (ReverseGeocode streamFixed3 (fun _ _ => none) lawnLat lawnLon
        (ReverseGeocode streamFixed3 (fun _ _ => some parisResponse) towerLat towerLon
          { cache := [], netCalls := 0 }).2).1 = "Paris" ∧
    (ReverseGeocode streamFixed3 (fun _ _ => none) lawnLat lawnLon
        (ReverseGeocode streamFixed3 (fun _ _ => some parisResponse) towerLat towerLon
          { cache := [], netCalls := 0 }).2).2.netCalls = 1 := by
  have h := (ReverseGeocode_idempotent_same_sign (fun _ _ => some parisResponse)
    (fun _ _ => none) towerLat towerLon lawnLat lawnLon [] { cache := [], netCalls := 0 } []
    (by decide) (by decide) (by decide) (by decide) (fun _ hc => nomatch hc)).2.1
  exact ⟨by decide, by decide, (congrArg Prod.fst h).trans (by decide),
    (congrArg (fun r => r.2.netCalls) h).trans (by decide)⟩

/-! ## C6 and C7: the capture-date tag -/

theorem parseDateTag_ok (tag : List Char) (md : FileMetadata) (y m d h n s : Int)
    (hlen : 19 ≤ tag.length)
    (hy : stoi (tag.take 4) = some y) (hm : stoi ((tag.drop 5).take 2) = some m)
    (hd : stoi ((tag.drop 8).take 2) = some d) (hh : stoi ((tag.drop 11).take 2) = some h)
    (hn : stoi ((tag.drop 14).take 2) = some n) (hs : stoi ((tag.drop 17).take 2) = some s) :
    parseDateTag tag md =
      { date := { wYear := toWORD y, wMonth := toWORD m, wDayOfWeek := md.date.wDayOfWeek,
                  wDay := toWORD d, wHour := toWORD h, wMinute := toWORD n,
                  wSecond := toWORD s, wMilliseconds := md.date.wMilliseconds },
        hasDate := true, location := md.location } := by
  have hl : ¬ tag.length < 19 := by omega
  simp only [parseDateTag, hl, if_false, hy, hm, hd, hh, hn, hs]

theorem parseDateTag_hasDate (tag : List Char) (md : FileMetadata) (hmd : md.hasDate = false) :
    (parseDateTag tag md).hasDate = true ↔
      19 ≤ tag.length ∧ (stoi (tag.take 4)).isSome = true ∧
      (stoi ((tag.drop 5).take 2)).isSome = true ∧ (stoi ((tag.drop 8).take 2)).isSome = true ∧
      (stoi ((tag.drop 11).take 2)).isSome = true ∧
      (stoi ((tag.drop 14).take 2)).isSome = true ∧
      (stoi ((tag.drop 17).take 2)).isSome = true := by
  unfold parseDateTag
  by_cases hl : tag.length < 19
  · simp only [hl, if_true, hmd]
    constructor
    · intro h; cases h
    · intro h; omega
  · simp only [hl, if_false]
    have hl2 : 19 ≤ tag.length := by omega
    cases stoi (tag.take 4) with
    | none => simp [hmd]
    | some y =>
      cases stoi ((tag.drop 5).take 2) with
      | none => simp [hmd]
      | some m =>
        cases stoi ((tag.drop 8).take 2) with
        | none => simp [hmd]
        | some d =>
          cases stoi ((tag.drop 11).take 2) with
          | none => simp [hmd]
          | some h =>
            cases stoi ((tag.drop 14).take 2) with
            | none => simp [hmd]
            | some n =>
              cases stoi ((tag.drop 17).take 2) with
              | none => simp [hmd]
              | some s => simp [hl2]

theorem parseDateTag_untouched (tag : List Char) (md : FileMetadata)
    (h : tag.length < 19 ∨ stoi (tag.take 4) = none) : parseDateTag tag md = md := by
  unfold parseDateTag
  by_cases hl : tag.length < 19
  · simp only [hl, if_true]
  · rcases h with h | h
    · exact absurd h hl
    · simp only [hl, if_false, h]

/-- A tag whose month field holds no number: when the block of lines 482-490 is left,
the year of the tag has already replaced the seeded year, and `hasDate` is false. -/
theorem parseDateTag_month_fails :
    parseDateTag "2023:xx:15 14:30:05".data
        { date := newYear2022, hasDate := false, location := "" }
      = { date := { newYear2022 with wYear := 2023 }, hasDate := false, location := "" } := by
  decide

/-- C6 (counterexample): the photo `sloppy.jpg` has the capture-date text
`2023:10:15 1x:30:05`, whose hour field is not made of decimal digits, so it has no
tag of the shape `YYYY:MM:DD HH:MM:SS`; `GetFileMetadata` nevertheless returns
`hasDate = true` with the year 2023 and the hour 1 of the text, not the year 2022 and
the hour 0 of the last-write time. -/
theorem GetFileMetadata_accepts_trailing_text :
    captureDateTag sloppyWorld "src\\sloppy.jpg" = some "2023:10:15 1x:30:05".data ∧
      isDateShaped "2023:10:15 1x:30:05".data = false ∧
      (GetFileMetadata calmEnv "src\\sloppy.jpg" sloppyWorld).1.hasDate = true ∧
      (GetFileMetadata calmEnv "src\\sloppy.jpg" sloppyWorld).1.date.wYear = 2023 ∧
      (GetFileMetadata calmEnv "src\\sloppy.jpg" sloppyWorld).1.date.wHour = 1 ∧
      seedDate (sloppyWorld.files.lookup "src\\sloppy.jpg") = newYear2022 := by
  decide

/-- C6 (amended): when the capture-date item of a file is a text of at least 19
characters of the shape `YYYY:MM:DD HH:MM:SS` with decimal digits in its fields,
`GetFileMetadata` returns `hasDate = true` and year, month, day, hour, minute, second
equal to the decimal values of the six fields, so that the directory `ProcessFile`
derives is `<target>\<year>\<year>-<MM>\` for the year and the two month digits of
the tag (the year is the four digits of the tag unless they start with `0`). When the
file has no capture-date item, `hasDate` is false and the date is the one seeded from
the last-write time; the same holds when the text is shorter than 19 characters or
`std::stoi` finds no number in its year field, and `hasDate` is false whenever
`std::stoi` finds no number in one of the six fields. -/
theorem GetFileMetadata_capture_date (env : Env) (path : String) (w : World) :
    (∀ tag, captureDateTag w path = some tag → isDateShaped tag = true →
      (GetFileMetadata env path w).1.hasDate = true ∧
      (GetFileMetadata env path w).1.date.wYear = digitsValue (tag.take 4) ∧
      (GetFileMetadata env path w).1.date.wMonth = digitsValue ((tag.drop 5).take 2) ∧
      (GetFileMetadata env path w).1.date.wDay = digitsValue ((tag.drop 8).take 2) ∧
      (GetFileMetadata env path w).1.date.wHour = digitsValue ((tag.drop 11).take 2) ∧
      (GetFileMetadata env path w).1.date.wMinute = digitsValue ((tag.drop 14).take 2) ∧
      (GetFileMetadata env path w).1.date.wSecond = digitsValue ((tag.drop 17).take 2) ∧
      targetDirOf w.targetPath (GetFileMetadata env path w).1.date
        = w.targetPath ++ "\\" ++ toString (digitsValue (tag.take 4)) ++ "\\"
            ++ toString (digitsValue (tag.take 4)) ++ "-"
            ++ String.mk ((tag.drop 5).take 2) ++ "\\" ∧
      (tag.head? ≠ some '0' →
        toString (digitsValue (tag.take 4)) = String.mk (tag.take 4))) ∧
    (captureDateTag w path = none →
      (GetFileMetadata env path w).1.hasDate = false ∧
      (GetFileMetadata env path w).1.date = seedDate (w.files.lookup path)) ∧
    (∀ tag, captureDateTag w path = some tag →
      (tag.length < 19 ∨ stoi (tag.take 4) = none →
        (GetFileMetadata env path w).1.hasDate = false ∧
        (GetFileMetadata env path w).1.date = seedDate (w.files.lookup path)) ∧
      (stoi (tag.take 4) = none ∨ stoi ((tag.drop 5).take 2) = none ∨
          stoi ((tag.drop 8).take 2) = none ∨ stoi ((tag.drop 11).take 2) = none ∨
          stoi ((tag.drop 14).take 2) = none ∨ stoi ((tag.drop 17).take 2) = none →
        (GetFileMetadata env path w).1.hasDate = false)) := by
  obtain ⟨hdate, hflag⟩ := GetFileMetadata_date env path w
  refine ⟨?_, ?_, ?_⟩
  · intro tag htag hshape
    rw [htag] at hdate hflag
    simp only at hdate hflag
    match tag, hshape with
    | y1 :: y2 :: y3 :: y4 :: p1 :: m1 :: m2 :: p2 :: d1 :: d2 :: p3 :: h1 :: h2 :: p4 ::
        n1 :: n2 :: p5 :: s1 :: s2 :: rest, hshape =>
      simp only [isDateShaped, Bool.and_eq_true, beq_iff_eq] at hshape
      obtain ⟨⟨⟨⟨⟨⟨⟨⟨⟨⟨⟨⟨⟨⟨⟨⟨⟨⟨a1, a2⟩, a3⟩, a4⟩, _⟩, b1⟩, b2⟩, _⟩, c1⟩, c2⟩, _⟩, e1⟩, e2⟩, _⟩,
        f1⟩, f2⟩, _⟩, g1⟩, g2⟩ := hshape
      have ky := stoi_four y1 y2 y3 y4 a1 a2 a3 a4
      have km := stoi_two m1 m2 b1 b2
      have kd := stoi_two d1 d2 c1 c2
      have kh := stoi_two h1 h2 e1 e2
      have kn := stoi_two n1 n2 f1 f2
      have ks := stoi_two s1 s2 g1 g2
      have hp := parseDateTag_ok
        (y1 :: y2 :: y3 :: y4 :: p1 :: m1 :: m2 :: p2 :: d1 :: d2 :: p3 :: h1 :: h2 :: p4 ::
          n1 :: n2 :: p5 :: s1 :: s2 :: rest)
        { date := seedDate (w.files.lookup path), hasDate := false, location := "" }
        _ _ _ _ _ _ (by simp) ky.1 km.1 kd.1 kh.1 kn.1 ks.1
      rw [hp] at hdate hflag
      simp only [toWORD_natCast _ (Nat.lt_trans ky.2 (by decide)),
        toWORD_natCast _ (Nat.lt_trans km.2 (by decide)),
        toWORD_natCast _ (Nat.lt_trans kd.2 (by decide)),
        toWORD_natCast _ (Nat.lt_trans kh.2 (by decide)),
        toWORD_natCast _ (Nat.lt_trans kn.2 (by decide)),
        toWORD_natCast _ (Nat.lt_trans ks.2 (by decide))] at hdate
      refine ⟨hflag, ?_, ?_, ?_, ?_, ?_, ?_, ?_, ?_⟩
      · rw [hdate]; rfl
      · rw [hdate]; rfl
      · rw [hdate]; rfl
      · rw [hdate]; rfl
      · rw [hdate]; rfl
      · rw [hdate]; rfl
      · rw [hdate]
        unfold targetDirOf
        simp only [List.take, List.drop]
        rw [setw2_of_digits m1 m2 b1 b2]
      · intro h0
        have h0' : y1 ≠ '0' := by
          intro e
          apply h0
          rw [e]
          rfl
        exact toString_of_digits y1 y2 y3 y4 a1 a2 a3 a4 h0'
  · intro hnone
    rw [hnone] at hdate hflag
    exact ⟨hflag, hdate⟩
  · intro tag htag
    rw [htag] at hdate hflag
    simp only at hdate hflag
    constructor
    · intro h
      rw [hflag, hdate, parseDateTag_untouched tag _ h]
      exact ⟨rfl, rfl⟩
    · intro h
      cases hb : (GetFileMetadata env path w).1.hasDate with
      | false => rfl
      | true =>
        exfalso
        rw [hflag] at hb
        have hacc := (parseDateTag_hasDate tag _ rfl).mp hb
        obtain ⟨_, q1, q2, q3, q4, q5, q6⟩ := hacc
        rcases h with h | h | h | h | h | h
        · rw [h] at q1; cases q1
        · rw [h] at q2; cases q2
        · rw [h] at q3; cases q3
        · rw [h] at q4; cases q4
        · rw [h] at q5; cases q5
        · rw [h] at q6; cases q6

/-- C6 (amended), at the photo of the specification's scenario, whose capture-date
item is `2023:10:15 14:30:05`: the date is taken from the tag and the directory is
`target\2023\2023-10\`. -/
theorem GetFileMetadata_capture_date_witness :
    captureDateTag sceneWorld "src\\photo.jpg" = some "2023:10:15 14:30:05".data ∧
      isDateShaped "2023:10:15 14:30:05".data = true ∧
      (GetFileMetadata calmEnv "src\\photo.jpg" sceneWorld).1.hasDate = true ∧
      (GetFileMetadata calmEnv "src\\photo.jpg" sceneWorld).1.date.wYear = 2023 ∧
      targetDirOf "target" (GetFileMetadata calmEnv "src\\photo.jpg" sceneWorld).1.date
        = "target\\2023\\2023-10\\" := by
  have h := (GetFileMetadata_capture_date calmEnv "src\\photo.jpg" sceneWorld).1
    "2023:10:15 14:30:05".data rfl (by decide)
  exact ⟨rfl, by decide, h.1, h.2.1.trans (by decide), h.2.2.2.2.2.2.2.1.trans (by decide)⟩

/-- C7 (counterexample): the tag `2023-10-15T14:30:05` is not of the shape
`YYYY:MM:DD HH:MM:SS` (wrong separators), yet `GetFileMetadata` returns
`hasDate = true` and the year 2023 of the tag instead of the year 2022 of the
last-write time. -/
theorem GetFileMetadata_accepts_wrong_separators :
    captureDateTag isoWorld "src\\iso.jpg" = some "2023-10-15T14:30:05".data ∧
      isDateShaped "2023-10-15T14:30:05".data = false ∧
      (GetFileMetadata calmEnv "src\\iso.jpg" isoWorld).1.hasDate = true ∧
      (GetFileMetadata calmEnv "src\\iso.jpg" isoWorld).1.date.wYear = 2023 ∧
      (seedDate (isoWorld.files.lookup "src\\iso.jpg")).wYear = 2022 := by
  decide

/-- C7 (amended): a capture-date text is accepted (`hasDate = true`) exactly when it
has at least 19 characters and `std::stoi` finds a number at the start of each of
its six fields, read at the offsets 0 (four characters), 5, 8, 11, 14 and 17 (two
characters each); the separators are not examined. A text shorter than 19 characters,
or one whose year field has no number, leaves the whole date as seeded from the
last-write time. -/
theorem GetFileMetadata_malformed_tag (env : Env) (path : String) (w : World)
    (tag : List Char) (htag : captureDateTag w path = some tag) :
    ((GetFileMetadata env path w).1.hasDate = true ↔
      19 ≤ tag.length ∧ (stoi (tag.take 4)).isSome = true ∧
      (stoi ((tag.drop 5).take 2)).isSome = true ∧ (stoi ((tag.drop 8).take 2)).isSome = true ∧
      (stoi ((tag.drop 11).take 2)).isSome = true ∧
      (stoi ((tag.drop 14).take 2)).isSome = true ∧
      (stoi ((tag.drop 17).take 2)).isSome = true) ∧
    (tag.length < 19 ∨ stoi (tag.take 4) = none →
      (GetFileMetadata env path w).1.hasDate = false ∧
      (GetFileMetadata env path w).1.date = seedDate (w.files.lookup path)) := by
  obtain ⟨hdate, hflag⟩ := GetFileMetadata_date env path w
  rw [htag] at hdate hflag
  simp only at hdate hflag
  constructor
  · rw [hflag]
    exact parseDateTag_hasDate tag _ rfl
  · intro h
    rw [hflag, hdate, parseDateTag_untouched tag _ h]
    exact ⟨rfl, rfl⟩

/-- C7 (amended), at a photo whose capture-date item is the short text `2023:10:15`:
the tag is ignored and the date is the last-write time. -/
theorem GetFileMetadata_malformed_tag_witness :
    (GetFileMetadata calmEnv "src\\short.jpg" shortWorld).1.hasDate = false ∧
      (GetFileMetadata calmEnv "src\\short.jpg" shortWorld).1.date = newYear2022 :=
  (GetFileMetadata_malformed_tag calmEnv "src\\short.jpg" shortWorld "2023:10:15".data rfl).2
    (Or.inl (by decide))

/-! ## C8: degrees, minutes, seconds -/

theorem RationalToDouble_rational (longs : List Int) (text : Option (List Char)) (index : Nat) :
    RationalToDouble { type := PropertyTagTypeRational, longs := longs, text := text } index
      = rationalValue (longs.getD (index * 2) 0) (longs.getD (index * 2 + 1) 0) := by
  simp [RationalToDouble, rationalValue]

/-- C8: for a GPS item of three rationals `dn/dd`, `mn/md`, `sn/sd` (degrees, minutes,
seconds) and a reference item whose text starts with any letter, `GetGPSCoordinate`
returns `deg + min/60 + sec/3600` in `double` arithmetic, where each of the three
terms is numerator over denominator, or `0.0` when its denominator is 0 (no failure,
no division by zero), multiplied by `-1.0` exactly when the letter is `S` or `W`. -/
theorem GetGPSCoordinate_value (dn dd mn md sn sd : Int) (text : Option (List Char))
    (refType : Nat) (refLongs : List Int) (letter : Char) (rest : List Char) :
    GetGPSCoordinate
        { type := PropertyTagTypeRational, longs := [dn, dd, mn, md, sn, sd], text := text }
        (some { type := refType, longs := refLongs, text := some (letter :: rest) })
      = applyReference letter
          (dmsDecimal (rationalValue dn dd) (rationalValue mn md) (rationalValue sn sd)) ∧
    (dd = 0 → rationalValue dn dd = 0.0) ∧
    (dd ≠ 0 → rationalValue dn dd = Float.ofInt dn / Float.ofInt dd) ∧
    (letter = 'S' ∨ letter = 'W' → ∀ v, applyReference letter v = v * -1.0) ∧
    (¬ (letter = 'S' ∨ letter = 'W') → ∀ v, applyReference letter v = v) := by
  refine ⟨?_, ?_, ?_, ?_, ?_⟩
  · unfold GetGPSCoordinate
    simp only [RationalToDouble_rational, Option.bind, List.headD]
    rfl
  · intro h; simp [rationalValue, h]
  · intro h; simp [rationalValue, h]
  · intro h v; simp [applyReference, h]
  · intro h v; simp [applyReference, h]

/-- C8, at 33 degrees 51 minutes with a zero denominator in the seconds, south: the
seconds contribute `0.0` and the sum is multiplied by `-1.0`. -/
theorem GetGPSCoordinate_value_witness :
    GetGPSCoordinate
        { type := PropertyTagTypeRational, longs := [33, 1, 51, 1, 30, 0], text := none }
        (some { type := 2, longs := [], text := some ['S'] })
      = (Float.ofInt 33 / Float.ofInt 1 + Float.ofInt 51 / Float.ofInt 1 / 60.0
          + 0.0 / 3600.0) * -1.0 := by
  have h := GetGPSCoordinate_value 33 1 51 1 30 0 none 2 [] 'S' []
  rw [h.1, h.2.2.2.1 (Or.inl rfl)]
  rfl

/-! ## C9: the place name -/

/-- C9 (counterexample): in the response `{"city":"","town":"Lyon"}` the field `city`
is present with an empty value; the scan returns `Lyon`, the value of `town`, and
not the value of the first present field. -/
theorem placeName_skips_empty_field :
    fieldPresent "\x7b\"city\":\"\",\"town\":\"Lyon\"\x7d".data "city" = true ∧
      extract "\x7b\"city\":\"\",\"town\":\"Lyon\"\x7d".data "city" = "" ∧
      firstPresentValue "\x7b\"city\":\"\",\"town\":\"Lyon\"\x7d".data = "" ∧
      placeName "\x7b\"city\":\"\",\"town\":\"Lyon\"\x7d".data = "Lyon" ∧
      placeName "\x7b\"city\":\"\",\"town\":\"Lyon\"\x7d".data
        ≠ firstPresentValue "\x7b\"city\":\"\",\"town\":\"Lyon\"\x7d".data := by
  decide

theorem extract_absent (response : List Char) (key : String)
    (h : fieldPresent response key = false) : extract response key = "" := by
  unfold fieldPresent at h
  unfold extract
  cases hf : find response ("\"" ++ key ++ "\":\"").data 0 with
  | none => simp only [hf]
  | some pos => rw [hf] at h; cases h

/-- C9 (amended): for every response text the place name is the value of the first
of the fields `city`, `town`, `village`, `municipality` (in this order) whose scanned
value is not empty, and the empty text when none has one. A field that is absent has
the empty value, so the result is empty when none of the four is present, and it is
the value of the first present field whenever that value is not empty. -/
theorem placeName_first_nonempty (response : List Char) :
    placeName response
        = (match placeFields.find? (fun key => decide (extract response key ≠ "")) with
          | some key => extract response key
          | none => "") ∧
    (∀ key, fieldPresent response key = false → extract response key = "") ∧
    ((∀ key ∈ placeFields, fieldPresent response key = false) → placeName response = "") ∧
    (firstPresentValue response ≠ "" → placeName response = firstPresentValue response) := by
  have hab := extract_absent response
  refine ⟨?_, hab, ?_, ?_⟩
  · unfold placeName placeFields
    by_cases h1 : extract response "city" = ""
    · by_cases h2 : extract response "town" = ""
      · by_cases h3 : extract response "village" = ""
        · by_cases h4 : extract response "municipality" = ""
          · simp [List.find?, h1, h2, h3, h4]
          · simp [List.find?, h1, h2, h3, h4]
        · simp [List.find?, h1, h2, h3]
      · simp [List.find?, h1, h2]
    · simp [List.find?, h1]
  · intro hall
    have h1 := hab "city" (hall "city" (by simp [placeFields]))
    have h2 := hab "town" (hall "town" (by simp [placeFields]))
    have h3 := hab "village" (hall "village" (by simp [placeFields]))
    have h4 := hab "municipality" (hall "municipality" (by simp [placeFields]))
    simp [placeName, h1, h2, h3, h4]
  · unfold firstPresentValue placeName placeFields
    cases p1 : fieldPresent response "city" with
    | true =>
      simp only [List.find?, p1]
      intro hne
      simp [hne]
    | false =>
      have e1 := hab "city" p1
      cases p2 : fieldPresent response "town" with
      | true =>
        simp only [List.find?, p1, p2, e1]
        intro hne
        simp [hne]
      | false =>
        have e2 := hab "town" p2
        cases p3 : fieldPresent response "village" with
        | true =>
          simp only [List.find?, p1, p2, p3, e1, e2]
          intro hne
          simp [hne]
        | false =>
          have e3 := hab "village" p3
          cases p4 : fieldPresent response "municipality" with
          | true =>
            simp only [List.find?, p1, p2, p3, p4, e1, e2, e3]
            intro hne
            simp
          | false =>
            simp only [List.find?, p1, p2, p3, p4]
            intro hne
            exact absurd rfl hne

/-- C9 (amended), at a response with the field `town` only: the place name is the
value of `town`. -/
theorem placeName_first_nonempty_witness :
    firstPresentValue "\x7b\"town\":\"Lyon\",\"country\":\"France\"\x7d".data = "Lyon" ∧
      placeName "\x7b\"town\":\"Lyon\",\"country\":\"France\"\x7d".data = "Lyon" := by
  have h := (placeName_first_nonempty
    "\x7b\"town\":\"Lyon\",\"country\":\"France\"\x7d".data).2.2.2 (by decide)
  exact ⟨by decide, h.trans (by decide)⟩

/-! ## C10: the worker-pool size -/

theorem toInt32_of_lt (n : Nat) (h : n < 2 ^ 31) : toInt32 n = (n : Int) := by
  have h1 : n % 2 ^ 32 = n := Nat.mod_eq_of_lt (by omega)
  simp only [toInt32, h1]
  rw [if_pos h]

/-- C10 (counterexample): on a host that reports one hardware thread,
`ScanningThread` starts one worker, while `clamp(1, 2, 8)` is 2. -/
theorem workersStarted_one_not_clamp :
    workersStarted 1 = 1 ∧ workersStarted 1 ≠ max 2 (min 1 8) := by
  decide

/-- C10 (amended): for every reported parallelism `n` below `2 ^ 31`,
`ScanningThread` starts 2 workers when `n = 0` and `min n 8` workers otherwise;
this is `clamp(n, 2, 8)` for every `n` other than 1. -/
theorem workersStarted_eq (n : Nat) (h : n < 2 ^ 31) :
    workersStarted n = (if n = 0 then 2 else min n 8) ∧
      (n ≠ 1 → workersStarted n = max 2 (min n 8)) := by
  have key : workersStarted n = (if n = 0 then 2 else min n 8) := by
    unfold workersStarted numThreads
    rw [toInt32_of_lt n h]
    by_cases h0 : n = 0
    · subst h0; simp
    · have h1 : ¬ ((n : Int) < 1) := by omega
      simp only [h1, if_false, h0]
      by_cases h8 : (n : Int) > 8
      · simp only [h8, if_true]
        have : min n 8 = 8 := by omega
        rw [this]; rfl
      · simp only [h8, if_false]
        have : min n 8 = n := by omega
        rw [this]; simp
  refine ⟨key, ?_⟩
  intro hne
  rw [key]
  by_cases h0 : n = 0
  · subst h0; simp
  · simp only [h0, if_false]
    omega

/-- C10 (amended), at a host with four hardware threads. -/
theorem workersStarted_eq_witness :
    (4 : Nat) < 2 ^ 31 ∧ workersStarted 4 = 4 := by
  refine ⟨by decide, ?_⟩
  have h := (workersStarted_eq 4 (by decide)).1
  simpa using h

/-! ## C11 and C12: the work queue -/

theorem pop_nonempty {T : Type} (q : SafeQueue T) (item front : T) (rest : List T)
    (h : q.m_queue = front :: rest) :
    q.pop item = PopResult.returned true front { q with m_queue := rest } := by
  simp [SafeQueue.pop, h]

theorem pop_empty_finished {T : Type} (q : SafeQueue T) (item : T)
    (h : q.m_queue = []) (hf : q.m_finished = true) :
    q.pop item = PopResult.returned false item q := by
  simp [SafeQueue.pop, h, hf]

theorem pop_empty_open {T : Type} (q : SafeQueue T) (item : T)
    (h : q.m_queue = []) (hf : q.m_finished = false) :
    q.pop item = PopResult.waiting := by
  simp [SafeQueue.pop, h, hf]

/-- C11: in every queue state, `pop` returns false if and only if the queue is empty
and marked finished, and then it leaves the output item and the queue as they are
(on an empty queue that is not finished it waits); on a non-empty queue `pop`
returns true with the front item and removes exactly this item, also when
`set_finished` has been called, so an item pushed before `set_finished` is still
delivered. -/
theorem pop_none_iff {T : Type} (q : SafeQueue T) (item : T) :
    ((∃ item2 q2, q.pop item = PopResult.returned false item2 q2) ↔
      (q.m_queue = [] ∧ q.m_finished = true)) ∧
    (q.m_queue = [] → q.m_finished = true → q.pop item = PopResult.returned false item q) ∧
    (q.m_queue = [] → q.m_finished = false → q.pop item = PopResult.waiting) ∧
    (∀ front rest, q.m_queue = front :: rest →
      q.pop item = PopResult.returned true front { q with m_queue := rest } ∧
      q.set_finished.pop item
        = PopResult.returned true front { q.set_finished with m_queue := rest }) ∧
    (∀ pushed, q.m_queue = [] →
      (q.push pushed).set_finished.pop item
        = PopResult.returned true pushed q.set_finished) := by
  refine ⟨?_, pop_empty_finished q item, pop_empty_open q item, ?_, ?_⟩
  · constructor
    · rintro ⟨item2, q2, h⟩
      cases hq : q.m_queue with
      | nil =>
        cases hf : q.m_finished with
        | true => exact ⟨rfl, rfl⟩
        | false =>
          rw [pop_empty_open q item hq hf] at h
          cases h
      | cons front rest =>
        rw [pop_nonempty q item front rest hq] at h
        cases h
    · rintro ⟨hq, hf⟩
      exact ⟨item, q, pop_empty_finished q item hq hf⟩
  · intro front rest hq
    exact ⟨pop_nonempty q item front rest hq,
      pop_nonempty q.set_finished item front rest hq⟩
  · intro pushed hq
    rw [pop_nonempty (q.push pushed).set_finished item pushed []
      (by simp [SafeQueue.push, SafeQueue.set_finished, hq])]
    cases q with
    | mk items fin =>
      simp only at hq
      subst hq
      rfl

/-- C11, at a queue that received `a.jpg` and was then marked finished: the first
`pop` delivers `a.jpg`, the second one returns false. -/
theorem pop_none_iff_witness :
    (((SafeQueue.empty String).push "a.jpg").set_finished).pop ""
        = PopResult.returned true "a.jpg" (SafeQueue.empty String).set_finished ∧
      (SafeQueue.empty String).set_finished.pop "a.jpg"
        = PopResult.returned false "a.jpg" (SafeQueue.empty String).set_finished :=
  ⟨(pop_none_iff (SafeQueue.empty String) "").2.2.2.2 "a.jpg" rfl,
    (pop_none_iff (SafeQueue.empty String).set_finished "a.jpg").2.1 rfl rfl⟩

theorem runQueue_conserves {T : Type} (ops : List (QueueOp T)) :
    ∀ (q : SafeQueue T) (popped : List T),
      (runQueue ops (q, popped)).2 ++ (runQueue ops (q, popped)).1.m_queue
        = popped ++ q.m_queue ++ pushedItems ops := by
  induction ops with
  | nil => intro q popped; simp [runQueue, pushedItems]
  | cons op ops ih =>
    intro q popped
    cases op with
    | push item =>
      simp only [runQueue, pushedItems]
      rw [ih]
      simp [SafeQueue.push]
    | set_finished =>
      simp only [runQueue, pushedItems]
      rw [ih]
      simp [SafeQueue.set_finished]
    | pop item =>
      simp only [runQueue, pushedItems]
      cases hq : q.m_queue with
      | nil =>
        cases hf : q.m_finished with
        | true =>
          rw [pop_empty_finished q item hq hf]
          simp only
          rw [ih, hq]
        | false =>
          rw [pop_empty_open q item hq hf]
          simp only
          rw [ih, hq]
      | cons front rest =>
        rw [pop_nonempty q item front rest hq]
        simp only
        rw [ih]
        simp

/-- C12: for every sequence of `push`, `pop` and `set_finished` calls on a queue that
starts empty, the items returned by the successful `pop` calls followed by the items
still in the queue are exactly the pushed items in push order. So the returned items
are a prefix of the pushed ones (nothing is lost, doubled or reordered), and they
are all of them when the queue ends empty. -/
theorem runQueue_fifo {T : Type} (ops : List (QueueOp T)) :
    (runQueue ops (SafeQueue.empty T, [])).2 ++ (runQueue ops (SafeQueue.empty T, [])).1.m_queue
        = pushedItems ops ∧
      (runQueue ops (SafeQueue.empty T, [])).2 <+: pushedItems ops ∧
      ((runQueue ops (SafeQueue.empty T, [])).1.m_queue = [] →
        (runQueue ops (SafeQueue.empty T, [])).2 = pushedItems ops) := by
  have h : (runQueue ops (SafeQueue.empty T, [])).2
        ++ (runQueue ops (SafeQueue.empty T, [])).1.m_queue = pushedItems ops := by
    rw [runQueue_conserves ops (SafeQueue.empty T) []]
    simp [SafeQueue.empty]
  refine ⟨h, ⟨_, h⟩, ?_⟩
  intro hq
  rw [hq, List.append_nil] at h
  exact h

/-- C12, at the calls push `a`, push `b`, pop, push `c`, pop, pop, pop: the pops
return `a`, `b`, `c` in this order and the fourth pop returns nothing. -/
theorem runQueue_fifo_witness :
    (runQueue [QueueOp.push "a", QueueOp.push "b", QueueOp.pop "", QueueOp.push "c",
        QueueOp.pop "a", QueueOp.pop "b", QueueOp.pop "c"] (SafeQueue.empty String, [])).2
      = ["a", "b", "c"] :=
  (runQueue_fifo [QueueOp.push "a", QueueOp.push "b", QueueOp.pop "", QueueOp.push "c",
    QueueOp.pop "a", QueueOp.pop "b", QueueOp.pop "c"]).2.2 rfl

/-! ## C13: the stop flag -/

/-- C13: while the stop flag is set, `ProcessFile` returns the world as it is for
every path (no counter changes, no file is created or copied), a worker leaves every
list of jobs untouched, and a worker on the queue is out of its loop as soon as its
first `pop` returns, whatever the queue holds and whatever function it would call
for a file: with an item waiting it takes the item and exits, on an empty finished
queue it exits, and on an empty queue that is not finished it waits in `pop`; in
each case the world is as before. -/
theorem stop_starts_no_job (env : Env) (ProcessZip : String → World → World) (w : World)
    (hstop : w.stopRequested = true) :
    (∀ filePath, ProcessFile env ProcessZip filePath w = w) ∧
    (∀ jobs, WorkerThread env ProcessZip jobs w = w) ∧
    (∀ (process : String → World → World) (fuel : Nat) (q : SafeQueue String)
        (filePath : String),
      (WorkerThreadOn process (fuel + 1) q filePath w).2.2 = w ∧
      (∀ front rest, q.m_queue = front :: rest →
        WorkerThreadOn process (fuel + 1) q filePath w
          = (WorkerStatus.exited, { q with m_queue := rest }, w)) ∧
      (q.m_queue = [] → q.m_finished = true →
        WorkerThreadOn process (fuel + 1) q filePath w = (WorkerStatus.exited, q, w)) ∧
      (q.m_queue = [] → q.m_finished = false →
        WorkerThreadOn process (fuel + 1) q filePath w = (WorkerStatus.waiting, q, w))) := by
  refine ⟨?_, ?_, ?_⟩
  · intro filePath
    simp [ProcessFile, hstop]
  · intro jobs
    cases jobs with
    | nil => rfl
    | cons p rest => simp [WorkerThread, hstop]
  · intro process fuel q filePath
    have hne : ∀ front rest, q.m_queue = front :: rest →
        WorkerThreadOn process (fuel + 1) q filePath w
          = (WorkerStatus.exited, { q with m_queue := rest }, w) := by
      intro front rest hq
      rw [WorkerThreadOn, pop_nonempty q filePath front rest hq]
      simp [hstop]
    have hfin : q.m_queue = [] → q.m_finished = true →
        WorkerThreadOn process (fuel + 1) q filePath w = (WorkerStatus.exited, q, w) := by
      intro hq hf
      rw [WorkerThreadOn, pop_empty_finished q filePath hq hf]
    have hwait : q.m_queue = [] → q.m_finished = false →
        WorkerThreadOn process (fuel + 1) q filePath w = (WorkerStatus.waiting, q, w) := by
      intro hq hf
      rw [WorkerThreadOn, pop_empty_open q filePath hq hf]
    refine ⟨?_, hne, hfin, hwait⟩
    cases hq : q.m_queue with
    | nil =>
      cases hf : q.m_finished with
      | true => rw [hfin hq hf]
      | false => rw [hwait hq hf]
    | cons front rest => rw [hne front rest hq]

/-- C13, at the scene with the stop flag set and both files in a finished queue: the
worker takes `photo.jpg` from the queue and exits; no counter moves and no file is
written. -/
theorem stop_starts_no_job_witness :
    WorkerThreadOn (ProcessFile calmEnv skipZip) 3
        { m_queue := ["src\\photo.jpg", "src\\note.txt"], m_finished := true } ""
        { sceneWorld with stopRequested := true }
      = (WorkerStatus.exited, { m_queue := ["src\\note.txt"], m_finished := true },
          { sceneWorld with stopRequested := true }) :=
  ((stop_starts_no_job calmEnv skipZip { sceneWorld with stopRequested := true } rfl).2.2
    (ProcessFile calmEnv skipZip) 2
    { m_queue := ["src\\photo.jpg", "src\\note.txt"], m_finished := true } "").2.1
    "src\\photo.jpg" ["src\\note.txt"] rfl

/-! ## C14: a failure inside the pipeline of one file -/

/-- C14: take a regular (non-archive) file and no stop request. When
`create_directories` fails for the destination directory, or the existence check
throws at a candidate the loop reaches, or the loop settles on a free candidate and
the copy to it throws (the source cannot be read or the copy fails), `ProcessFile`
returns with `processed` and `skipped` one up, `succeeded` as before and no file
written, and the worker goes on with its next job. -/
theorem ProcessFile_failure_skips (env : Env) (ProcessZip : String → World → World)
    (filePath : String) (w : World) (hstop : w.stopRequested = false)
    (hzip : extension filePath ≠ ".zip" ∧ extension filePath ≠ ".ZIP")
    (hfail :
      env.createDirectoriesFails
          (targetDirOf w.targetPath (GetFileMetadata env filePath w).1.date) = true ∨
      probe env w filePath
          (targetDirOf w.targetPath (GetFileMetadata env filePath w).1.date)
          (baseNameOf (GetFileMetadata env filePath w).1) (extension filePath)
          (w.files.length + 1) 0
          (pathAppend (targetDirOf w.targetPath (GetFileMetadata env filePath w).1.date)
            (baseNameOf (GetFileMetadata env filePath w).1 ++ extension filePath))
        = ProbeResult.threw ∨
      ∃ dst,
        probe env w filePath
            (targetDirOf w.targetPath (GetFileMetadata env filePath w).1.date)
            (baseNameOf (GetFileMetadata env filePath w).1) (extension filePath)
            (w.files.length + 1) 0
            (pathAppend (targetDirOf w.targetPath (GetFileMetadata env filePath w).1.date)
              (baseNameOf (GetFileMetadata env filePath w).1 ++ extension filePath))
          = ProbeResult.copyTo dst ∧
        (w.files.lookup filePath = none ∨ env.copyFileFails filePath dst = true)) :
    ProcessFile env ProcessZip filePath w = (counted env filePath w).incSkipped ∧
    (ProcessFile env ProcessZip filePath w).stats.skipped = w.stats.skipped + 1 ∧
    (ProcessFile env ProcessZip filePath w).stats.succeeded = w.stats.succeeded ∧
    (ProcessFile env ProcessZip filePath w).stats.processed = w.stats.processed + 1 ∧
    (ProcessFile env ProcessZip filePath w).files = w.files ∧
    (∀ rest, WorkerThread env ProcessZip (filePath :: rest) w
      = WorkerThread env ProcessZip rest (ProcessFile env ProcessZip filePath w)) := by
  have hres : ProcessFile env ProcessZip filePath w = (counted env filePath w).incSkipped := by
    rw [ProcessFile_regular env ProcessZip filePath w hstop hzip]
    split
    · rfl
    · rcases hfail with h | h | ⟨dst, h, hc⟩
      · rename_i hno
        exact absurd h hno
      · rw [h]
        rfl
      · rw [h]
        simp only
        unfold copy_file
        simp only [World.incProcessed]
        rcases hc with hc | hc
        · simp only [hc]
          rfl
        · cases hl : w.files.lookup filePath with
          | none => rfl
          | some info =>
            simp only [hc, Bool.or_true, if_true]
            rfl
  refine ⟨hres, ?_, ?_, ?_, ?_, ?_⟩
  · rw [hres]; rfl
  · rw [hres]; rfl
  · rw [hres]; rfl
  · rw [hres]; rfl
  · intro rest
    conv => lhs; unfold WorkerThread
    simp [hstop]

/-- C14, at `note.txt` of the scene when every copy fails: the call returns with
one file processed, one skipped, none succeeded, and the files are as before. -/
theorem ProcessFile_failure_skips_witness :
    (ProcessFile fullDiskEnv skipZip "src\\note.txt" sceneWorld).stats
        = { totalFiles := 0, processed := 1, succeeded := 0, skipped := 1 } ∧
      (ProcessFile fullDiskEnv skipZip "src\\note.txt" sceneWorld).files = sceneWorld.files := by
  have h := ProcessFile_failure_skips fullDiskEnv skipZip "src\\note.txt" sceneWorld rfl
    (by decide)
    (Or.inr (Or.inr ⟨"target\\2022\\2022-01\\2022-01-01 00-00-00.txt", by decide,
      Or.inr rfl⟩))
  exact ⟨by rw [h.1]; rfl, h.2.2.2.2.1⟩

/-! ## C15: a subdirectory that cannot be opened -/

mutual
/-- The walk of one entry ends without throwing exactly when every directory under
it can be opened; what it yields is a prefix of the readable files, and all of them
when it does not throw. -/
theorem walkEntry_spec : ∀ (e : DirEntry) (dir : String),
    (walkEntry dir e).2 = allOpenEntry e ∧
    (walkEntry dir e).1 <+: readableEntry dir e ∧
    ((walkEntry dir e).2 = true → (walkEntry dir e).1 = readableEntry dir e)
  | DirEntry.file name info, dir => by
    simp [walkEntry, allOpenEntry, readableEntry]
  | DirEntry.dir name canOpen entries, dir => by
    have ih := walkList_spec entries (pathAppend dir name)
    cases canOpen with
    | true =>
      simp only [walkEntry, allOpenEntry, readableEntry, if_true, Bool.true_and]
      exact ih
    | false =>
      simp [walkEntry, allOpenEntry, readableEntry]
termination_by structural e => e
/-- The walk of a list of entries ends without throwing exactly when every directory
under them can be opened; what it yields is a prefix of the readable files, and all
of them when it does not throw. -/
theorem walkList_spec : ∀ (l : List DirEntry) (dir : String),
    (walkList dir l).2 = allOpenList l ∧
    (walkList dir l).1 <+: readableList dir l ∧
    ((walkList dir l).2 = true → (walkList dir l).1 = readableList dir l)
  | [], dir => by
    simp [walkList, allOpenList, readableList]
  | e :: rest, dir => by
    have he := walkEntry_spec e dir
    have hr := walkList_spec rest dir
    cases h : (walkEntry dir e).2 with
    | true =>
      have heq := he.2.2 h
      rw [h] at he
      simp only [walkList, h, if_true, allOpenList, readableList, ← he.1, Bool.true_and]
      refine ⟨hr.1, ?_, ?_⟩
      · rw [heq]
        exact (List.prefix_append_right_inj _).mpr hr.2.1
      · intro h2
        rw [heq, hr.2.2 h2]
    | false =>
      rw [h] at he
      simp only [walkList, h, allOpenList, readableList, ← he.1, Bool.false_and,
        Bool.false_eq_true, if_false]
      refine ⟨trivial, ?_, ?_⟩
      · exact he.2.1.trans (List.prefix_append _ _)
      · intro h2
        cases h2
termination_by structural l => l
end

/-- C15 (counterexample): the source folder `src` holds the subdirectory `locked`,
which cannot be opened, and next to it `note.txt` and `photo.jpg`, which lie in the
readable root. The root scan throws at `locked`: `ScanningThread` ends with the
counters reset and no file sorted, and the walk of `ProcessDirectory` over the same
entries ends before it has yielded a file. -/
theorem scan_aborts_at_locked_subdirectory :
    readableList "src" lockedEntries = ["src\\note.txt", "src\\photo.jpg"] ∧
      rootScan sceneWorld "src" true lockedEntries = none ∧
      (ScanningThread calmEnv 1 "src" true lockedEntries sceneWorld).files = sceneWorld.files ∧
      (ScanningThread calmEnv 1 "src" true lockedEntries sceneWorld).stats = Stats.reset ∧
      (walkList "src" lockedEntries).1 = [] ∧
      (ProcessDirectory (ProcessFile calmEnv skipZip) "src" lockedEntries sceneWorld).files
        = sceneWorld.files := by
  refine ⟨by decide, by decide, rfl, by decide, by decide, rfl⟩

/-- C15 (amended): the walk of a directory tree ends without an exception exactly
when every subdirectory can be opened, and then it yields every regular file, so the
root scan finds them all. When some subdirectory cannot be opened, the iterator
throws at the first such directory it reaches: what the walk has yielded is a prefix
of the regular files of the readable directories, namely those that come before that
directory in iteration order; `ProcessDirectory` handles just these, and a root scan
that is not stopped ends the run: `ScanningThread` returns with the counters reset
and nothing else changed. -/
theorem walk_ends_at_unreadable (dir : String) (entries : List DirEntry) :
    (walkList dir entries).2 = allOpenList entries ∧
    (walkList dir entries).1 <+: readableList dir entries ∧
    (allOpenList entries = true →
      (walkList dir entries).1 = readableList dir entries ∧
      ∀ w, w.stopRequested = false →
        rootScan w dir true entries = some (readableList dir entries)) ∧
    (allOpenList entries = false →
      (∀ w, w.stopRequested = false → rootScan w dir true entries = none) ∧
      ∀ env depth w, dir ≠ "" → w.targetPath ≠ "" → w.stopRequested = false →
        ScanningThread env depth dir true entries w
          = { w with stats := Stats.reset, observed := [] }) ∧
    (∀ process w, ProcessDirectory process dir entries w
      = processEach process (walkList dir entries).1 w) := by
  have h := walkList_spec entries dir
  refine ⟨h.1, h.2.1, ?_, ?_, ?_⟩
  · intro hopen
    have h2 : (walkList dir entries).2 = true := by rw [h.1, hopen]
    refine ⟨h.2.2 h2, ?_⟩
    intro w hstop
    simp [rootScan, hstop, h2, h.2.2 h2]
  · intro hopen
    have h2 : (walkList dir entries).2 = false := by rw [h.1, hopen]
    have hscan : ∀ w, w.stopRequested = false → rootScan w dir true entries = none := by
      intro w hstop
      simp [rootScan, hstop, h2]
    refine ⟨hscan, ?_⟩
    intro env depth w hdir htgt hstop
    have hno : ¬ (dir = "" ∨ w.targetPath = "") := by
      rintro (e | e)
      · exact hdir e
      · exact htgt e
    unfold ScanningThread
    simp only [hno, if_false]
    rw [hscan { w with stats := Stats.reset, observed := [] } hstop]
  · intro process w
    rfl

/-- C15 (amended), at the source folder of the scene: with every directory readable
the root scan finds both files; with the subdirectory `locked` in front of them it
finds none and the run ends. -/
theorem walk_ends_at_unreadable_witness :
    rootScan sceneWorld "src" true sceneEntries = some ["src\\photo.jpg", "src\\note.txt"] ∧
      rootScan sceneWorld "src" true lockedEntries = none :=
  ⟨((walk_ends_at_unreadable "src" sceneEntries).2.2.1 (by decide)).2 sceneWorld rfl,
    ((walk_ends_at_unreadable "src" lockedEntries).2.2.2.1 (by decide)).1 sceneWorld rfl⟩

/-! ## C16: what happens to a cache entry -/

/-- C16 (counterexample): two workers call `ReverseGeocode` for two positions with
the key `48.858_2.294`, and both miss the empty cache before either has written.
The first one gets `Paris` from the network and writes it; then the second one,
whose network exchange fails, runs line 445 and puts the empty text in the place of
`Paris`. -/
theorem overlapping_calls_replace_entry :
    (runWorkers streamFixed3
        [GeoStep.enter (fun _ _ => some parisResponse) towerLat towerLon,
          GeoStep.enter (fun _ _ => none) lawnLat lawnLon, GeoStep.finish 0]
        ({ cache := [], netCalls := 0 }, [])).1.cache.lookup "48.858_2.294" = some "Paris" ∧
      (runWorkers streamFixed3
        [GeoStep.enter (fun _ _ => some parisResponse) towerLat towerLon,
          GeoStep.enter (fun _ _ => none) lawnLat lawnLon, GeoStep.finish 0, GeoStep.finish 0]
        ({ cache := [], netCalls := 0 }, [])).1.cache.lookup "48.858_2.294" = some "" ∧
      (runWorkers streamFixed3
        [GeoStep.enter (fun _ _ => some parisResponse) towerLat towerLon,
          GeoStep.enter (fun _ _ => none) lawnLat lawnLon, GeoStep.finish 0, GeoStep.finish 0]
        ({ cache := [], netCalls := 0 }, [])).1.netCalls = 2 := by
  refine ⟨by decide, by decide, by decide⟩

/-- C16 (amended): take any steps of the calls of any number of workers, with any
network outcomes. A key that the cache holds is never removed. Its value stays the
same as long as no call is in progress that missed the key before the value was
written: then every call that enters finds the key, and the calls that finish write
other keys. In particular the value never changes when the calls are made one after
the other. -/
theorem cache_entry_kept {α : Type} (fixed3 : α → String) (steps : List (GeoStep α))
    (g : GeoState) (pending : List (PendingCall α)) (key value : String)
    (h : g.cache.lookup key = some value) :
    ((runWorkers fixed3 steps (g, pending)).1.cache.lookup key).isSome = true ∧
    ((∀ c ∈ pending, c.key fixed3 ≠ key) →
      (runWorkers fixed3 steps (g, pending)).1.cache.lookup key = some value ∧
      ∀ c ∈ (runWorkers fixed3 steps (g, pending)).2, c.key fixed3 ≠ key) ∧
    (∀ calls : List ((α → α → Option (List Char)) × α × α),
      (geocodeAll fixed3 calls g).cache.lookup key = some value ∧
      runWorkers fixed3 (sequentialSteps calls) (g, []) = (geocodeAll fixed3 calls g, []) ∧
      ∃ added, (geocodeAll fixed3 calls g).cache = added ++ g.cache ∧
        ∀ e ∈ added, g.cache.lookup e.1 = none) := by
  refine ⟨?_, ?_, ?_⟩
  · exact runWorkers_present fixed3 key steps g pending (by rw [h]; rfl)
  · intro hp
    exact runWorkers_keeps fixed3 key value steps g pending h hp
  · intro calls
    exact ⟨geocodeAll_keeps fixed3 calls g key value h, runWorkers_sequential fixed3 calls g,
      geocodeAll_grows fixed3 calls g⟩

/-- C16 (amended), at a cache that holds `Paris` for the key `48.858_2.294` while no
call is in progress: a call for the same key whose network exchange would fail, and
a call for another key, leave `Paris` in its place. -/
theorem cache_entry_kept_witness :
    (runWorkers streamFixed3
        [GeoStep.enter (fun _ _ => none) lawnLat lawnLon,
          GeoStep.enter (fun _ _ => none) tenThousandth tenThousandth,
          GeoStep.finish 0, GeoStep.finish 0]
        ({ cache := [("48.858_2.294", "Paris")], netCalls := 1 }, [])).1.cache.lookup
          "48.858_2.294" = some "Paris" :=
  ((cache_entry_kept streamFixed3
      [GeoStep.enter (fun _ _ => none) lawnLat lawnLon,
        GeoStep.enter (fun _ _ => none) tenThousandth tenThousandth,
        GeoStep.finish 0, GeoStep.finish 0]
      { cache := [("48.858_2.294", "Paris")], netCalls := 1 } [] "48.858_2.294" "Paris"
      rfl).2.1 (fun _ hc => nomatch hc)).1

/-! ## C17: a location with a path separator -/

theorem takeWhile_length_le (p : Char → Bool) (c : Char) (hc : p c = false) :
    ∀ (u v : List Char), ((u ++ c :: v).takeWhile p).length ≤ u.length := by
  intro u
  induction u with
  | nil =>
    intro v
    simp [List.takeWhile, hc]
  | cons a u ih =>
    intro v
    simp only [List.cons_append, List.takeWhile]
    cases p a with
    | true =>
      simp only [List.length_cons]
      exact Nat.succ_le_succ (ih v)
    | false => simp

/-- The file name of a path text holds nothing from before its last separator. -/
theorem filenameChars_after_separator (x y : List Char) (c : Char) (hc : isSlash c = true) :
    (filenameChars (x ++ c :: y)).length ≤ y.length := by
  unfold filenameChars
  rw [List.length_reverse]
  have h := takeWhile_length_le (fun c => !isSlash c) c (by simp [hc]) y.reverse x.reverse
  simpa using h

/-- C17: whenever the location text holds a separator (`/` or `\`), the candidate
that line 611 builds is no direct child of the directory `<targetRoot>\YYYY\YYYY-MM\`:
the text up to the last separator of the location becomes one more directory level,
and the file name of the candidate is shorter than base name and extension. -/
theorem location_separator_adds_component (targetRoot : String) (md : FileMetadata)
    (ext : String) (hsep : ∃ c ∈ md.location.data, isSlash c = true) :
    isDirectChild (targetDirOf targetRoot md.date)
        (pathAppend (targetDirOf targetRoot md.date) (baseNameOf md ++ ext)) = false ∧
      (filenameChars
          (pathAppend (targetDirOf targetRoot md.date) (baseNameOf md ++ ext)).data).length
        < (baseNameOf md ++ ext).data.length := by
  obtain ⟨c, hmem, hc⟩ := hsep
  obtain ⟨l1, l2, hl⟩ := List.append_of_mem hmem
  have hne : md.location ≠ "" := by
    intro e
    rw [e] at hmem
    cases hmem
  have hbase : ∃ pre : List Char, (baseNameOf md).data = pre ++ md.location.data := by
    unfold baseNameOf
    simp only [hne, if_false]
    exact ⟨_, by rw [String.data_append]⟩
  obtain ⟨pre, hpre⟩ := hbase
  have hdata : (pathAppend (targetDirOf targetRoot md.date) (baseNameOf md ++ ext)).data
      = ((targetDirOf targetRoot md.date).data ++ pre ++ l1) ++ c :: (l2 ++ ext.data) := by
    rw [pathAppend_names]
    simp [String.data_append, hpre, hl]
  have hlen := filenameChars_after_separator
    ((targetDirOf targetRoot md.date).data ++ pre ++ l1) (l2 ++ ext.data) c hc
  rw [← hdata] at hlen
  have hb : (baseNameOf md ++ ext).data.length
      = pre.length + l1.length + 1 + (l2.length + ext.data.length) := by
    simp [String.data_append, hpre, hl]
    omega
  have hshort : (filenameChars
      (pathAppend (targetDirOf targetRoot md.date) (baseNameOf md ++ ext)).data).length
        < (baseNameOf md ++ ext).data.length := by
    rw [hb]
    simp only [List.length_append] at hlen
    omega
  refine ⟨?_, hshort⟩
  unfold isDirectChild
  have hneq : ((pathAppend (targetDirOf targetRoot md.date) (baseNameOf md ++ ext)).data
      == (targetDirOf targetRoot md.date).data ++ filenameChars
          (pathAppend (targetDirOf targetRoot md.date) (baseNameOf md ++ ext)).data) = false := by
    rw [beq_eq_false_iff_ne]
    intro e
    have e2 := congrArg List.length e
    rw [List.length_append] at e2
    have e3 : (pathAppend (targetDirOf targetRoot md.date) (baseNameOf md ++ ext)).data.length
        = (targetDirOf targetRoot md.date).data.length + (baseNameOf md ++ ext).data.length := by
      rw [pathAppend_names]
      simp [String.data_append]
    omega
  rw [hneq, Bool.and_false]

/-- C17, at the photo of the scene when the geocoder answers `Biel/Bienne`: the
candidate is `target\2023\2023-10\2023-10-15 14-30-05 Biel/Bienne.jpg`, whose file
name is `Bienne.jpg` in the directory `2023-10-15 14-30-05 Biel`, one level below
`target\2023\2023-10\`. -/
theorem location_separator_adds_component_witness :
    (GetFileMetadata bielEnv "src\\photo.jpg" sceneWorld).1.location = "Biel/Bienne" ∧
      pathAppend
          (targetDirOf "target" (GetFileMetadata bielEnv "src\\photo.jpg" sceneWorld).1.date)
          (baseNameOf (GetFileMetadata bielEnv "src\\photo.jpg" sceneWorld).1 ++ ".jpg")
        = "target\\2023\\2023-10\\2023-10-15 14-30-05 Biel/Bienne.jpg" ∧
      filenameChars "target\\2023\\2023-10\\2023-10-15 14-30-05 Biel/Bienne.jpg".data
        = "Bienne.jpg".data ∧
      isDirectChild "target\\2023\\2023-10\\"
        "target\\2023\\2023-10\\2023-10-15 14-30-05 Biel/Bienne.jpg" = false ∧
      isDirectChild "target\\2023\\2023-10\\"
        "target\\2023\\2023-10\\2023-10-15 14-30-05 Paris.jpg" = true := by
  have h := (location_separator_adds_component "target"
    (GetFileMetadata bielEnv "src\\photo.jpg" sceneWorld).1 ".jpg"
    ⟨'/', by decide, by decide⟩).1
  exact ⟨by decide, by decide, by decide, h, by decide⟩

/-! ## C18: the scratch directory of an archive -/

theorem alphanum_getD_mem : ∀ k, k < 36 → alphanum.getD k '0' ∈ alphanum := by
  decide

/-- The scratch name is `_temp_` followed by 8 characters out of `0-9` and `A-Z`. -/
theorem GenerateTempSubfolderName_shape (draws : Nat → Nat) :
    ∃ s : List Char, s.length = 8 ∧ (∀ c ∈ s, c ∈ alphanum) ∧
      GenerateTempSubfolderName draws = "_temp_" ++ String.mk s := by
  refine ⟨(List.range 8).map fun i => alphanum.getD (draws i % 36) '0', by simp, ?_, rfl⟩
  intro c hc
  obtain ⟨i, _, rfl⟩ := List.mem_map.mp hc
  exact alphanum_getD_mem _ (Nat.mod_lt _ (by decide))

/-- C18: take an archive job whose scratch directory was created, and let
`fs::remove_all` do its work. The scratch directory is `<targetRoot>/_temp_XXXXXXXX`
with 8 characters out of `0-9` and `A-Z`. When `ProcessZip` returns, no
file lies under the scratch directory and the directory is gone, whether `tar.exe`
reported success or not and whatever it left behind. When `tar.exe` reported a
failure, the result does not depend on `ProcessFile` and the counters are as before:
`ProcessDirectory` is not called. When it reported success, `ProcessDirectory` runs
on the scratch directory before the removal. -/
theorem ProcessZip_removes_scratch (env : Env) (process : String → World → World)
    (zipPath : String) (w : World)
    (hmk : env.createDirectoriesFails (scratchDir env zipPath w) = false)
    (hrm : env.removeAllFails (scratchDir env zipPath w) = false) :
    (∃ s : List Char, s.length = 8 ∧ (∀ c ∈ s, c ∈ alphanum) ∧
      scratchDir env zipPath w = pathAppend w.targetPath ("_temp_" ++ String.mk s)) ∧
    (∀ f ∈ (ProcessZip env process zipPath w).files,
      isUnder (scratchDir env zipPath w) f.1 = false) ∧
    scratchDir env zipPath w ∉ (ProcessZip env process zipPath w).scratch ∧
    ((env.tar zipPath (scratchDir env zipPath w)).1 = false →
      ProcessZip env process zipPath w
        = remove_all env
            { w with
              scratch := scratchDir env zipPath w :: w.scratch
              files := w.files ++ filesOfList (scratchDir env zipPath w)
                (env.tar zipPath (scratchDir env zipPath w)).2 }
            (scratchDir env zipPath w) ∧
      (ProcessZip env process zipPath w).stats = w.stats ∧
      (ProcessZip env process zipPath w).observed = w.observed) ∧
    ((env.tar zipPath (scratchDir env zipPath w)).1 = true →
      ProcessZip env process zipPath w
        = remove_all env
            (ProcessDirectory process (scratchDir env zipPath w)
              (env.tar zipPath (scratchDir env zipPath w)).2
              { w with
                scratch := scratchDir env zipPath w :: w.scratch
                files := w.files ++ filesOfList (scratchDir env zipPath w)
                  (env.tar zipPath (scratchDir env zipPath w)).2 })
            (scratchDir env zipPath w)) := by
  refine ⟨?_, ?_, ?_, ?_, ?_⟩
  · obtain ⟨s, h1, h2, h3⟩ := GenerateTempSubfolderName_shape (env.random zipPath)
    exact ⟨s, h1, h2, by rw [scratchDir, h3]⟩
  · intro f hf
    simp only [ProcessZip, hmk, Bool.false_eq_true, if_false, remove_all, hrm] at hf
    have h := (List.mem_filter.mp hf).2
    simpa using h
  · intro hmem
    simp only [ProcessZip, hmk, Bool.false_eq_true, if_false, remove_all, hrm] at hmem
    have h := (List.mem_filter.mp hmem).2
    simp at h
  · intro hfail
    simp only [ProcessZip, hmk, Bool.false_eq_true, if_false, hfail, remove_all, hrm]
    exact ⟨trivial, trivial, trivial⟩
  · intro hok
    simp only [ProcessZip, hmk, Bool.false_eq_true, if_false, hok, if_true]

/-- C18, at the archive `album.zip` of the scene: when `tar.exe` unpacks `inner.txt`
and succeeds, the member is sorted into the target and the scratch directory with
its copy of the member is gone afterwards; when `tar.exe` unpacks the member and
then fails, nothing is sorted and the scratch directory is gone as well. -/
theorem ProcessZip_removes_scratch_witness :
    (ProcessZip archiveEnv (ProcessFileDepth archiveEnv 0) "src\\album.zip"
        sceneWorld).files.map Prod.fst
      = ["src\\photo.jpg", "src\\note.txt", "target\\2022\\2022-01\\2022-01-01 00-00-00.txt"] ∧
    "target\\_temp_0A1B2C3D" ∉
      (ProcessZip archiveEnv (ProcessFileDepth archiveEnv 0) "src\\album.zip"
        sceneWorld).scratch ∧
    (ProcessZip brokenArchiveEnv (ProcessFileDepth brokenArchiveEnv 0) "src\\album.zip"
        sceneWorld).files.map Prod.fst
      = ["src\\photo.jpg", "src\\note.txt"] ∧
    (ProcessZip brokenArchiveEnv (ProcessFileDepth brokenArchiveEnv 0) "src\\album.zip"
        sceneWorld).stats = sceneWorld.stats :=
  ⟨by decide,
    (ProcessZip_removes_scratch archiveEnv (ProcessFileDepth archiveEnv 0) "src\\album.zip"
      sceneWorld rfl rfl).2.2.1,
    by decide,
    ((ProcessZip_removes_scratch brokenArchiveEnv (ProcessFileDepth brokenArchiveEnv 0)
      "src\\album.zip" sceneWorld rfl rfl).2.2.2.1 rfl).2.1⟩

/-! ## C19: the counters of a run over regular files -/

/-- C19: a call of `ProcessFile` for a regular (non-archive) file while no stop is
requested raises `processed` by one and exactly one of `succeeded` and `skipped` by
one. Hence a run of `ScanningThread` that is not stopped, over a source tree that
can be read and holds `n` regular files none of which is an archive, ends with
`totalFiles = n`, `processed = n` and `succeeded + skipped = n`. -/
theorem ScanningThread_counts (env : Env) (depth : Nat) (sourcePath : String)
    (entries : List DirEntry) (w : World)
    (hsrc : sourcePath ≠ "") (htgt : w.targetPath ≠ "") (hstop : w.stopRequested = false)
    (hwalk : (walkList sourcePath entries).2 = true)
    (hzip : ∀ p ∈ (walkList sourcePath entries).1,
      extension p ≠ ".zip" ∧ extension p ≠ ".ZIP") :
    (∀ (ProcessZip : String → World → World) (filePath : String) (w2 : World),
      w2.stopRequested = false →
      extension filePath ≠ ".zip" ∧ extension filePath ≠ ".ZIP" →
      (ProcessFile env ProcessZip filePath w2).stats.processed = w2.stats.processed + 1 ∧
      (((ProcessFile env ProcessZip filePath w2).stats.succeeded = w2.stats.succeeded + 1 ∧
          (ProcessFile env ProcessZip filePath w2).stats.skipped = w2.stats.skipped) ∨
        ((ProcessFile env ProcessZip filePath w2).stats.succeeded = w2.stats.succeeded ∧
          (ProcessFile env ProcessZip filePath w2).stats.skipped = w2.stats.skipped + 1))) ∧
    (ScanningThread env depth sourcePath true entries w).stats.totalFiles
      = (walkList sourcePath entries).1.length ∧
    (ScanningThread env depth sourcePath true entries w).stats.processed
      = (walkList sourcePath entries).1.length ∧
    (ScanningThread env depth sourcePath true entries w).stats.succeeded
        + (ScanningThread env depth sourcePath true entries w).stats.skipped
      = (walkList sourcePath entries).1.length := by
  refine ⟨?_, ?_⟩
  · intro ProcessZip filePath w2 h2 hz
    have h := ProcessFile_counts env ProcessZip filePath w2 h2 hz
    exact ⟨h.1, h.2.2.2.2⟩
  · unfold ScanningThread
    have hno : ¬ (sourcePath = "" ∨ w.targetPath = "") := by
      rintro (h | h)
      · exact hsrc h
      · exact htgt h
    simp only [hno, if_false, rootScan, hstop, hwalk, Bool.not_true, Bool.false_eq_true,
      if_true]
    by_cases hnil : (walkList sourcePath entries).1 = []
    · simp only [hnil, if_true, List.length_nil]
      exact ⟨rfl, rfl, rfl⟩
    · simp only [hnil, if_false]
      have h := WorkerThread_counts env (ProcessZip env (ProcessFileDepth env depth))
        (walkList sourcePath entries).1
        { stopRequested := false, targetPath := w.targetPath,
          stats := { totalFiles := (walkList sourcePath entries).1.length,
                     processed := 0, succeeded := 0, skipped := 0 },
          observed := [], files := w.files, geo := w.geo, scratch := w.scratch } rfl hzip
      exact ⟨h.2.2, h.1.trans (Nat.zero_add _), h.2.1.trans (by simp)⟩

/-- C19, at the scene of the specification: the run over `photo.jpg` and `note.txt`
ends with `totalFiles = 2`, `processed = 2`, `succeeded = 2`, `skipped = 0`. -/
theorem ScanningThread_counts_witness :
    filesOfList "src" sceneEntries = sceneWorld.files ∧
      (ScanningThread calmEnv 1 "src" true sceneEntries sceneWorld).stats.totalFiles = 2 ∧
      (ScanningThread calmEnv 1 "src" true sceneEntries sceneWorld).stats
        = { totalFiles := 2, processed := 2, succeeded := 2, skipped := 0 } :=
  ⟨rfl,
    (ScanningThread_counts calmEnv 1 "src" sceneEntries sceneWorld (by decide) (by decide)
      rfl (by decide) (by decide)).2.1,
    by decide⟩

/-! ## C20: the files that exist are left alone -/

theorem lookup_append_some {α β : Type} [BEq α] (l l2 : List (α × β)) (k : α) (v : β)
    (h : l.lookup k = some v) : (l ++ l2).lookup k = some v := by
  induction l with
  | nil => simp [List.lookup] at h
  | cons a l ih =>
    obtain ⟨k2, v2⟩ := a
    simp only [List.cons_append, List.lookup] at h ⊢
    cases hk : k == k2 with
    | true =>
      rw [hk] at h
      exact h
    | false =>
      rw [hk] at h
      exact ih h

/-- C20: a call of `ProcessFile` for a regular (non-archive) file either leaves the
list of files as it is, or appends exactly one file: a copy of the source at a path
that did not exist when the loop checked it. So every path that named a file before
the call names the same file, with the same facts and size, after it. -/
theorem ProcessFile_keeps_files (env : Env) (ProcessZip : String → World → World)
    (filePath : String) (w : World)
    (hzip : extension filePath ≠ ".zip" ∧ extension filePath ≠ ".ZIP") :
    ((ProcessFile env ProcessZip filePath w).files = w.files ∨
      ∃ dst info, fileExists w dst = false ∧ w.files.lookup filePath = some info ∧
        (ProcessFile env ProcessZip filePath w).files = w.files ++ [(dst, info)]) ∧
    (∀ p info, w.files.lookup p = some info →
      (ProcessFile env ProcessZip filePath w).files.lookup p = some info) ∧
    (∀ p, fileExists w p = true →
      fileExists (ProcessFile env ProcessZip filePath w) p = true ∧
      file_size (ProcessFile env ProcessZip filePath w) p = file_size w p) := by
  have hshape : (ProcessFile env ProcessZip filePath w).files = w.files ∨
      ∃ dst info, fileExists w dst = false ∧ w.files.lookup filePath = some info ∧
        (ProcessFile env ProcessZip filePath w).files = w.files ++ [(dst, info)] := by
    cases hstop : w.stopRequested with
    | true =>
      left
      simp [ProcessFile, hstop]
    | false =>
      rcases ProcessFile_outcome env ProcessZip filePath w hstop hzip with
        h | ⟨dst, info, h1, h2, h⟩
      · left
        rw [h]
        rfl
      · right
        exact ⟨dst, info, h1, h2, by rw [h]; rfl⟩
  have hkeep : ∀ p info, w.files.lookup p = some info →
      (ProcessFile env ProcessZip filePath w).files.lookup p = some info := by
    intro p info hp
    rcases hshape with h | ⟨dst, info2, _, _, h⟩
    · rw [h]
      exact hp
    · rw [h]
      exact lookup_append_some _ _ _ _ hp
  refine ⟨hshape, hkeep, ?_⟩
  intro p hp
  unfold fileExists at hp
  cases hl : w.files.lookup p with
  | none => simp [hl] at hp
  | some info =>
    have h := hkeep p info hl
    simp [fileExists, file_size, h, hl]

/-- C20, at the scene after an earlier run: `note.txt` is copied to a new path, the
photo that the earlier run put in the target is as it was, and the list of files
has grown by exactly the copy. -/
theorem ProcessFile_keeps_files_witness :
    (ProcessFile calmEnv skipZip "src\\note.txt" sortedWorld).files
        = sortedWorld.files ++ [("target\\2022\\2022-01\\2022-01-01 00-00-00.txt", noteInfo)] ∧
      file_size (ProcessFile calmEnv skipZip "src\\note.txt" sortedWorld)
          "target\\2023\\2023-10\\2023-10-15 14-30-05 Paris.jpg" = 100 :=
  ⟨rfl,
    ((ProcessFile_keeps_files calmEnv skipZip "src\\note.txt" sortedWorld (by decide)).2.2
      "target\\2023\\2023-10\\2023-10-15 14-30-05 Paris.jpg" (by decide)).2.trans
      (by decide)⟩

/-! ## C21: the base name determines timestamp and location -/

theorem digitsValue_zeros (k : Nat) (ds : List Char) :
    digitsValue (List.replicate k '0' ++ ds) = digitsValue ds := by
  induction k with
  | zero => rfl
  | succ k ih =>
    have h : digitsValue (List.replicate (k + 1) '0' ++ ds)
        = digitsValue (List.replicate k '0' ++ ds) := by
      simp only [digitsValue, List.replicate_succ, List.cons_append, List.foldl_cons]
      rfl
    rw [h, ih]

/-- The text of `setw(2)` has the value of the number it was made from. -/
theorem setw2_value (n : Nat) : digitsValue (setw2 n).data = n := by
  unfold setw2
  rw [String.data_append, toString_data]
  exact (digitsValue_zeros _ _).trans (digitsValue_toDigits n)

theorem setw2_injective (a b : Nat) (h : setw2 a = setw2 b) : a = b := by
  rw [← setw2_value a, ← setw2_value b, h]

theorem setw2_isDigit (n : Nat) : ∀ c ∈ (setw2 n).data, c.isDigit = true := by
  intro c hc
  unfold setw2 at hc
  rw [String.data_append, toString_data] at hc
  rcases List.mem_append.mp hc with hc | hc
  · have := List.eq_of_mem_replicate hc
    subst this
    decide
  · exact toDigits_isDigit n c hc

/-- Two texts that start with a run of digits followed by something that is no digit
agree only when the runs agree and what follows agrees. -/
theorem digit_run_unique : ∀ (a b r s : List Char),
    (∀ c ∈ a, c.isDigit = true) → (∀ c ∈ b, c.isDigit = true) →
    (∀ c, r.head? = some c → c.isDigit = false) →
    (∀ c, s.head? = some c → c.isDigit = false) →
    a ++ r = b ++ s → a = b ∧ r = s := by
  intro a
  induction a with
  | nil =>
    intro b r s _ hb hr _ h
    cases b with
    | nil => exact ⟨rfl, h⟩
    | cons c b =>
      exfalso
      simp only [List.nil_append, List.cons_append] at h
      have h1 := hr c (by rw [h]; rfl)
      rw [hb c (List.mem_cons_self _ _)] at h1
      cases h1
  | cons x a ih =>
    intro b r s ha hb hr hs h
    cases b with
    | nil =>
      exfalso
      simp only [List.nil_append, List.cons_append] at h
      have h1 := hs x (by rw [← h]; rfl)
      rw [ha x (List.mem_cons_self _ _)] at h1
      cases h1
    | cons y b =>
      simp only [List.cons_append, List.cons.injEq] at h
      obtain ⟨h1, h2⟩ := ih b r s (fun c hc => ha c (List.mem_cons_of_mem _ hc))
        (fun c hc => hb c (List.mem_cons_of_mem _ hc)) hr hs h.2
      exact ⟨by rw [h.1, h1], h2⟩

/-- What `ProcessFile` appends to the timestamp text for a location. -/
theorem baseNameOf_data (md : FileMetadata) :
    (baseNameOf md).data
      = Nat.toDigits 10 md.date.wYear ++ '-' :: ((setw2 md.date.wMonth).data ++ '-' ::
          ((setw2 md.date.wDay).data ++ ' ' :: ((setw2 md.date.wHour).data ++ '-' ::
            ((setw2 md.date.wMinute).data ++ '-' :: ((setw2 md.date.wSecond).data
              ++ (if md.location = "" then [] else ' ' :: md.location.data)))))) := by
  unfold baseNameOf
  by_cases hl : md.location = ""
  · simp [hl, String.data_append, toString_data]
  · simp [hl, String.data_append, toString_data]

/-- C21: two records for which `ProcessFile` builds the same base name agree in
year, month, day, hour, minute, second and location. This holds for all values of
the numeric fields, in particular for all 16-bit values, and for every location
text, so the map from these seven values to the base name is injective. -/
theorem baseNameOf_injective (md1 md2 : FileMetadata)
    (h : baseNameOf md1 = baseNameOf md2) :
    md1.date.wYear = md2.date.wYear ∧ md1.date.wMonth = md2.date.wMonth ∧
    md1.date.wDay = md2.date.wDay ∧ md1.date.wHour = md2.date.wHour ∧
    md1.date.wMinute = md2.date.wMinute ∧ md1.date.wSecond = md2.date.wSecond ∧
    md1.location = md2.location := by
  have hd := congrArg String.data h
  rw [baseNameOf_data, baseNameOf_data] at hd
  have sep : ∀ (x : Char) (t : List Char), x.isDigit = false →
      ∀ c, (x :: t).head? = some c → c.isDigit = false := by
    intro x t hx c hc
    simp only [List.head?_cons, Option.some.injEq] at hc
    rw [← hc]
    exact hx
  have tail : ∀ (loc : String) (c : Char),
      (if loc = "" then [] else ' ' :: loc.data).head? = some c → c.isDigit = false := by
    intro loc c hc
    by_cases hl : loc = ""
    · simp [hl] at hc
    · simp only [hl, if_false, List.head?_cons, Option.some.injEq] at hc
      rw [← hc]
      decide
  obtain ⟨hy, h1⟩ := digit_run_unique _ _ _ _ (toDigits_isDigit _) (toDigits_isDigit _)
    (sep _ _ (by decide)) (sep _ _ (by decide)) hd
  simp only [List.cons.injEq, true_and] at h1
  obtain ⟨hmo, h2⟩ := digit_run_unique _ _ _ _ (setw2_isDigit _) (setw2_isDigit _)
    (sep _ _ (by decide)) (sep _ _ (by decide)) h1
  simp only [List.cons.injEq, true_and] at h2
  obtain ⟨hday, h3⟩ := digit_run_unique _ _ _ _ (setw2_isDigit _) (setw2_isDigit _)
    (sep _ _ (by decide)) (sep _ _ (by decide)) h2
  simp only [List.cons.injEq, true_and] at h3
  obtain ⟨hh, h4⟩ := digit_run_unique _ _ _ _ (setw2_isDigit _) (setw2_isDigit _)
    (sep _ _ (by decide)) (sep _ _ (by decide)) h3
  simp only [List.cons.injEq, true_and] at h4
  obtain ⟨hmi, h5⟩ := digit_run_unique _ _ _ _ (setw2_isDigit _) (setw2_isDigit _)
    (sep _ _ (by decide)) (sep _ _ (by decide)) h4
  simp only [List.cons.injEq, true_and] at h5
  obtain ⟨hs, h6⟩ := digit_run_unique _ _ _ _ (setw2_isDigit _) (setw2_isDigit _)
    (tail _) (tail _) h5
  refine ⟨toString_nat_injective _ _ (String.ext hy), setw2_injective _ _ (String.ext hmo),
    setw2_injective _ _ (String.ext hday), setw2_injective _ _ (String.ext hh),
    setw2_injective _ _ (String.ext hmi), setw2_injective _ _ (String.ext hs), ?_⟩
  by_cases l1 : md1.location = "" <;> by_cases l2 : md2.location = ""
  · rw [l1, l2]
  · simp [l1, l2] at h6
  · simp [l1, l2] at h6
  · simp only [l1, l2, if_false, List.cons.injEq, true_and] at h6
    exact String.ext h6

/-- C21, at two records that differ only in fields the base name does not use (the
day of the week, the milliseconds, `hasDate`): they have the same base name
`2022-01-01 00-00-00 Paris`, and the seven values the name is built from agree. -/
theorem baseNameOf_injective_witness :
    baseNameOf { date := newYear2022, hasDate := false, location := "Paris" }
        = "2022-01-01 00-00-00 Paris" ∧
      newYear2022.wSecond = ({ newYear2022 with wDayOfWeek := 0, wMilliseconds := 7 }
        : SYSTEMTIME).wSecond :=
  ⟨by decide,
    (baseNameOf_injective { date := newYear2022, hasDate := false, location := "Paris" }
      { date := { newYear2022 with wDayOfWeek := 0, wMilliseconds := 7 }, hasDate := true,
        location := "Paris" } (by decide)).2.2.2.2.2.1⟩

/-! ## C22: the loop over the candidate names ends -/

/-- Once the loop has ended, more fuel does not change how it ended. -/
theorem probe_more_fuel (env : Env) (w : World) (filePath targetDir baseName ext : String)
    (extra : Nat) : ∀ (fuel dup : Nat) (targetFile : String),
    probe env w filePath targetDir baseName ext fuel dup targetFile ≠ ProbeResult.unfinished →
      probe env w filePath targetDir baseName ext (fuel + extra) dup targetFile
        = probe env w filePath targetDir baseName ext fuel dup targetFile := by
  intro fuel
  induction fuel with
  | zero =>
    intro dup targetFile h
    exact absurd rfl h
  | succ fuel ih =>
    intro dup targetFile h
    have e : fuel + 1 + extra = (fuel + extra) + 1 := by omega
    rw [e]
    by_cases h1 : env.existsFails targetFile = true
    · simp only [probe, h1, if_true]
    · by_cases h2 : (!fileExists w targetFile) = true
      · simp only [probe, h1, h2, if_true, if_false]
      · by_cases h3 : file_size w targetFile = file_size w filePath
        · simp only [probe, h1, h2, h3, if_true, if_false]
        · simp only [probe, h1, h2, h3, if_false] at h ⊢
          exact ih _ _ h

theorem isPrefixOf_append (a b : List Char) : a.isPrefixOf (a ++ b) = true := by
  induction a with
  | nil => simp [List.isPrefixOf]
  | cons x a ih => simp [List.isPrefixOf, ih]

/-- A candidate name that exists is one of the files in the target directory or
below. -/
theorem candidate_mem_filesBelow (w : World) (targetPath : String) (date : SYSTEMTIME)
    (md : FileMetadata) (ext : String) (k : Nat)
    (h : fileExists w (candidate (targetDirOf targetPath date) (baseNameOf md) ext k) = true) :
    candidate (targetDirOf targetPath date) (baseNameOf md) ext k
      ∈ (filesBelow w (targetDirOf targetPath date)).map Prod.fst := by
  have hm := fileExists_mem w _ h
  obtain ⟨f, hf, hfp⟩ := List.mem_map.mp hm
  refine List.mem_map.mpr ⟨f, ?_, hfp⟩
  unfold filesBelow
  refine List.mem_filter.mpr ⟨hf, ?_⟩
  rw [hfp, candidate_eq]
  simp only [String.data_append, List.append_assoc]
  exact isPrefixOf_append _ _

/-- C22: for the directory and base name that `ProcessFile` builds, the candidate
names of distinct suffix numbers are distinct, so the loop of lines 615-624 ends
after at most one evaluation of its condition more than there are files in the
target directory (and below): with that much fuel, and with any more, the loop has
ended, in the same way. When `fs::exists` does not throw, it ends at a candidate
number that is at most the number of these files, every candidate before it being
an existing file of another size. -/
theorem probe_terminates (env : Env) (w : World) (filePath targetPath : String)
    (md : FileMetadata) (ext : String) :
    (∀ j k, candidate (targetDirOf targetPath md.date) (baseNameOf md) ext j
        = candidate (targetDirOf targetPath md.date) (baseNameOf md) ext k → j = k) ∧
    (∀ fuel, (filesBelow w (targetDirOf targetPath md.date)).length + 1 ≤ fuel →
      probe env w filePath (targetDirOf targetPath md.date) (baseNameOf md) ext fuel 0
          (pathAppend (targetDirOf targetPath md.date) (baseNameOf md ++ ext))
        ≠ ProbeResult.unfinished ∧
      probe env w filePath (targetDirOf targetPath md.date) (baseNameOf md) ext fuel 0
          (pathAppend (targetDirOf targetPath md.date) (baseNameOf md ++ ext))
        = probe env w filePath (targetDirOf targetPath md.date) (baseNameOf md) ext
            ((filesBelow w (targetDirOf targetPath md.date)).length + 1) 0
            (pathAppend (targetDirOf targetPath md.date) (baseNameOf md ++ ext))) ∧
    ((∀ p, env.existsFails p = false) →
      ∃ k, k ≤ (filesBelow w (targetDirOf targetPath md.date)).length ∧
        (∀ j, j < k →
          fileExists w (candidate (targetDirOf targetPath md.date) (baseNameOf md) ext j)
            = true ∧
          file_size w (candidate (targetDirOf targetPath md.date) (baseNameOf md) ext j)
            ≠ file_size w filePath) ∧
        (probe env w filePath (targetDirOf targetPath md.date) (baseNameOf md) ext
              ((filesBelow w (targetDirOf targetPath md.date)).length + 1) 0
              (pathAppend (targetDirOf targetPath md.date) (baseNameOf md ++ ext))
            = ProbeResult.copyTo
                (candidate (targetDirOf targetPath md.date) (baseNameOf md) ext k) ∨
          probe env w filePath (targetDirOf targetPath md.date) (baseNameOf md) ext
              ((filesBelow w (targetDirOf targetPath md.date)).length + 1) 0
              (pathAppend (targetDirOf targetPath md.date) (baseNameOf md ++ ext))
            = ProbeResult.duplicate
                (candidate (targetDirOf targetPath md.date) (baseNameOf md) ext k))) := by
  have h0 : pathAppend (targetDirOf targetPath md.date) (baseNameOf md ++ ext)
      = candidate (targetDirOf targetPath md.date) (baseNameOf md) ext 0 := by
    simp [candidate]
  have hinj : ∀ j k, candidate (targetDirOf targetPath md.date) (baseNameOf md) ext j
      = candidate (targetDirOf targetPath md.date) (baseNameOf md) ext k → j = k :=
    fun j k => candidate_injective _ _ _ _ j k
  have hend : probe env w filePath (targetDirOf targetPath md.date) (baseNameOf md) ext
      ((filesBelow w (targetDirOf targetPath md.date)).length + 1) 0
      (pathAppend (targetDirOf targetPath md.date) (baseNameOf md ++ ext))
        ≠ ProbeResult.unfinished := by
    intro hun
    rw [h0] at hun
    have hall := probe_unfinished env w filePath _ _ _ _ _ hun
    have hsub : (List.range ((filesBelow w (targetDirOf targetPath md.date)).length + 1)).map
        (candidate (targetDirOf targetPath md.date) (baseNameOf md) ext)
        ⊆ (filesBelow w (targetDirOf targetPath md.date)).map Prod.fst := by
      intro p hp
      obtain ⟨j, hj, rfl⟩ := List.mem_map.mp hp
      have hj2 := List.mem_range.mp hj
      exact candidate_mem_filesBelow w _ _ _ _ _ (hall j (Nat.zero_le _) (by omega))
    have hnd : ((List.range ((filesBelow w (targetDirOf targetPath md.date)).length + 1)).map
        (candidate (targetDirOf targetPath md.date) (baseNameOf md) ext)).Nodup := by
      apply List.Nodup.map _ (List.nodup_range _)
      intro a b hab
      exact hinj a b hab
    have hle := (List.Nodup.subperm hnd hsub).length_le
    simp at hle
  refine ⟨hinj, ?_, ?_⟩
  · intro fuel hfuel
    obtain ⟨extra, rfl⟩ := Nat.exists_eq_add_of_le hfuel
    have hmore := probe_more_fuel env w filePath (targetDirOf targetPath md.date)
      (baseNameOf md) ext extra _ 0 _ hend
    exact ⟨by rw [hmore]; exact hend, hmore⟩
  · intro hex
    rw [h0] at hend ⊢
    rcases probe_scan env w filePath (targetDirOf targetPath md.date) (baseNameOf md) ext hex
      ((filesBelow w (targetDirOf targetPath md.date)).length + 1) 0 with
      ⟨hun, _⟩ | ⟨k, _, hk, hall, hres⟩
    · exact absurd hun hend
    · refine ⟨k, by omega, fun j hj => hall j (Nat.zero_le _) hj, ?_⟩
      rcases hres with ⟨_, h⟩ | ⟨_, _, h⟩
      · exact Or.inl h
      · exact Or.inr h

/-- C22, at the scene in which two files of other sizes hold the name of `note.txt`
and its first suffixed name: these are the two files below the target directory,
and with fuel for three evaluations the loop ends at the third candidate. -/
theorem probe_terminates_witness :
    (filesBelow crowdedWorld "target\\2022\\2022-01\\").length = 2 ∧
      probe calmEnv crowdedWorld "src\\note.txt"
          (targetDirOf "target" newYear2022)
          (baseNameOf { date := newYear2022, hasDate := false, location := "" }) ".txt" 3 0
          (pathAppend (targetDirOf "target" newYear2022)
            (baseNameOf { date := newYear2022, hasDate := false, location := "" } ++ ".txt"))
        = ProbeResult.copyTo "target\\2022\\2022-01\\2022-01-01 00-00-00_2.txt" := by
  have h := ((probe_terminates calmEnv crowdedWorld "src\\note.txt" "target"
    { date := newYear2022, hasDate := false, location := "" } ".txt").2.1 3 (by decide)).2
  exact ⟨by decide, h.trans (by decide)⟩

/-! ## Archives: what a call keeps and what it counts -/

theorem isArchive_iff (p : String) :
    isArchive p = true ↔ (extension p = ".zip" ∨ extension p = ".ZIP") := by
  simp [isArchive]

theorem isArchive_false (p : String) (h : isArchive p = false) :
    extension p ≠ ".zip" ∧ extension p ≠ ".ZIP" := by
  simp only [isArchive, decide_eq_false_iff_not, not_or] at h
  exact h

/-- A call for an archive, while no stop is requested, is the call of the archive
handler. -/
theorem ProcessFile_archive (env : Env) (handler : String → World → World) (p : String)
    (w : World) (hstop : w.stopRequested = false) (hzip : isArchive p = true) :
    ProcessFile env handler p w = handler p w := by
  have h := (isArchive_iff p).mp hzip
  simp [ProcessFile, hstop, h]

/-- A call for a path that is no archive does not depend on the archive handler. -/
theorem ProcessFile_handler (env : Env) (handler1 handler2 : String → World → World)
    (p : String) (w : World) (hzip : isArchive p = false) :
    ProcessFile env handler1 p w = ProcessFile env handler2 p w := by
  have h := isArchive_false p hzip
  simp [ProcessFile, h.1, h.2]

/-- `ProcessZip` in terms of the members of the archive: the loop over the members
runs between the making and the removal of the scratch directory. -/
theorem ProcessZip_members (env : Env) (process : String → World → World) (p : String)
    (w : World) :
    ProcessZip env process p w =
      if env.createDirectoriesFails (scratchDir env p w) then w
      else
        remove_all env
          (processEach process (membersOf env w.targetPath p)
            { w with
              scratch := scratchDir env p w :: w.scratch
              files := w.files ++ filesOfList (scratchDir env p w)
                (env.tar p (scratchDir env p w)).2 })
          (scratchDir env p w) := by
  unfold ProcessZip
  by_cases hmk : env.createDirectoriesFails (scratchDir env p w) = true
  · simp only [hmk, if_true]
  · have hmk2 : env.createDirectoriesFails
        (pathAppend w.targetPath (GenerateTempSubfolderName (env.random p))) = false := by
      simpa [scratchDir] using hmk
    simp only [hmk, if_false, membersOf, hmk2, Bool.false_eq_true]
    by_cases ht : (env.tar p (scratchDir env p w)).1 = true
    · have ht2 : (env.tar p
          (pathAppend w.targetPath (GenerateTempSubfolderName (env.random p)))).1 = true := ht
      simp only [ht, ht2, if_true, ProcessDirectory]
      rfl
    · have ht2 : (env.tar p
          (pathAppend w.targetPath (GenerateTempSubfolderName (env.random p)))).1 = false := by
        simpa [scratchDir] using ht
      simp only [ht, ht2, if_false, Bool.false_eq_true, processEach]

theorem ProcessFile_frame (env : Env) (handler : String → World → World)
    (hh : ∀ p w, sameFrame (handler p w) w) (p : String) (w : World) :
    sameFrame (ProcessFile env handler p w) w := by
  cases hstop : w.stopRequested with
  | true =>
    have e : ProcessFile env handler p w = w := by simp [ProcessFile, hstop]
    rw [e]
    exact ⟨rfl, rfl, rfl⟩
  | false =>
    cases hzip : isArchive p with
    | true =>
      rw [ProcessFile_archive env handler p w hstop hzip]
      exact hh p w
    | false =>
      have h := ProcessFile_counts env handler p w hstop (isArchive_false p hzip)
      exact ⟨h.2.2.1.trans hstop.symm, h.2.2.2.1, h.2.1⟩

theorem processEach_frame (process : String → World → World)
    (hp : ∀ p w, sameFrame (process p w) w) : ∀ (l : List String) (w : World),
    sameFrame (processEach process l w) w := by
  intro l
  induction l with
  | nil => intro w; exact ⟨rfl, rfl, rfl⟩
  | cons p rest ih =>
    intro w
    unfold processEach
    split
    · exact ⟨rfl, rfl, rfl⟩
    · have h1 := ih (process p w)
      have h2 := hp p w
      exact ⟨h1.1.trans h2.1, h1.2.1.trans h2.2.1, h1.2.2.trans h2.2.2⟩

theorem ProcessZip_frame (env : Env) (process : String → World → World)
    (hp : ∀ p w, sameFrame (process p w) w) (p : String) (w : World) :
    sameFrame (ProcessZip env process p w) w := by
  rw [ProcessZip_members]
  split
  · exact ⟨rfl, rfl, rfl⟩
  · have h := processEach_frame process hp (membersOf env w.targetPath p)
      { w with
        scratch := scratchDir env p w :: w.scratch
        files := w.files ++ filesOfList (scratchDir env p w)
          (env.tar p (scratchDir env p w)).2 }
    unfold remove_all
    split
    · exact h
    · exact h

theorem ProcessFileDepth_frame (env : Env) : ∀ (depth : Nat) (p : String) (w : World),
    sameFrame (ProcessFileDepth env depth p w) w := by
  intro depth
  induction depth with
  | zero =>
    intro p w
    exact ProcessFile_frame env _ (fun _ _ => ⟨rfl, rfl, rfl⟩) p w
  | succ depth ih =>
    intro p w
    exact ProcessFile_frame env _ (fun q v => ProcessZip_frame env _ ih q v) p w

/-- The worker loop is the loop of `ProcessDirectory` over the jobs. -/
theorem WorkerThread_processEach (env : Env) (handler : String → World → World) :
    ∀ (jobs : List String) (w : World),
      WorkerThread env handler jobs w = processEach (ProcessFile env handler) jobs w := by
  intro jobs
  induction jobs with
  | nil => intro w; rfl
  | cons p rest ih =>
    intro w
    unfold WorkerThread processEach
    split
    · rfl
    · exact ih _

theorem remove_all_stats (env : Env) (w : World) (dir : String) :
    (remove_all env w dir).stats = w.stats := by
  unfold remove_all
  split <;> rfl

/-- The loop over a list of paths counts what each call counts, when each call
counts `count targetPath p` files and keeps the frame. -/
theorem processEach_counts (process : String → World → World) (count : String → String → Nat)
    (hf : ∀ p w, sameFrame (process p w) w)
    (hc : ∀ p w, w.stopRequested = false →
      (process p w).stats.processed = w.stats.processed + count w.targetPath p ∧
      (process p w).stats.succeeded + (process p w).stats.skipped
        = w.stats.succeeded + w.stats.skipped + count w.targetPath p) :
    ∀ (l : List String) (w : World), w.stopRequested = false →
      (processEach process l w).stats.processed
        = w.stats.processed + (l.map (count w.targetPath)).sum ∧
      (processEach process l w).stats.succeeded + (processEach process l w).stats.skipped
        = w.stats.succeeded + w.stats.skipped + (l.map (count w.targetPath)).sum := by
  intro l
  induction l with
  | nil =>
    intro w _
    exact ⟨rfl, rfl⟩
  | cons p rest ih =>
    intro w hstop
    have h1 := hc p w hstop
    have hfr := hf p w
    have h2 := ih (process p w) (hfr.1.trans hstop)
    rw [hfr.2.1] at h2
    unfold processEach
    simp only [hstop, Bool.false_eq_true, if_false, List.map_cons, List.sum_cons]
    constructor
    · rw [h2.1, h1.1]
      omega
    · rw [h2.2, h1.2]
      omega

/-- What a call of `ProcessZip` counts: what the loop over the members counts. -/
theorem ProcessZip_counts (env : Env) (process : String → World → World)
    (count : String → String → Nat)
    (hf : ∀ p w, sameFrame (process p w) w)
    (hc : ∀ p w, w.stopRequested = false →
      (process p w).stats.processed = w.stats.processed + count w.targetPath p ∧
      (process p w).stats.succeeded + (process p w).stats.skipped
        = w.stats.succeeded + w.stats.skipped + count w.targetPath p)
    (p : String) (w : World) (hstop : w.stopRequested = false) :
    (ProcessZip env process p w).stats.processed
      = w.stats.processed + ((membersOf env w.targetPath p).map (count w.targetPath)).sum ∧
    (ProcessZip env process p w).stats.succeeded + (ProcessZip env process p w).stats.skipped
      = w.stats.succeeded + w.stats.skipped
        + ((membersOf env w.targetPath p).map (count w.targetPath)).sum := by
  rw [ProcessZip_members]
  by_cases hmk : env.createDirectoriesFails (scratchDir env p w) = true
  · have hm : membersOf env w.targetPath p = [] := by
      have hmk2 : env.createDirectoriesFails
          (pathAppend w.targetPath (GenerateTempSubfolderName (env.random p))) = true := hmk
      simp [membersOf, hmk2]
    simp only [hmk, if_true, hm, List.map_nil, List.sum_nil]
    exact ⟨rfl, rfl⟩
  · have hmk2 : env.createDirectoriesFails (scratchDir env p w) = false := by
      simpa using hmk
    simp only [hmk2, Bool.false_eq_true, if_false, remove_all_stats]
    exact processEach_counts process count hf hc (membersOf env w.targetPath p)
      { w with
        scratch := scratchDir env p w :: w.scratch
        files := w.files ++ filesOfList (scratchDir env p w)
          (env.tar p (scratchDir env p w)).2 } hstop

/-- What a call of `ProcessFileDepth` counts while no stop is requested: the
non-archive files it reaches, each once as processed and once as succeeded or
skipped. -/
theorem ProcessFileDepth_counts (env : Env) : ∀ (depth : Nat) (p : String) (w : World),
    w.stopRequested = false →
      (ProcessFileDepth env depth p w).stats.processed
        = w.stats.processed + filesReached env w.targetPath depth p ∧
      (ProcessFileDepth env depth p w).stats.succeeded
          + (ProcessFileDepth env depth p w).stats.skipped
        = w.stats.succeeded + w.stats.skipped + filesReached env w.targetPath depth p := by
  intro depth
  induction depth with
  | zero =>
    intro p w hstop
    cases hzip : isArchive p with
    | true =>
      simp only [ProcessFileDepth, filesReached, hzip, if_true]
      rw [ProcessFile_archive env _ p w hstop hzip]
      exact ⟨rfl, rfl⟩
    | false =>
      have h := ProcessFile_counts env (fun _ w => w) p w hstop (isArchive_false p hzip)
      simp only [ProcessFileDepth, filesReached, hzip, Bool.false_eq_true, if_false]
      refine ⟨h.1, ?_⟩
      rcases h.2.2.2.2 with h2 | h2 <;> omega
  | succ depth ih =>
    intro p w hstop
    cases hzip : isArchive p with
    | true =>
      simp only [ProcessFileDepth, filesReached, hzip, if_true]
      rw [ProcessFile_archive env _ p w hstop hzip]
      exact ProcessZip_counts env (ProcessFileDepth env depth)
        (fun tp q => filesReached env tp depth q) (ProcessFileDepth_frame env depth) ih p w hstop
    | false =>
      have h := ProcessFile_counts env (ProcessZip env (ProcessFileDepth env depth)) p w hstop
        (isArchive_false p hzip)
      simp only [ProcessFileDepth, filesReached, hzip, Bool.false_eq_true, if_false]
      refine ⟨h.1, ?_⟩
      rcases h.2.2.2.2 with h2 | h2 <;> omega

/-- A sum over a list splits into the part over the archives and one for each other
path. -/
theorem sum_split_archives (count : String → Nat) (hc : ∀ p, isArchive p = false → count p = 1) :
    ∀ l : List String,
      (l.map count).sum + (l.filter isArchive).length
        = l.length + ((l.filter isArchive).map count).sum := by
  intro l
  induction l with
  | nil => rfl
  | cons p rest ih =>
    cases hzip : isArchive p with
    | true =>
      simp only [List.map_cons, List.sum_cons, List.filter_cons, hzip, if_true,
        List.length_cons]
      omega
    | false =>
      simp only [List.map_cons, List.sum_cons, List.filter_cons, hzip, Bool.false_eq_true,
        if_false, List.length_cons, hc p hzip]
      omega

/-! ## Archives: the nesting depth -/

theorem nestsWithin_succ (env : Env) (tp : String) : ∀ (depth : Nat) (p : String),
    nestsWithin env tp depth p = true → nestsWithin env tp (depth + 1) p = true := by
  intro depth
  induction depth with
  | zero =>
    intro p h
    have hz : isArchive p = false := by simpa [nestsWithin] using h
    simp [nestsWithin, hz]
  | succ depth ih =>
    intro p h
    cases hz : isArchive p with
    | false => simp [nestsWithin, hz]
    | true =>
      rw [nestsWithin] at h ⊢
      simp only [hz, if_true, List.all_eq_true] at h ⊢
      intro m hm
      exact ih m (h m hm)

/-- Two loops agree when their calls agree on the paths of the list, for every world
with the given target root. -/
theorem processEach_congr (f g : String → World → World) (tp : String)
    (hg : ∀ p w, sameFrame (g p w) w) : ∀ (l : List String),
    (∀ m ∈ l, ∀ w, w.targetPath = tp → f m w = g m w) →
    ∀ w, w.targetPath = tp → processEach f l w = processEach g l w := by
  intro l
  induction l with
  | nil => intro _ w _; rfl
  | cons p rest ih =>
    intro h w hw
    unfold processEach
    split
    · rfl
    · rw [h p (List.mem_cons_self _ _) w hw]
      exact ih (fun m hm => h m (List.mem_cons_of_mem _ hm)) (g p w)
        ((hg p w).2.1.trans hw)

theorem ProcessZip_congr (env : Env) (f g : String → World → World) (p : String)
    (hg : ∀ q w, sameFrame (g q w) w) (w : World)
    (h : ∀ m ∈ membersOf env w.targetPath p, ∀ v, v.targetPath = w.targetPath → f m v = g m v) :
    ProcessZip env f p w = ProcessZip env g p w := by
  rw [ProcessZip_members, ProcessZip_members]
  split
  · rfl
  · have e := processEach_congr f g w.targetPath hg (membersOf env w.targetPath p) h
      { w with
        scratch := scratchDir env p w :: w.scratch
        files := w.files ++ filesOfList (scratchDir env p w)
          (env.tar p (scratchDir env p w)).2 } rfl
    rw [e]

/-- When the archives reached from a path nest at most `depth` deep, one more level
of `ProcessFileDepth` changes nothing. -/
theorem ProcessFileDepth_succ (env : Env) (tp : String) : ∀ (depth : Nat) (p : String),
    nestsWithin env tp depth p = true → ∀ w, w.targetPath = tp →
      ProcessFileDepth env (depth + 1) p w = ProcessFileDepth env depth p w := by
  intro depth
  induction depth with
  | zero =>
    intro p h w _
    have hz : isArchive p = false := by simpa [nestsWithin] using h
    exact ProcessFile_handler env _ _ p w hz
  | succ depth ih =>
    intro p h w hw
    cases hz : isArchive p with
    | false => exact ProcessFile_handler env _ _ p w hz
    | true =>
      cases hstop : w.stopRequested with
      | true => simp [ProcessFileDepth, ProcessFile, hstop]
      | false =>
        have e1 : ProcessFileDepth env (depth + 1 + 1) p w
            = ProcessZip env (ProcessFileDepth env (depth + 1)) p w :=
          ProcessFile_archive env _ p w hstop hz
        have e2 : ProcessFileDepth env (depth + 1) p w
            = ProcessZip env (ProcessFileDepth env depth) p w :=
          ProcessFile_archive env _ p w hstop hz
        rw [e1, e2]
        apply ProcessZip_congr env _ _ p (ProcessFileDepth_frame env depth) w
        intro m hm v hv
        rw [nestsWithin] at h
        simp only [hz, if_true, List.all_eq_true] at h
        rw [hw] at hm
        exact ih m (h m hm) v (hv.trans hw)

theorem ProcessFileDepth_deeper (env : Env) (tp : String) (depth : Nat) (p : String)
    (h : nestsWithin env tp depth p = true) : ∀ (extra : Nat) (w : World),
    w.targetPath = tp →
      ProcessFileDepth env (depth + extra) p w = ProcessFileDepth env depth p w := by
  intro extra
  induction extra with
  | zero => intro w _; rfl
  | succ extra ih =>
    intro w hw
    have hn : nestsWithin env tp (depth + extra) p = true := by
      clear ih
      induction extra with
      | zero => exact h
      | succ extra ih2 => exact nestsWithin_succ env tp _ p ih2
    have e : depth + (extra + 1) = depth + extra + 1 := by omega
    rw [e, ProcessFileDepth_succ env tp (depth + extra) p hn w hw]
    exact ih w hw

/-! ## Archives: the counters stay settled -/

theorem processEach_settled (process : String → World → World)
    (hp : ∀ p w, w.settled → (process p w).settled) : ∀ (l : List String) (w : World),
    w.settled → (processEach process l w).settled := by
  intro l
  induction l with
  | nil => intro w h; exact h
  | cons p rest ih =>
    intro w h
    unfold processEach
    split
    · exact h
    · exact ih _ (hp p w h)

theorem ProcessZip_settled (env : Env) (process : String → World → World)
    (hp : ∀ p w, w.settled → (process p w).settled) (p : String) (w : World)
    (h : w.settled) : (ProcessZip env process p w).settled := by
  rw [ProcessZip_members]
  split
  · exact h
  · have h2 := processEach_settled process hp (membersOf env w.targetPath p)
      { w with
        scratch := scratchDir env p w :: w.scratch
        files := w.files ++ filesOfList (scratchDir env p w)
          (env.tar p (scratchDir env p w)).2 } h
    unfold remove_all
    split
    · exact h2
    · exact h2

/-- The archive handler of a run keeps the counters settled, at every nesting
depth. -/
theorem ProcessFileDepth_settled (env : Env) : ∀ (depth : Nat) (p : String) (w : World),
    w.settled → (ProcessFileDepth env depth p w).settled := by
  intro depth
  induction depth with
  | zero =>
    intro p w h
    exact ProcessFile_settled env _ (fun _ _ hw => hw) p w h
  | succ depth ih =>
    intro p w h
    exact ProcessFile_settled env _ (fun q v hv => ProcessZip_settled env _ ih q v hv) p w h

/-! ## C23: an archive is not counted itself -/

/-- A run that is not stopped, over a source tree that can be read: the counters are
reset, `totalFiles` is set to the number of root files, and the root files are
handled in queue order. -/
theorem ScanningThread_run (env : Env) (depth : Nat) (sourcePath : String)
    (entries : List DirEntry) (w : World)
    (hsrc : sourcePath ≠ "") (htgt : w.targetPath ≠ "") (hstop : w.stopRequested = false)
    (hwalk : (walkList sourcePath entries).2 = true) :
    ScanningThread env depth sourcePath true entries w =
      if (walkList sourcePath entries).1 = [] then
        { stopRequested := false, targetPath := w.targetPath, stats := Stats.reset,
          observed := [], files := w.files, geo := w.geo, scratch := w.scratch }
      else
        { processEach (ProcessFileDepth env (depth + 1)) (walkList sourcePath entries).1
            { stopRequested := false, targetPath := w.targetPath,
              stats := { totalFiles := (walkList sourcePath entries).1.length,
                         processed := 0, succeeded := 0, skipped := 0 },
              observed := [], files := w.files, geo := w.geo, scratch := w.scratch }
          with stopRequested := false } := by
  unfold ScanningThread
  have hno : ¬ (sourcePath = "" ∨ w.targetPath = "") := by
    rintro (h | h)
    · exact hsrc h
    · exact htgt h
  simp only [hno, if_false, rootScan, hstop, hwalk, Bool.not_true, Bool.false_eq_true,
    if_true]
  by_cases hnil : (walkList sourcePath entries).1 = []
  · simp only [hnil, if_true]
  · simp only [hnil, if_false]
    rw [WorkerThread_processEach]
    rfl

/-- C23: a call of `ProcessFile` for an archive, while no stop is requested, is the
call of `ProcessZip`: its counters are those of the loop over the regular files
found in the scratch directory, started from the counters before the call, so they
stay as they are when the scratch directory cannot be made, when `tar.exe` fails and
when no regular file is found. For a run that is not stopped over a readable source
tree, `totalFiles` is the number of root files, archives included, and `processed`
at the end is `totalFiles` minus the number of root archives plus the number of
non-archive files reached from the root archives; `succeeded + skipped` is the same
number. When the archives nest no deeper than the model opens them, opening deeper
levels gives the same run. -/
theorem archive_not_counted (env : Env) (depth : Nat) (sourcePath : String)
    (entries : List DirEntry) (w : World)
    (hsrc : sourcePath ≠ "") (htgt : w.targetPath ≠ "") (hstop : w.stopRequested = false)
    (hwalk : (walkList sourcePath entries).2 = true) :
    (∀ (process : String → World → World) (p : String) (w2 : World),
      isArchive p = true → w2.stopRequested = false →
      ProcessFile env (ProcessZip env process) p w2 = ProcessZip env process p w2 ∧
      (ProcessFile env (ProcessZip env process) p w2).stats
        = (processEach process (membersOf env w2.targetPath p)
            { w2 with
              scratch := scratchDir env p w2 :: w2.scratch
              files := w2.files ++ filesOfList (scratchDir env p w2)
                (env.tar p (scratchDir env p w2)).2 }).stats ∧
      (membersOf env w2.targetPath p = [] →
        (ProcessFile env (ProcessZip env process) p w2).stats = w2.stats)) ∧
    (ScanningThread env depth sourcePath true entries w).stats.totalFiles
      = (walkList sourcePath entries).1.length ∧
    (ScanningThread env depth sourcePath true entries w).stats.processed
        + ((walkList sourcePath entries).1.filter isArchive).length
      = (ScanningThread env depth sourcePath true entries w).stats.totalFiles
        + (((walkList sourcePath entries).1.filter isArchive).map
            (filesReached env w.targetPath (depth + 1))).sum ∧
    (ScanningThread env depth sourcePath true entries w).stats.processed
      = (ScanningThread env depth sourcePath true entries w).stats.totalFiles
        - ((walkList sourcePath entries).1.filter isArchive).length
        + (((walkList sourcePath entries).1.filter isArchive).map
            (filesReached env w.targetPath (depth + 1))).sum ∧
    (ScanningThread env depth sourcePath true entries w).stats.succeeded
        + (ScanningThread env depth sourcePath true entries w).stats.skipped
      = (ScanningThread env depth sourcePath true entries w).stats.processed ∧
    ((∀ p ∈ (walkList sourcePath entries).1,
        nestsWithin env w.targetPath (depth + 1) p = true) →
      ∀ extra, ScanningThread env (depth + extra) sourcePath true entries w
        = ScanningThread env depth sourcePath true entries w) := by
  have hcall : ∀ (process : String → World → World) (p : String) (w2 : World),
      isArchive p = true → w2.stopRequested = false →
      ProcessFile env (ProcessZip env process) p w2 = ProcessZip env process p w2 ∧
      (ProcessFile env (ProcessZip env process) p w2).stats
        = (processEach process (membersOf env w2.targetPath p)
            { w2 with
              scratch := scratchDir env p w2 :: w2.scratch
              files := w2.files ++ filesOfList (scratchDir env p w2)
                (env.tar p (scratchDir env p w2)).2 }).stats ∧
      (membersOf env w2.targetPath p = [] →
        (ProcessFile env (ProcessZip env process) p w2).stats = w2.stats) := by
    intro process p w2 hz hs
    have e := ProcessFile_archive env (ProcessZip env process) p w2 hs hz
    have hst : (ProcessZip env process p w2).stats
        = (processEach process (membersOf env w2.targetPath p)
            { w2 with
              scratch := scratchDir env p w2 :: w2.scratch
              files := w2.files ++ filesOfList (scratchDir env p w2)
                (env.tar p (scratchDir env p w2)).2 }).stats := by
      rw [ProcessZip_members]
      by_cases hmk : env.createDirectoriesFails (scratchDir env p w2) = true
      · have hm : membersOf env w2.targetPath p = [] := by
          have hmk2 : env.createDirectoriesFails
              (pathAppend w2.targetPath (GenerateTempSubfolderName (env.random p))) = true := hmk
          simp [membersOf, hmk2]
        simp only [hmk, if_true, hm, processEach]
      · have hmk2 : env.createDirectoriesFails (scratchDir env p w2) = false := by
          simpa using hmk
        simp only [hmk2, Bool.false_eq_true, if_false, remove_all_stats]
    refine ⟨e, by rw [e, hst], ?_⟩
    intro hm
    rw [e, hst, hm]
    rfl
  have hrun := ScanningThread_run env depth sourcePath entries w hsrc htgt hstop hwalk
  have hcount := processEach_counts (ProcessFileDepth env (depth + 1))
    (fun tp p => filesReached env tp (depth + 1) p) (ProcessFileDepth_frame env (depth + 1))
    (ProcessFileDepth_counts env (depth + 1)) (walkList sourcePath entries).1
    { stopRequested := false, targetPath := w.targetPath,
      stats := { totalFiles := (walkList sourcePath entries).1.length,
                 processed := 0, succeeded := 0, skipped := 0 },
      observed := [], files := w.files, geo := w.geo, scratch := w.scratch } rfl
  have hframe := processEach_frame (ProcessFileDepth env (depth + 1))
    (ProcessFileDepth_frame env (depth + 1)) (walkList sourcePath entries).1
    { stopRequested := false, targetPath := w.targetPath,
      stats := { totalFiles := (walkList sourcePath entries).1.length,
                 processed := 0, succeeded := 0, skipped := 0 },
      observed := [], files := w.files, geo := w.geo, scratch := w.scratch }
  have hsplit := sum_split_archives (filesReached env w.targetPath (depth + 1))
    (fun p hp => by simp [filesReached, hp]) (walkList sourcePath entries).1
  have hle : ((walkList sourcePath entries).1.filter isArchive).length
      ≤ (walkList sourcePath entries).1.length := List.length_filter_le _ _
  have hstats : (ScanningThread env depth sourcePath true entries w).stats.totalFiles
        = (walkList sourcePath entries).1.length ∧
      (ScanningThread env depth sourcePath true entries w).stats.processed
        = ((walkList sourcePath entries).1.map
            (filesReached env w.targetPath (depth + 1))).sum ∧
      (ScanningThread env depth sourcePath true entries w).stats.succeeded
          + (ScanningThread env depth sourcePath true entries w).stats.skipped
        = ((walkList sourcePath entries).1.map
            (filesReached env w.targetPath (depth + 1))).sum := by
    rw [hrun]
    by_cases hnil : (walkList sourcePath entries).1 = []
    · simp only [hnil, if_true, List.length_nil, List.map_nil, List.sum_nil]
      exact ⟨rfl, rfl, rfl⟩
    · simp only [hnil, if_false]
      refine ⟨hframe.2.2, ?_, ?_⟩
      · exact hcount.1.trans (Nat.zero_add _)
      · exact hcount.2.trans (by simp)
  refine ⟨hcall, hstats.1, ?_, ?_, ?_, ?_⟩
  · rw [hstats.2.1, hstats.1]
    exact hsplit
  · rw [hstats.2.1, hstats.1]
    omega
  · rw [hstats.2.2, hstats.2.1]
  · intro hnest extra
    rw [hrun, ScanningThread_run env (depth + extra) sourcePath entries w hsrc htgt hstop hwalk]
    by_cases hnil : (walkList sourcePath entries).1 = []
    · simp only [hnil, if_true]
    · simp only [hnil, if_false]
      have e : depth + extra + 1 = depth + 1 + extra := by omega
      rw [e]
      have hsame := processEach_congr (ProcessFileDepth env (depth + 1 + extra))
        (ProcessFileDepth env (depth + 1)) w.targetPath (ProcessFileDepth_frame env (depth + 1))
        (walkList sourcePath entries).1
        (fun m hm v hv =>
          ProcessFileDepth_deeper env w.targetPath (depth + 1) m (hnest m hm) extra v hv)
        { stopRequested := false, targetPath := w.targetPath,
          stats := { totalFiles := (walkList sourcePath entries).1.length,
                     processed := 0, succeeded := 0, skipped := 0 },
          observed := [], files := w.files, geo := w.geo, scratch := w.scratch } rfl
      rw [hsame]

/-- C23, at a source folder that holds only `album.zip`: when `tar.exe` fails the
run ends with `totalFiles = 1` and nothing processed; when `tar.exe` unpacks
`a.txt` and `b.jpg` the run ends with `totalFiles = 1` and 2 files processed. So
`processed` can end below and above `totalFiles`. -/
theorem archive_not_counted_witness :
    (ScanningThread calmEnv 0 "src" true albumEntries sceneWorld).stats
        = { totalFiles := 1, processed := 0, succeeded := 0, skipped := 0 } ∧
      (ScanningThread twinArchiveEnv 0 "src" true albumEntries sceneWorld).stats
        = { totalFiles := 1, processed := 2, succeeded := 2, skipped := 0 } ∧
      (ScanningThread twinArchiveEnv 0 "src" true albumEntries sceneWorld).stats.processed + 1
        = 1 + 2 ∧
      ScanningThread twinArchiveEnv (0 + 3) "src" true albumEntries sceneWorld
        = ScanningThread twinArchiveEnv 0 "src" true albumEntries sceneWorld := by
  have h := archive_not_counted twinArchiveEnv 0 "src" albumEntries sceneWorld (by decide)
    (by decide) rfl (by decide)
  exact ⟨by decide, by decide, h.2.2.1.trans (by decide), h.2.2.2.2.2 (by decide) 3⟩

end MediaSorter
